import Mathlib

/-!
# A verification model of the FlashSim hybrid log-block FTL

This file embeds the flash translation layer implemented in
`src/ssd_ftl.cpp` (HingOn Miu's FTL for the FlashSim simulator) as
executable Lean definitions and proves properties of the embedding.

Modelling conventions:

* The geometry constants (`SSD_SIZE`, ..., `BLOCK_SIZE`, `BLOCK_ERASES`)
  are runtime configuration in the source; here they are fields of a
  `Geo` parameter.  `OVERPROVISIONING` enters the source only through
  the float expression `RAW_SIZE * OVERPROVISIONING / 100`; the model
  takes the resulting page count `OP_SIZE` as a natural-number field.
* The global arrays (`logical_to_emptiness`, `erase_count`,
  `logical_to_physical`, `data_to_log`), the manifest map
  `log_to_pages` and the free pool `op_blocks` form the record
  `FtlState`.  Arrays become total functions from indices, the
  `std::unordered_map` becomes an association list, the
  `std::vector` a `List` whose last element is the vector's back.
* `std::string` manifests become `List Char`; `std::to_string`
  becomes `to_string` below (decimal digits, no sign, matching the
  output for the `unsigned` values the source converts).
* Each operation that issues physical events returns an `OpResult`:
  its C++ return value, the successor state, and the list of events
  passed to `Controller::issue`, in order.  An issued `Event` is
  recorded as its type, its logical address, and the physical block
  base plus page index from which the source builds the `Address`
  via `map_physical_to_SSD` (the five-field tuple is the
  deterministic decomposition `map_physical_to_SSD` of that base,
  with the page field overridden; `PhysEvent.addr` recovers it).
* C++ `unsigned int` words in the written-page bitmap only ever hold
  bit positions `0..3` (the source shifts by `lba % sizeof(unsigned
  int)` with `sizeof(unsigned int) = 4`), so plain `Nat` bit
  operations model them without truncation.
* The two offset tables hold C++ `int`; they are modelled as `Int`.
  Where the source casts `int` sums to unsigned addresses the model
  uses `Int.toNat`; the programs proved about never drive these casts
  negative.
-/

namespace FlashFtl

/-- Geometry configuration (`ssd.h` extern constants plus the derived
overprovisioning page count `OP_SIZE`). -/
structure Geo where
  SSD_SIZE : Nat
  PACKAGE_SIZE : Nat
  DIE_SIZE : Nat
  PLANE_SIZE : Nat
  BLOCK_SIZE : Nat
  BLOCK_ERASES : Nat
  OP_SIZE : Nat

/-- `RAW_SIZE`: total number of pages in raw capacity. -/
def RAW_SIZE (g : Geo) : Nat :=
  g.SSD_SIZE * g.PACKAGE_SIZE * g.DIE_SIZE * g.PLANE_SIZE * g.BLOCK_SIZE

/-- `NUM_OF_PHY_B`: total number of physical blocks. -/
def NUM_OF_PHY_B (g : Geo) : Nat := RAW_SIZE g / g.BLOCK_SIZE

/-- `USABLE_SIZE`: pages in the usable capacity. -/
def USABLE_SIZE (g : Geo) : Nat := RAW_SIZE g - g.OP_SIZE

/-- `NUM_OF_LGC_B`: total number of logical blocks. -/
def NUM_OF_LGC_B (g : Geo) : Nat := USABLE_SIZE g / g.BLOCK_SIZE

/-- `sizeof(unsigned int)` on the platforms the simulator targets:
the source divides and reduces bit positions by this byte count. -/
def SIZEOF_UINT : Nat := 4

/-- `check_page_empty`: the written-page bitmap bit of `lba` is clear. -/
def check_page_empty (bm : Nat → Nat) (lba : Nat) : Bool :=
  (((bm (lba / SIZEOF_UINT)) >>> (lba % SIZEOF_UINT)) &&& 1) == 0

/-- `set_page_written`: set the written-page bitmap bit of `lba`. -/
def set_page_written (bm : Nat → Nat) (lba : Nat) : Nat → Nat :=
  fun w => if w = lba / SIZEOF_UINT then bm w ||| (1 <<< (lba % SIZEOF_UINT)) else bm w

/-- `check_physical_address`: logical page to physical page through the
logical-to-physical block offset table. -/
def check_physical_address (g : Geo) (ltp : Nat → Int) (logical_address : Nat) : Nat :=
  let page := logical_address % g.BLOCK_SIZE
  let nth_logical_block := logical_address / g.BLOCK_SIZE
  page + ((nth_logical_block : Int) + ltp nth_logical_block).toNat * g.BLOCK_SIZE

/-- `set_physical_address`: record the offset from logical block to
physical block. -/
def set_physical_address (g : Geo) (ltp : Nat → Int) (logical_address physical_address : Nat) :
    Nat → Int :=
  fun i => if i = logical_address / g.BLOCK_SIZE then
    ((physical_address / g.BLOCK_SIZE : Nat) : Int) - ((logical_address / g.BLOCK_SIZE : Nat) : Int)
  else ltp i

/-- `check_log_block`: the log page backing `data_address`, when the
data block has a log block mapped (offset `0` is the no-mapping
sentinel). -/
def check_log_block (g : Geo) (dtl : Nat → Int) (data_address : Nat) : Option Nat :=
  let page := data_address % g.BLOCK_SIZE
  let nth_data_block := data_address / g.BLOCK_SIZE
  let offset := dtl nth_data_block
  if offset = 0 then none
  else some (page + ((nth_data_block : Int) + offset).toNat * g.BLOCK_SIZE)

/-- `set_log_block`: record the offset from data block to log block. -/
def set_log_block (g : Geo) (dtl : Nat → Int) (data_address log_address : Nat) : Nat → Int :=
  fun i => if i = data_address / g.BLOCK_SIZE then
    ((log_address / g.BLOCK_SIZE : Nat) : Int) - ((data_address / g.BLOCK_SIZE : Nat) : Int)
  else dtl i

/-- `over_erase_limit`: erase counter of the block of
`physical_address` has reached `BLOCK_ERASES`. -/
def over_erase_limit (g : Geo) (ec : Nat → Nat) (physical_address : Nat) : Bool :=
  decide (g.BLOCK_ERASES ≤ ec (physical_address / g.BLOCK_SIZE))

/-- `update_erase_count`: bump the erase counter of the block of
`physical_address`. -/
def update_erase_count (g : Geo) (ec : Nat → Nat) (physical_address : Nat) : Nat → Nat :=
  fun b => if b = physical_address / g.BLOCK_SIZE then ec b + 1 else ec b

/-! ## Decimal serialization (`std::to_string`) and string search -/

/-- The ASCII digit for `d < 10`. -/
def digitChar : Nat → Char
  | 0 => '0'
  | 1 => '1'
  | 2 => '2'
  | 3 => '3'
  | 4 => '4'
  | 5 => '5'
  | 6 => '6'
  | 7 => '7'
  | 8 => '8'
  | 9 => '9'
  | _ => '?'

/-- The numeric value of an ASCII digit. -/
def digitVal : Char → Nat
  | '0' => 0
  | '1' => 1
  | '2' => 2
  | '3' => 3
  | '4' => 4
  | '5' => 5
  | '6' => 6
  | '7' => 7
  | '8' => 8
  | '9' => 9
  | _ => 0

/-- Decimal digits of `n`, least significant first (empty for `0`). -/
def decRev : Nat → List Char
  | 0 => []
  | n + 1 => digitChar ((n + 1) % 10) :: decRev ((n + 1) / 10)
decreasing_by exact Nat.div_lt_self (Nat.succ_pos n) (by omega)

/-- `std::to_string` for the unsigned values the source serializes. -/
def to_string (n : Nat) : List Char :=
  if n = 0 then ['0'] else (decRev n).reverse

/-- Does `pat` occur at the head of `s`?  (The matching step of
`std::string::find`/`rfind`.) -/
def matchAt : List Char → List Char → Bool
  | [], _ => true
  | _ :: _, [] => false
  | c :: p, d :: s => c == d && matchAt p s

/-- `std::string::find`: position of the first occurrence of `pat`. -/
def findSub (pat : List Char) : List Char → Option Nat
  | [] => if pat.isEmpty then some 0 else none
  | c :: cs => if matchAt pat (c :: cs) then some 0 else (findSub pat cs).map (· + 1)

/-- `std::string::rfind`: position of the last occurrence of `pat`. -/
def rfindSub (pat : List Char) : List Char → Option Nat
  | [] => if pat.isEmpty then some 0 else none
  | c :: cs =>
    match rfindSub pat cs with
    | some i => some (i + 1)
    | none => if matchAt pat (c :: cs) then some 0 else none

/-- The comma-walking loop of `fetch_log_page`: starting from the first
comma of `offsets` and hopping to each next comma until it reaches
position `loc` (a comma position), it counts the separators at
positions strictly before `loc`. -/
def count_commas (s : List Char) (loc : Nat) : Nat :=
  ((s.take loc).filter (fun c => c == ',')).length

/-- `fetch_log_page`: index of the freshest copy of `data_page` in a
log-block manifest string, through `rfind` of `",<n>,"` and a `find`
check for the leading entry. -/
def fetch_log_page (offsets : List Char) (data_page : Nat) : Option Nat :=
  if offsets.isEmpty then none
  else
    match rfindSub (',' :: (to_string data_page ++ [','])) offsets with
    | some loc => some (count_commas offsets loc + 1)
    | none =>
      match findSub (to_string data_page ++ [',']) offsets with
      | some 0 => some 0
      | _ => none

/-- `next_free_log_page`: the manifest length (the count of commas) if
a page is still free in the log block. -/
def next_free_log_page (g : Geo) (offsets : List Char) : Option Nat :=
  let count := (offsets.filter (fun c => c == ',')).length
  if g.BLOCK_SIZE ≤ count then none else some count

/-! ## Physical addresses and issued events -/

/-- The five-dimensional device address (`ssd.h` `Address`). -/
structure SSDAddr where
  package : Nat
  die : Nat
  plane : Nat
  block : Nat
  page : Nat
deriving DecidableEq

/-- `map_physical_to_SSD`: decompose a linear physical page number. -/
def map_physical_to_SSD (g : Geo) (phy : Nat) : SSDAddr where
  package := phy / g.BLOCK_SIZE / g.PLANE_SIZE / g.DIE_SIZE / g.PACKAGE_SIZE % g.SSD_SIZE
  die := phy / g.BLOCK_SIZE / g.PLANE_SIZE / g.DIE_SIZE % g.PACKAGE_SIZE
  plane := phy / g.BLOCK_SIZE / g.PLANE_SIZE % g.DIE_SIZE
  block := phy / g.BLOCK_SIZE % g.PLANE_SIZE
  page := phy % g.BLOCK_SIZE

/-- A physical event passed to `Controller::issue`, recorded as event
type, logical address, physical block base, and page index (erases are
block-level). -/
inductive PhysEvent where
  | rd (lba base page : Nat)
  | wr (lba base page : Nat)
  | er (lba base : Nat)
deriving DecidableEq

/-- The `Address` the source attaches to an issued event: the
decomposition of the recorded block base, carrying the recorded page. -/
def PhysEvent.addr (g : Geo) : PhysEvent → SSDAddr
  | .rd _ base page => { map_physical_to_SSD g base with page := page }
  | .wr _ base page => { map_physical_to_SSD g base with page := page }
  | .er _ base => { map_physical_to_SSD g base with page := 0 }

/-! ## FTL state -/

/-- The process-wide FTL state of `ssd_ftl.cpp`. -/
structure FtlState where
  logical_to_emptiness : Nat → Nat
  erase_count : Nat → Nat
  logical_to_physical : Nat → Int
  data_to_log : Nat → Int
  log_to_pages : List (Nat × List Char)
  op_blocks : List Nat

/-- Result of an operation: C++ return value, successor state, and the
events issued (in order). -/
structure OpResult (α : Type) where
  val : α
  st : FtlState
  trace : List PhysEvent

/-- `std::unordered_map::find` on the manifest map. -/
def mapFind (m : List (Nat × List Char)) (k : Nat) : Option (List Char) :=
  (m.find? (fun e => e.1 == k)).map (fun e => e.2)

/-- `std::unordered_map::operator[] =`: overwrite or append. -/
def mapAssign (m : List (Nat × List Char)) (k : Nat) (v : List Char) :
    List (Nat × List Char) :=
  if (mapFind m k).isSome then m.map (fun e => if e.1 == k then (k, v) else e)
  else m ++ [(k, v)]

/-- `std::unordered_map::insert`: no effect when the key is present. -/
def mapInsert (m : List (Nat × List Char)) (k : Nat) (v : List Char) :
    List (Nat × List Char) :=
  if (mapFind m k).isSome then m else m ++ [(k, v)]

/-- `std::unordered_map::erase` by key. -/
def mapErase (m : List (Nat × List Char)) (k : Nat) : List (Nat × List Char) :=
  m.filter (fun e => e.1 != k)

/-- The manifest string of a log block: the source dereferences the
`find` iterator; on a mapped log block the key is present (the
invariant proved below), and the model reads the empty manifest
otherwise. -/
def manifest_of (s : FtlState) (log_pba : Nat) : List Char :=
  (mapFind s.log_to_pages log_pba).getD []

/-- `cancel_log_block`: drop the manifest of the mapped log block (if
any) and clear the data-to-log offset. -/
def cancel_log_block (g : Geo) (s : FtlState) (data_address : Nat) : FtlState :=
  let s1 :=
    match check_log_block g s.data_to_log data_address with
    | some log_address =>
      if (mapFind s.log_to_pages log_address).isSome then
        { s with log_to_pages := mapErase s.log_to_pages log_address }
      else s
    | none => s
  { s1 with data_to_log := set_log_block g s1.data_to_log data_address data_address }

/-- The inner loop of the empty-block scans: no page of logical block
`i` is written. -/
def block_all_empty (g : Geo) (bm : Nat → Nat) (i : Nat) : Bool :=
  (List.range g.BLOCK_SIZE).all (fun j => check_page_empty bm (i * g.BLOCK_SIZE + j))

/-- The loop body of `find_empty_data_block_for_cleaning`. -/
def find_empty_clean_step (g : Geo) (s : FtlState) (acc : Nat × Option Nat) (i : Nat) :
    Nat × Option Nat :=
  let data_address := check_physical_address g s.logical_to_physical (i * g.BLOCK_SIZE)
  let count := s.erase_count (data_address / g.BLOCK_SIZE)
  if block_all_empty g s.logical_to_emptiness i ∧ count < acc.1 ∧ count < g.BLOCK_ERASES
  then (count, some data_address) else acc

/-- `find_empty_data_block_for_cleaning`: among data blocks of fully
unwritten logical blocks with erase count under the cap, the one with
the least erase count. -/
def find_empty_data_block_for_cleaning (g : Geo) (s : FtlState) : Option Nat :=
  ((List.range (NUM_OF_LGC_B g)).foldl (find_empty_clean_step g s)
    (g.BLOCK_ERASES + 1, none)).2

/-- The loop body of `find_empty_data_block_for_remapping`. -/
def find_empty_remap_step (g : Geo) (s : FtlState) (acc : Nat × Option (Nat × Nat)) (i : Nat) :
    Nat × Option (Nat × Nat) :=
  let data_address := check_physical_address g s.logical_to_physical (i * g.BLOCK_SIZE)
  let count := s.erase_count (data_address / g.BLOCK_SIZE)
  if block_all_empty g s.logical_to_emptiness i ∧ count < acc.1 ∧ count < g.BLOCK_ERASES
  then (count, some (data_address, i * g.BLOCK_SIZE)) else acc

/-- `find_empty_data_block_for_remapping`: as for cleaning, but also
yielding the owning logical block's base address. -/
def find_empty_data_block_for_remapping (g : Geo) (s : FtlState) : Option (Nat × Nat) :=
  ((List.range (NUM_OF_LGC_B g)).foldl (find_empty_remap_step g s)
    (g.BLOCK_ERASES + 1, none)).2

/-! ## Garbage collector -/

/-- `Garbage_collector::clean`: three-block merge of a data/log pair
through an empty scratch data block. -/
def clean (g : Geo) (s : FtlState) (logical_block data_pba log_pba : Nat) : OpResult Bool :=
  match find_empty_data_block_for_cleaning g s with
  | none => ⟨false, s, []⟩
  | some cln_pba =>
    let man := manifest_of s log_pba
    let copyOut := (List.range g.BLOCK_SIZE).flatMap (fun i =>
      if check_page_empty s.logical_to_emptiness (logical_block + i) then []
      else
        match fetch_log_page man i with
        | some log_page =>
          [PhysEvent.rd (logical_block + i) log_pba log_page,
           PhysEvent.wr (logical_block + i) cln_pba i]
        | none =>
          [PhysEvent.rd (logical_block + i) data_pba i,
           PhysEvent.wr (logical_block + i) cln_pba i])
    let copyBack := (List.range g.BLOCK_SIZE).flatMap (fun i =>
      if check_page_empty s.logical_to_emptiness (logical_block + i) then []
      else
        [PhysEvent.rd (logical_block + i) cln_pba i,
         PhysEvent.wr (logical_block + i) data_pba i])
    let ec1 := update_erase_count g s.erase_count data_pba
    let ec2 := update_erase_count g ec1 log_pba
    let ec3 := update_erase_count g ec2 cln_pba
    ⟨true, { s with erase_count := ec3 },
      copyOut
        ++ [PhysEvent.er logical_block data_pba, PhysEvent.er logical_block log_pba]
        ++ copyBack
        ++ [PhysEvent.er logical_block cln_pba]⟩

/-- The maximal-combined-erase scan opening `shuffle_data_log`:
`(max_count, max_erase_log, max_erase_data)` with `RAW_SIZE`
sentinels. -/
def shuffle_max_step (g : Geo) (s : FtlState) (acc : Nat × Nat × Nat) (i : Nat) :
    Nat × Nat × Nat :=
  let data_address := i * g.BLOCK_SIZE
  match check_log_block g s.data_to_log data_address with
  | none => acc
  | some log_address =>
    let log_count := s.erase_count (log_address / g.BLOCK_SIZE)
    let data_count := s.erase_count (data_address / g.BLOCK_SIZE)
    if log_count ≠ g.BLOCK_ERASES ∧ data_count ≠ g.BLOCK_ERASES ∧ acc.1 ≤ log_count + data_count
    then (log_count + data_count, log_address, data_address) else acc

/-- See `shuffle_max_step` for the loop body. -/
def shuffle_max_scan (g : Geo) (s : FtlState) : Nat × Nat × Nat :=
  (List.range (NUM_OF_PHY_B g)).foldl (shuffle_max_step g s) (0, RAW_SIZE g, RAW_SIZE g)

/-- The searches for the logical block mapped to a given physical data
block (first match, as the source loops break). -/
def find_logical_of (g : Geo) (s : FtlState) (target : Nat) : Option Nat :=
  ((List.range (NUM_OF_LGC_B g)).find? (fun i =>
    check_physical_address g s.logical_to_physical (i * g.BLOCK_SIZE) == target)).map
    (fun i => i * g.BLOCK_SIZE)

/-- The minimal-erase scan of `shuffle_data_log` over data blocks with
no log block mapped: `(min_count, min_erase_data)`. -/
def shuffle_min_step (g : Geo) (s : FtlState) (acc : Nat × Nat) (i : Nat) : Nat × Nat :=
  let data_address := check_physical_address g s.logical_to_physical (i * g.BLOCK_SIZE)
  match check_log_block g s.data_to_log data_address with
  | some _ => acc
  | none =>
    let count := s.erase_count (data_address / g.BLOCK_SIZE)
    if count < acc.1 then (count, data_address) else acc

/-- See `shuffle_min_step` for the loop body. -/
def shuffle_min_scan (g : Geo) (s : FtlState) : Nat × Nat :=
  (List.range (NUM_OF_LGC_B g)).foldl (shuffle_min_step g s) (g.BLOCK_ERASES + 1, RAW_SIZE g)

/-- `Garbage_collector::shuffle_data_log`: wear-balancing exchange of
the maximally erased mapped pair against the minimally erased unmapped
data block. -/
def shuffle_data_log (g : Geo) (s : FtlState) : OpResult Bool :=
  let m := shuffle_max_scan g s
  let max_erase_log := m.2.1
  let max_erase_data := m.2.2
  if max_erase_data = RAW_SIZE g ∨ max_erase_log = RAW_SIZE g then ⟨false, s, []⟩
  else
    match find_logical_of g s max_erase_data with
    | none => ⟨false, s, []⟩
    | some logical_block =>
      let mn := shuffle_min_scan g s
      let min_count := mn.1
      let min_erase_data := mn.2
      if min_erase_data = RAW_SIZE g then ⟨false, s, []⟩
      else if g.BLOCK_ERASES - 1 ≤ min_count then ⟨false, s, []⟩
      else
        let c := clean g s logical_block max_erase_data max_erase_log
        if c.val = false then ⟨false, c.st, c.trace⟩
        else
          let s2 := cancel_log_block g c.st max_erase_data
          match find_logical_of g s2 min_erase_data with
          | none => ⟨false, s2, c.trace⟩
          | some lb2 =>
            let copies := (List.range g.BLOCK_SIZE).flatMap (fun i =>
              if check_page_empty s2.logical_to_emptiness (lb2 + i) then []
              else
                [PhysEvent.rd (lb2 + i) min_erase_data i,
                 PhysEvent.wr (lb2 + i) max_erase_log i])
            let s3 := { s2 with
              logical_to_physical :=
                set_physical_address g s2.logical_to_physical lb2 max_erase_log,
              op_blocks := s2.op_blocks ++ [min_erase_data] }
            ⟨true, s3, c.trace ++ copies ++ [PhysEvent.er lb2 min_erase_data]⟩

/-- The pop loop of `next_unmapped_log_block`: `v` models the vector
(`dropLast` is `pop_back`, the scanned slot is `v[v.length - 1 - i]`,
re-read against the shrunken vector exactly as the source does).  The
loop pops one element per iteration, so it runs at most `v.length`
iterations; `fuel` carries that structural bound, and when it runs out
the vector is empty so the exhaustion result coincides with the
guard-false result of the source loop. -/
def numb_go (g : Geo) (ec : Nat → Nat) : Nat → List Nat → Nat → Option Nat × List Nat
  | 0, v, _ => (none, v)
  | fuel + 1, v, i =>
    if i < v.length then
      let log_address := v.getD (v.length - 1 - i) 0
      let v' := v.dropLast
      if over_erase_limit g ec log_address then numb_go g ec fuel v' (i + 1)
      else (some log_address, v')
    else (none, v)

/-- The pop loop entered with the vector-length fuel bound. -/
def numb_loop (g : Geo) (ec : Nat → Nat) (v : List Nat) (i : Nat) : Option Nat × List Nat :=
  numb_go g ec v.length v i

/-- `Garbage_collector::next_unmapped_log_block`. -/
def next_unmapped_log_block (g : Geo) (s : FtlState) : OpResult (Option Nat) :=
  if s.op_blocks.isEmpty then
    let r := shuffle_data_log g s
    if r.val = false then ⟨none, r.st, r.trace⟩
    else
      let p := numb_loop g r.st.erase_count r.st.op_blocks 0
      ⟨p.1, { r.st with op_blocks := p.2 }, r.trace⟩
  else
    let p := numb_loop g s.erase_count s.op_blocks 0
    ⟨p.1, { s with op_blocks := p.2 }, []⟩

/-- The copy/remap tail of `remap_data_block`, shared by the two
acquisition paths (`newlb = none` models the `RAW_SIZE` sentinel). -/
def remap_data_core (g : Geo) (s : FtlState)
    (logical_block old_data_pba log_pba new_data_pba : Nat) (newlb : Option Nat)
    (tr0 : List PhysEvent) : OpResult Nat :=
  let man := manifest_of s log_pba
  let copies := (List.range g.BLOCK_SIZE).flatMap (fun i =>
    if check_page_empty s.logical_to_emptiness (logical_block + i) then []
    else
      match fetch_log_page man i with
      | some _ => []
      | none =>
        [PhysEvent.rd (logical_block + i) old_data_pba i,
         PhysEvent.wr (logical_block + i) new_data_pba i])
  let ltp1 :=
    match newlb with
    | some nlb => set_physical_address g s.logical_to_physical nlb old_data_pba
    | none => s.logical_to_physical
  let ltp2 := set_physical_address g ltp1 logical_block new_data_pba
  let dtl1 := set_log_block g s.data_to_log old_data_pba old_data_pba
  let dtl2 := set_log_block g dtl1 new_data_pba log_pba
  ⟨new_data_pba, { s with logical_to_physical := ltp2, data_to_log := dtl2 }, tr0 ++ copies⟩

/-- `Garbage_collector::remap_data_block`: move live data-block pages
out of an old data block at the erase cap (failure returns the
`log_pba` sentinel). -/
def remap_data_block (g : Geo) (s : FtlState)
    (logical_block old_data_pba log_pba : Nat) : OpResult Nat :=
  match find_empty_data_block_for_remapping g s with
  | some p => remap_data_core g s logical_block old_data_pba log_pba p.1 (some p.2) []
  | none =>
    let r := next_unmapped_log_block g s
    match r.val with
    | none => ⟨log_pba, r.st, r.trace⟩
    | some new_data_pba =>
      remap_data_core g r.st logical_block old_data_pba log_pba new_data_pba none r.trace

/-- The page-compaction fold body of `remap_log_block`: count, offset
string and READ/WRITE pairs of the live log pages. -/
def remap_log_step (g : Geo) (s1 : FtlState) (man : List Char)
    (logical_block old_log_pba new_log_pba : Nat)
    (acc : Nat × List Char × List PhysEvent) (i : Nat) : Nat × List Char × List PhysEvent :=
  if check_page_empty s1.logical_to_emptiness (logical_block + i) then acc
  else
    match fetch_log_page man i with
    | none => acc
    | some log_page =>
      (acc.1 + 1,
       acc.2.1 ++ (to_string i ++ [',']),
       acc.2.2 ++
         [PhysEvent.rd (logical_block + i) old_log_pba log_page,
          PhysEvent.wr (logical_block + i) new_log_pba acc.1])

/-- `Garbage_collector::remap_log_block`: compact the live log pages
into a fresh log block (failure returns the `data_pba` sentinel). -/
def remap_log_block (g : Geo) (s : FtlState)
    (logical_block data_pba old_log_pba : Nat) : OpResult Nat :=
  let r := next_unmapped_log_block g s
  match r.val with
  | none => ⟨data_pba, r.st, r.trace⟩
  | some new_log_pba =>
    let s1 := r.st
    let man := manifest_of s1 old_log_pba
    let w := (List.range g.BLOCK_SIZE).foldl
      (remap_log_step g s1 man logical_block old_log_pba new_log_pba)
      (0, [], [])
    let s2 := cancel_log_block g s1 data_pba
    let s3 := { s2 with
      data_to_log := set_log_block g s2.data_to_log data_pba new_log_pba,
      log_to_pages := mapAssign s2.log_to_pages new_log_pba w.2.1 }
    ⟨new_log_pba, s3, r.trace ++ w.2.2⟩

/-! ## The translator -/

/-- Host event type (`ssd.h` `event_type`). -/
inductive EvType where
  | READ
  | WRITE
  | ERASE
  | MERGE
deriving DecidableEq

/-- `translate`'s status results. -/
inductive Status where
  | FAILURE
  | SUCCESS
deriving DecidableEq

/-- A host event as `translate` consumes it. -/
structure HostEvent where
  op : EvType
  lba : Nat
deriving DecidableEq

/-- Tail of the full-log write path: invoke `clean` and reseed the log
manifest with the written page. -/
def translate_do_clean (g : Geo) (s : FtlState) (la page data_address log_address : Nat)
    (tr0 : List PhysEvent) : OpResult (Status × Option (Nat × Nat)) :=
  let c := clean g s (la - page) data_address log_address
  if c.val = false then ⟨(Status.FAILURE, none), c.st, tr0 ++ c.trace⟩
  else
    let s1 := { c.st with
      log_to_pages := mapAssign c.st.log_to_pages log_address (to_string page ++ [',']) }
    ⟨(Status.SUCCESS, some (log_address, 0)), s1, tr0 ++ c.trace⟩

/-- Middle of the full-log write path: remap the log block when it is
at the erase cap. -/
def translate_remap_log (g : Geo) (s : FtlState) (la page data_address log_address : Nat)
    (tr0 : List PhysEvent) : OpResult (Status × Option (Nat × Nat)) :=
  if over_erase_limit g s.erase_count log_address then
    let r := remap_log_block g s (la - page) data_address log_address
    if r.val = data_address then ⟨(Status.FAILURE, none), r.st, tr0 ++ r.trace⟩
    else translate_do_clean g r.st la page data_address r.val (tr0 ++ r.trace)
  else translate_do_clean g s la page data_address log_address tr0

/-- Head of the full-log write path: remap the data block when it is
at the erase cap. -/
def translate_full_log (g : Geo) (s : FtlState) (la page data_address log_address : Nat) :
    OpResult (Status × Option (Nat × Nat)) :=
  if over_erase_limit g s.erase_count data_address then
    let r := remap_data_block g s (la - page) data_address log_address
    if log_address = r.val then ⟨(Status.FAILURE, none), r.st, r.trace⟩
    else translate_remap_log g r.st la page r.val log_address r.trace
  else translate_remap_log g s la page data_address log_address []

/-- `Ftl::translate`: per-host-event address translation.  The second
result component is the physical `(block base, page)` the host event's
address is set to on success. -/
def translate (g : Geo) (s : FtlState) (e : HostEvent) : OpResult (Status × Option (Nat × Nat)) :=
  let la := e.lba
  if USABLE_SIZE g ≤ la then ⟨(Status.FAILURE, none), s, []⟩
  else
    let pa := check_physical_address g s.logical_to_physical la
    let page := pa % g.BLOCK_SIZE
    let data_address := pa - page
    match e.op with
    | EvType.WRITE =>
      if check_page_empty s.logical_to_emptiness la then
        ⟨(Status.SUCCESS, some (data_address, page)),
         { s with logical_to_emptiness := set_page_written s.logical_to_emptiness la }, []⟩
      else
        match check_log_block g s.data_to_log data_address with
        | some log_address =>
          let man := manifest_of s log_address
          match next_free_log_page g man with
          | some log_page =>
            ⟨(Status.SUCCESS, some (log_address, log_page)),
             { s with log_to_pages :=
                mapAssign s.log_to_pages log_address (man ++ (to_string page ++ [','])) }, []⟩
          | none => translate_full_log g s la page data_address log_address
        | none =>
          let r := next_unmapped_log_block g s
          match r.val with
          | some log_address =>
            ⟨(Status.SUCCESS, some (log_address, 0)),
             { r.st with
               data_to_log := set_log_block g r.st.data_to_log data_address log_address,
               log_to_pages :=
                 mapInsert r.st.log_to_pages log_address (to_string page ++ [',']) },
             r.trace⟩
          | none => ⟨(Status.FAILURE, none), r.st, r.trace⟩
    | EvType.READ =>
      if check_page_empty s.logical_to_emptiness la then ⟨(Status.FAILURE, none), s, []⟩
      else
        match check_log_block g s.data_to_log data_address with
        | some log_address =>
          match fetch_log_page (manifest_of s log_address) page with
          | some log_page => ⟨(Status.SUCCESS, some (log_address, log_page)), s, []⟩
          | none => ⟨(Status.SUCCESS, some (data_address, page)), s, []⟩
        | none => ⟨(Status.SUCCESS, some (data_address, page)), s, []⟩
    | _ => ⟨(Status.FAILURE, none), s, []⟩

/-- `Ftl::init_ftl_user`: zero-filled tables and the over-provisioned
tail as the free pool (the loop pushes `USABLE_SIZE + k * BLOCK_SIZE`
while below `RAW_SIZE`, one block per stride). -/
def init_ftl_user (g : Geo) : FtlState where
  logical_to_emptiness := fun _ => 0
  erase_count := fun _ => 0
  logical_to_physical := fun _ => 0
  data_to_log := fun _ => 0
  log_to_pages := []
  op_blocks :=
    (List.range ((RAW_SIZE g - USABLE_SIZE g + g.BLOCK_SIZE - 1) / g.BLOCK_SIZE)).map
      (fun k => USABLE_SIZE g + k * g.BLOCK_SIZE)

/-- Fold a host workload through `translate` from the initialized
state. -/
def runEvents (g : Geo) (evs : List HostEvent) : FtlState :=
  evs.foldl (fun s e => (translate g s e).st) (init_ftl_user g)

/-! ## The written-page bitmap (claims C7, C10) -/

/-- Reading a bitmap bit is testing bit `lba % 4` of word `lba / 4`. -/
theorem check_page_empty_testBit (bm : Nat → Nat) (lba : Nat) :
    check_page_empty bm lba = ! (bm (lba / SIZEOF_UINT)).testBit (lba % SIZEOF_UINT) := by
  unfold check_page_empty
  rw [Nat.and_one_is_mod, Nat.shiftRight_eq_div_pow, Nat.testBit_to_div_mod]
  rcases Nat.mod_two_eq_zero_or_one (bm (lba / SIZEOF_UINT) / 2 ^ (lba % SIZEOF_UINT)) with h | h <;>
    simp [h]

/-- C7, counterexample.  The source indexes the bitmap by
`sizeof(unsigned int) = 4`, not by the 32-bit width of a word: setting
logical page 4 on an all-zero bitmap does not turn on bit 4 of word
`4 / 32 = 0` as the claimed layout demands (the flag lands in word 1
instead). -/
theorem c7_bitmap_width_counterexample :
    ¬ (∀ (bm : Nat → Nat) (L : Nat),
        (set_page_written bm L) (L / 32) = bm (L / 32) ||| (1 <<< (L % 32))) := by
  intro h
  have h4 := h (fun _ => 0) 4
  simp [set_page_written, SIZEOF_UINT] at h4

/-- C7, amended: the written flag of logical page `L` is stored at bit
index `L mod W` inside word `L / W` of the bitmap where `W` is
`sizeof(unsigned int) = 4` (the word's byte count, not its bit width),
and every logical address below `USABLE_SIZE` maps to a bit inside the
`⌈USABLE_SIZE / 4⌉` words the source allocates. -/
theorem c7_bitmap_layout (g : Geo) (bm : Nat → Nat) (L : Nat) :
    ((set_page_written bm L) (L / SIZEOF_UINT)
        = bm (L / SIZEOF_UINT) ||| (1 <<< (L % SIZEOF_UINT)))
    ∧ (∀ w, w ≠ L / SIZEOF_UINT → set_page_written bm L w = bm w)
    ∧ (L < USABLE_SIZE g
        → L / SIZEOF_UINT < (USABLE_SIZE g + SIZEOF_UINT - 1) / SIZEOF_UINT) := by
  refine ⟨by simp [set_page_written], fun w hw => by simp [set_page_written, hw], fun hL => ?_⟩
  simp only [SIZEOF_UINT] at *
  omega

/-- C7, witness for the amended layout at a concrete address. -/
theorem c7_bitmap_layout_witness :
    ((set_page_written (fun _ => 0) 5) (5 / SIZEOF_UINT)
        = (0 : Nat) ||| (1 <<< (5 % SIZEOF_UINT)))
    ∧ (∀ w, w ≠ 5 / SIZEOF_UINT → set_page_written (fun _ => 0) 5 w = 0)
    ∧ (5 < USABLE_SIZE ⟨1, 1, 1, 4, 4, 5, 4⟩
        → 5 / SIZEOF_UINT < (USABLE_SIZE ⟨1, 1, 1, 4, 4, 5, 4⟩ + SIZEOF_UINT - 1) / SIZEOF_UINT) :=
  c7_bitmap_layout ⟨1, 1, 1, 4, 4, 5, 4⟩ (fun _ => 0) 5

/-- C10: marking logical page `L` written makes `check_page_empty L`
false, and leaves `check_page_empty L'` unchanged for every other
logical page `L'` (the word/bit position derived from `L` is injective
in `L`). -/
theorem c10_bitmap_roundtrip_frame (bm : Nat → Nat) (L L' : Nat) :
    check_page_empty (set_page_written bm L) L = false
    ∧ (L' ≠ L → check_page_empty (set_page_written bm L) L' = check_page_empty bm L') := by
  constructor
  · rw [check_page_empty_testBit]
    simp [set_page_written, Nat.shiftLeft_eq, Nat.testBit_two_pow]
  · intro hne
    rw [check_page_empty_testBit, check_page_empty_testBit]
    unfold set_page_written
    by_cases hw : L' / SIZEOF_UINT = L / SIZEOF_UINT
    · have hm : L % SIZEOF_UINT ≠ L' % SIZEOF_UINT := by
        simp only [SIZEOF_UINT] at *
        omega
      rw [if_pos hw, hw]
      simp [Nat.shiftLeft_eq, Nat.testBit_two_pow_of_ne hm]
    · rw [if_neg hw]

/-- C10, witness: set page 3, page 7 is untouched. -/
theorem c10_bitmap_roundtrip_frame_witness :
    check_page_empty (set_page_written (fun _ => 0) 3) 3 = false
    ∧ check_page_empty (set_page_written (fun _ => 0) 3) 7 = check_page_empty (fun _ => 0) 7 :=
  ⟨(c10_bitmap_roundtrip_frame (fun _ => 0) 3 7).1,
   (c10_bitmap_roundtrip_frame (fun _ => 0) 3 7).2 (by decide)⟩

/-! ## The read path of the translator (claims C6, C8) -/

/-- C6: a READ of an in-range logical address whose written bit is
clear fails, and the entire FTL state (bitmap, both offset tables, the
manifests, the erase counts and the free pool) is returned unchanged. -/
theorem c6_read_unwritten_fails (g : Geo) (s : FtlState) (L : Nat)
    (hL : L < USABLE_SIZE g)
    (hbit : check_page_empty s.logical_to_emptiness L = true) :
    translate g s ⟨EvType.READ, L⟩ = ⟨(Status.FAILURE, none), s, []⟩ := by
  unfold translate
  rw [if_neg (by show ¬ USABLE_SIZE g ≤ L; omega)]
  simp [hbit]

/-- C6, witness: reading logical page 5 of the freshly initialized
state fails and changes nothing. -/
theorem c6_read_unwritten_fails_witness :
    translate ⟨1, 1, 1, 4, 4, 5, 4⟩ (init_ftl_user ⟨1, 1, 1, 4, 4, 5, 4⟩) ⟨EvType.READ, 5⟩
      = ⟨(Status.FAILURE, none), init_ftl_user ⟨1, 1, 1, 4, 4, 5, 4⟩, []⟩ :=
  c6_read_unwritten_fails ⟨1, 1, 1, 4, 4, 5, 4⟩ _ 5 (by decide) (by decide)

/-- C8: translating a READ issues no physical event and modifies no
FTL mapping state, so a second READ translation of the same logical
address resolves to the same result (status and physical page). -/
theorem c8_read_idempotent (g : Geo) (s : FtlState) (L : Nat) :
    (translate g s ⟨EvType.READ, L⟩).st = s
    ∧ (translate g s ⟨EvType.READ, L⟩).trace = []
    ∧ (translate g ((translate g s ⟨EvType.READ, L⟩).st) ⟨EvType.READ, L⟩).val
        = (translate g s ⟨EvType.READ, L⟩).val := by
  have h : (translate g s ⟨EvType.READ, L⟩).st = s
      ∧ (translate g s ⟨EvType.READ, L⟩).trace = [] := by
    unfold translate
    dsimp only
    split
    · exact ⟨rfl, rfl⟩
    · split
      · exact ⟨rfl, rfl⟩
      · split
        · split <;> exact ⟨rfl, rfl⟩
        · exact ⟨rfl, rfl⟩
  exact ⟨h.1, h.2, by rw [h.1]⟩

/-! ## The free-pool pop loop (claim C3) -/

/-- C3: evaluation of `next_unmapped_log_block`'s pop loop at the
inputs where its indexing slip shows.  The loop reads
`op_blocks[op_blocks.size() - 1 - i]` after already having popped `i`
elements, so from the second iteration on it no longer examines the
top.  With pool `[4, 8]` (top `8` at the erase cap, `4` fresh) it
reports absent although the fresh block `4` is still in the pool; with
pool `[4, 8, 12]` (top `12` at the cap) it returns block `4` while
popping block `8`, leaving the returned block `4` inside the pool. -/
theorem c3_pop_loop_eval :
    (next_unmapped_log_block ⟨1, 1, 1, 4, 4, 1, 4⟩
        ⟨fun _ => 0, fun b => if b = 2 then 1 else 0, fun _ => 0, fun _ => 0, [], [4, 8]⟩).val
        = none
    ∧ (next_unmapped_log_block ⟨1, 1, 1, 4, 4, 1, 4⟩
        ⟨fun _ => 0, fun b => if b = 2 then 1 else 0, fun _ => 0, fun _ => 0, [], [4, 8]⟩).st.op_blocks
        = [4]
    ∧ (next_unmapped_log_block ⟨1, 1, 1, 4, 4, 1, 4⟩
        ⟨fun _ => 0, fun b => if b = 3 then 1 else 0, fun _ => 0, fun _ => 0, [], [4, 8, 12]⟩).val
        = some 4
    ∧ (next_unmapped_log_block ⟨1, 1, 1, 4, 4, 1, 4⟩
        ⟨fun _ => 0, fun b => if b = 3 then 1 else 0, fun _ => 0, fun _ => 0, [], [4, 8, 12]⟩).st.op_blocks
        = [4] := by
  refine ⟨?_, ?_, ?_, ?_⟩ <;> rfl

/-! ## Merging loops as filters -/

/-- The copy loops guard each step on the written bit; dropping the
unwritten offsets first gives the same event list. -/
theorem flatMap_if_filter {α β : Type} (l : List α) (p : α → Bool) (f : α → List β) :
    (l.flatMap fun i => if p i then [] else f i)
      = (l.filter fun i => ! p i).flatMap f := by
  induction l with
  | nil => rfl
  | cons a t ih => by_cases h : p a <;> simp [h, ih]

/-! ## The three-block merge (claim C1) -/

/-- C1: a successful `clean(logical_block, D, Λ)` issues exactly, in
order: for each written page offset `i`, a READ from `(Λ, k)` when
`fetch_log_page` resolves `i` at manifest index `k` and otherwise from
`(D, i)`, then a WRITE to `(scratch, i)`; an ERASE of `D`; an ERASE of
`Λ`; for each written `i` a READ from `(scratch, i)` and a WRITE to
`(D, i)`; an ERASE of the scratch block; and it bumps the erase
counters of the three participating blocks by one each (once per role;
one each and nothing else when the three blocks are distinct). -/
theorem c1_clean_events (g : Geo) (s : FtlState) (lb D L : Nat)
    (h : (clean g s lb D L).val = true) :
    ∃ cln, find_empty_data_block_for_cleaning g s = some cln
      ∧ (clean g s lb D L).trace =
          ((List.range g.BLOCK_SIZE).filter
              (fun i => ! check_page_empty s.logical_to_emptiness (lb + i))).flatMap
            (fun i =>
              [(match fetch_log_page (manifest_of s L) i with
                | some k => PhysEvent.rd (lb + i) L k
                | none => PhysEvent.rd (lb + i) D i),
               PhysEvent.wr (lb + i) cln i])
          ++ [PhysEvent.er lb D, PhysEvent.er lb L]
          ++ ((List.range g.BLOCK_SIZE).filter
              (fun i => ! check_page_empty s.logical_to_emptiness (lb + i))).flatMap
            (fun i => [PhysEvent.rd (lb + i) cln i, PhysEvent.wr (lb + i) D i])
          ++ [PhysEvent.er lb cln]
      ∧ (∀ b, (clean g s lb D L).st.erase_count b =
          s.erase_count b
            + (if b = D / g.BLOCK_SIZE then 1 else 0)
            + (if b = L / g.BLOCK_SIZE then 1 else 0)
            + (if b = cln / g.BLOCK_SIZE then 1 else 0))
      ∧ (D / g.BLOCK_SIZE ≠ L / g.BLOCK_SIZE → D / g.BLOCK_SIZE ≠ cln / g.BLOCK_SIZE →
          L / g.BLOCK_SIZE ≠ cln / g.BLOCK_SIZE →
          (clean g s lb D L).st.erase_count (D / g.BLOCK_SIZE)
              = s.erase_count (D / g.BLOCK_SIZE) + 1
            ∧ (clean g s lb D L).st.erase_count (L / g.BLOCK_SIZE)
              = s.erase_count (L / g.BLOCK_SIZE) + 1
            ∧ (clean g s lb D L).st.erase_count (cln / g.BLOCK_SIZE)
              = s.erase_count (cln / g.BLOCK_SIZE) + 1)
      ∧ (∀ b, b ≠ D / g.BLOCK_SIZE → b ≠ L / g.BLOCK_SIZE → b ≠ cln / g.BLOCK_SIZE →
          (clean g s lb D L).st.erase_count b = s.erase_count b) := by
  have hne : find_empty_data_block_for_cleaning g s ≠ none := by
    intro hn
    unfold clean at h
    rw [hn] at h
    exact absurd h (by simp)
  obtain ⟨cln, hf⟩ := Option.ne_none_iff_exists'.mp hne
  have hpt : ∀ b, (clean g s lb D L).st.erase_count b =
      s.erase_count b
        + (if b = D / g.BLOCK_SIZE then 1 else 0)
        + (if b = L / g.BLOCK_SIZE then 1 else 0)
        + (if b = cln / g.BLOCK_SIZE then 1 else 0) := by
    intro b
    simp only [clean, hf]
    unfold update_erase_count
    split_ifs <;> omega
  refine ⟨cln, hf, ?_, hpt, fun h1 h2 h3 => ?_, fun b h1 h2 h3 => ?_⟩
  · simp only [clean, hf]
    rw [flatMap_if_filter, flatMap_if_filter]
    congr 3
    exact congrArg _ (funext fun i => by
      cases fetch_log_page (manifest_of s L) i <;> rfl)
  · refine ⟨?_, ?_, ?_⟩ <;> rw [hpt] <;>
      simp [h1, h2, h3, Ne.symm h1, Ne.symm h2, Ne.symm h3]
  · rw [hpt]
    simp [h1, h2, h3]

/-- A concrete geometry for witnesses: 1 package, 1 die, 1 plane, 4
blocks of 4 pages, erase cap 5, 4 over-provisioned pages (the spec's
test geometry). -/
def wgeo : Geo := ⟨1, 1, 1, 4, 4, 5, 4⟩

/-- A concrete mid-life state: logical page 0 written, data block 0
mapped to log block base 12 with a full manifest. -/
def wclean_state : FtlState :=
  ⟨fun w => if w = 0 then 1 else 0, fun _ => 0, fun _ => 0,
   fun d => if d = 0 then 3 else 0,
   [(12, ['0', ',', '0', ',', '0', ',', '0', ','])], []⟩

/-- C1, witness: the merge of data block 0 with log block 12 in
`wclean_state` succeeds, so the event/count description applies. -/
theorem c1_clean_events_witness :
    (clean wgeo wclean_state 0 0 12).val = true
    ∧ (∃ cln, find_empty_data_block_for_cleaning wgeo wclean_state = some cln
      ∧ (clean wgeo wclean_state 0 0 12).trace =
          ((List.range wgeo.BLOCK_SIZE).filter
              (fun i => ! check_page_empty wclean_state.logical_to_emptiness (0 + i))).flatMap
            (fun i =>
              [(match fetch_log_page (manifest_of wclean_state 12) i with
                | some k => PhysEvent.rd (0 + i) 12 k
                | none => PhysEvent.rd (0 + i) 0 i),
               PhysEvent.wr (0 + i) cln i])
          ++ [PhysEvent.er 0 0, PhysEvent.er 0 12]
          ++ ((List.range wgeo.BLOCK_SIZE).filter
              (fun i => ! check_page_empty wclean_state.logical_to_emptiness (0 + i))).flatMap
            (fun i => [PhysEvent.rd (0 + i) cln i, PhysEvent.wr (0 + i) 0 i])
          ++ [PhysEvent.er 0 cln]
      ∧ (∀ b, (clean wgeo wclean_state 0 0 12).st.erase_count b =
          wclean_state.erase_count b
            + (if b = 0 / wgeo.BLOCK_SIZE then 1 else 0)
            + (if b = 12 / wgeo.BLOCK_SIZE then 1 else 0)
            + (if b = cln / wgeo.BLOCK_SIZE then 1 else 0))
      ∧ (0 / wgeo.BLOCK_SIZE ≠ 12 / wgeo.BLOCK_SIZE → 0 / wgeo.BLOCK_SIZE ≠ cln / wgeo.BLOCK_SIZE →
          12 / wgeo.BLOCK_SIZE ≠ cln / wgeo.BLOCK_SIZE →
          (clean wgeo wclean_state 0 0 12).st.erase_count (0 / wgeo.BLOCK_SIZE)
              = wclean_state.erase_count (0 / wgeo.BLOCK_SIZE) + 1
            ∧ (clean wgeo wclean_state 0 0 12).st.erase_count (12 / wgeo.BLOCK_SIZE)
              = wclean_state.erase_count (12 / wgeo.BLOCK_SIZE) + 1
            ∧ (clean wgeo wclean_state 0 0 12).st.erase_count (cln / wgeo.BLOCK_SIZE)
              = wclean_state.erase_count (cln / wgeo.BLOCK_SIZE) + 1)
      ∧ (∀ b, b ≠ 0 / wgeo.BLOCK_SIZE → b ≠ 12 / wgeo.BLOCK_SIZE → b ≠ cln / wgeo.BLOCK_SIZE →
          (clean wgeo wclean_state 0 0 12).st.erase_count b = wclean_state.erase_count b)) :=
  ⟨by decide, c1_clean_events wgeo wclean_state 0 0 12 (by decide)⟩

/-! ## Frame lemmas -/

/-- `clean` touches only the erase counters. -/
theorem clean_frame (g : Geo) (s : FtlState) (lb D L : Nat) :
    (clean g s lb D L).st.logical_to_emptiness = s.logical_to_emptiness
    ∧ (clean g s lb D L).st.logical_to_physical = s.logical_to_physical
    ∧ (clean g s lb D L).st.data_to_log = s.data_to_log
    ∧ (clean g s lb D L).st.log_to_pages = s.log_to_pages
    ∧ (clean g s lb D L).st.op_blocks = s.op_blocks := by
  unfold clean
  cases find_empty_data_block_for_cleaning g s <;> exact ⟨rfl, rfl, rfl, rfl, rfl⟩

/-- `cancel_log_block` touches only the data-to-log table and the
manifest map. -/
theorem cancel_log_block_frame (g : Geo) (s : FtlState) (d : Nat) :
    (cancel_log_block g s d).logical_to_emptiness = s.logical_to_emptiness
    ∧ (cancel_log_block g s d).erase_count = s.erase_count
    ∧ (cancel_log_block g s d).logical_to_physical = s.logical_to_physical
    ∧ (cancel_log_block g s d).op_blocks = s.op_blocks := by
  unfold cancel_log_block
  cases check_log_block g s.data_to_log d with
  | none => exact ⟨rfl, rfl, rfl, rfl⟩
  | some la =>
    by_cases hm : (mapFind s.log_to_pages la).isSome <;> simp only [hm] <;>
      exact ⟨rfl, rfl, rfl, rfl⟩

/-! ## The wear-leveling shuffle (claim C4) -/

/-- A concrete state for the shuffle: logical pages 0 and 4 written,
data block 0 (heavily paired) mapped to log block base 12, data blocks
4 and 8 unmapped, all erase counters 0. -/
def wshuffle_state : FtlState :=
  ⟨fun w => if w ≤ 1 then 1 else 0, fun _ => 0, fun _ => 0,
   fun d => if d = 0 then 3 else 0, [(12, ['0', ','])], []⟩

/-- C4, counterexample.  In this successful run the chosen maximal
pair is data block base 0 with log block base 12, but the post-`clean`
copy reads from block base 4 — the *minimum*-erase unmapped data block
— writes it into the old log block 12, then erases base 4 (never
base 0), and pushes base 4 (not the old data block 0) onto the free
pool: the claim's "old (heavily erased) data block" is not the block
that is copied from, erased, or pushed. -/
theorem c4_shuffle_counterexample :
    (shuffle_max_scan wgeo wshuffle_state).2.2 = 0
    ∧ (shuffle_min_scan wgeo wshuffle_state).2 = 4
    ∧ (shuffle_data_log wgeo wshuffle_state).val = true
    ∧ (shuffle_data_log wgeo wshuffle_state).st.op_blocks = [4]
    ∧ (shuffle_data_log wgeo wshuffle_state).trace.drop 7 =
        [PhysEvent.rd 4 4 0, PhysEvent.wr 4 12 0, PhysEvent.er 4 4]
    ∧ (∀ e ∈ (shuffle_data_log wgeo wshuffle_state).trace.drop 7, e ≠ PhysEvent.er 4 0)
    := by decide

/-- C4, amended: in every successful `shuffle_data_log` run, after the
clean of the maximally erased data/log pair the procedure re-finds the
logical block owned by the *minimum*-erase unmapped data block, copies
every written page of that logical block from that lightly erased data
block into the old (heavily erased) log block via READ/WRITE pairs,
erases that lightly erased data block, redirects that logical block's
logical-to-data mapping to the old log block, and pushes that lightly
erased data block onto the free pool. -/
theorem c4_shuffle_demotes_min (g : Geo) (s : FtlState)
    (h : (shuffle_data_log g s).val = true) :
    ∃ logical_block lb2,
      find_logical_of g s (shuffle_max_scan g s).2.2 = some logical_block
      ∧ find_logical_of g
          (cancel_log_block g
            (clean g s logical_block (shuffle_max_scan g s).2.2 (shuffle_max_scan g s).2.1).st
            (shuffle_max_scan g s).2.2)
          (shuffle_min_scan g s).2 = some lb2
      ∧ (shuffle_data_log g s).trace =
          (clean g s logical_block (shuffle_max_scan g s).2.2 (shuffle_max_scan g s).2.1).trace
          ++ ((List.range g.BLOCK_SIZE).filter
              (fun i => ! check_page_empty s.logical_to_emptiness (lb2 + i))).flatMap
            (fun i => [PhysEvent.rd (lb2 + i) (shuffle_min_scan g s).2 i,
                       PhysEvent.wr (lb2 + i) (shuffle_max_scan g s).2.1 i])
          ++ [PhysEvent.er lb2 (shuffle_min_scan g s).2]
      ∧ (shuffle_data_log g s).st.op_blocks = s.op_blocks ++ [(shuffle_min_scan g s).2]
      ∧ (shuffle_data_log g s).st.logical_to_physical =
          set_physical_address g
            (cancel_log_block g
              (clean g s logical_block (shuffle_max_scan g s).2.2 (shuffle_max_scan g s).2.1).st
              (shuffle_max_scan g s).2.2).logical_to_physical
            lb2 (shuffle_max_scan g s).2.1 := by
  have h1 : ¬ ((shuffle_max_scan g s).2.2 = RAW_SIZE g ∨ (shuffle_max_scan g s).2.1 = RAW_SIZE g) := by
    intro hc
    unfold shuffle_data_log at h
    dsimp only at h
    rw [if_pos hc] at h
    simp at h
  obtain ⟨lb, hlb⟩ : ∃ x, find_logical_of g s (shuffle_max_scan g s).2.2 = some x := by
    cases hx : find_logical_of g s (shuffle_max_scan g s).2.2 with
    | none =>
      exfalso
      unfold shuffle_data_log at h
      dsimp only at h
      rw [if_neg h1, hx] at h
      simp at h
    | some x => exact ⟨x, rfl⟩
  have h2 : ¬ (shuffle_min_scan g s).2 = RAW_SIZE g := by
    intro hc
    unfold shuffle_data_log at h
    dsimp only at h
    rw [if_neg h1, hlb] at h
    dsimp only at h
    rw [if_pos hc] at h
    simp at h
  have h3 : ¬ (g.BLOCK_ERASES - 1 ≤ (shuffle_min_scan g s).1) := by
    intro hc
    unfold shuffle_data_log at h
    dsimp only at h
    rw [if_neg h1, hlb] at h
    dsimp only at h
    rw [if_neg h2, if_pos hc] at h
    simp at h
  have h4 : ¬ ((clean g s lb (shuffle_max_scan g s).2.2 (shuffle_max_scan g s).2.1).val = false) := by
    intro hc
    unfold shuffle_data_log at h
    dsimp only at h
    rw [if_neg h1, hlb] at h
    dsimp only at h
    rw [if_neg h2, if_neg h3, if_pos hc] at h
    simp at h
  obtain ⟨lb2, hlb2⟩ : ∃ x, find_logical_of g
      (cancel_log_block g
        (clean g s lb (shuffle_max_scan g s).2.2 (shuffle_max_scan g s).2.1).st
        (shuffle_max_scan g s).2.2)
      (shuffle_min_scan g s).2 = some x := by
    cases hx : find_logical_of g
        (cancel_log_block g
          (clean g s lb (shuffle_max_scan g s).2.2 (shuffle_max_scan g s).2.1).st
          (shuffle_max_scan g s).2.2)
        (shuffle_min_scan g s).2 with
    | none =>
      exfalso
      unfold shuffle_data_log at h
      dsimp only at h
      rw [if_neg h1, hlb] at h
      dsimp only at h
      rw [if_neg h2, if_neg h3, if_neg h4, hx] at h
      simp at h
    | some x => exact ⟨x, rfl⟩
  have hred : ∀ r : OpResult Bool, r = shuffle_data_log g s → r.trace =
        (clean g s lb (shuffle_max_scan g s).2.2 (shuffle_max_scan g s).2.1).trace
        ++ ((List.range g.BLOCK_SIZE).flatMap (fun i =>
          if check_page_empty (cancel_log_block g
              (clean g s lb (shuffle_max_scan g s).2.2 (shuffle_max_scan g s).2.1).st
              (shuffle_max_scan g s).2.2).logical_to_emptiness (lb2 + i) then []
          else [PhysEvent.rd (lb2 + i) (shuffle_min_scan g s).2 i,
                PhysEvent.wr (lb2 + i) (shuffle_max_scan g s).2.1 i]))
        ++ [PhysEvent.er lb2 (shuffle_min_scan g s).2]
      ∧ r.st.op_blocks =
          (cancel_log_block g
            (clean g s lb (shuffle_max_scan g s).2.2 (shuffle_max_scan g s).2.1).st
            (shuffle_max_scan g s).2.2).op_blocks ++ [(shuffle_min_scan g s).2]
      ∧ r.st.logical_to_physical =
          set_physical_address g
            (cancel_log_block g
              (clean g s lb (shuffle_max_scan g s).2.2 (shuffle_max_scan g s).2.1).st
              (shuffle_max_scan g s).2.2).logical_to_physical
            lb2 (shuffle_max_scan g s).2.1 := by
    intro r hr
    unfold shuffle_data_log at hr
    dsimp only at hr
    rw [if_neg h1, hlb] at hr
    dsimp only at hr
    rw [if_neg h2, if_neg h3, if_neg h4, hlb2] at hr
    subst hr
    exact ⟨rfl, rfl, rfl⟩
  obtain ⟨htr, hop, hltp⟩ := hred (shuffle_data_log g s) rfl
  have hbm : (cancel_log_block g
      (clean g s lb (shuffle_max_scan g s).2.2 (shuffle_max_scan g s).2.1).st
      (shuffle_max_scan g s).2.2).logical_to_emptiness = s.logical_to_emptiness := by
    rw [(cancel_log_block_frame _ _ _).1, (clean_frame _ _ _ _ _).1]
  have hopf : (cancel_log_block g
      (clean g s lb (shuffle_max_scan g s).2.2 (shuffle_max_scan g s).2.1).st
      (shuffle_max_scan g s).2.2).op_blocks = s.op_blocks := by
    rw [(cancel_log_block_frame _ _ _).2.2.2, (clean_frame _ _ _ _ _).2.2.2.2]
  refine ⟨lb, lb2, hlb, hlb2, ?_, ?_, hltp⟩
  · rw [htr, hbm, flatMap_if_filter]
  · rw [hop, hopf]

/-- C4, witness: the shuffle of `wshuffle_state` succeeds, so the
amended description applies to it. -/
theorem c4_shuffle_demotes_min_witness :
    ∃ logical_block lb2,
      find_logical_of wgeo wshuffle_state (shuffle_max_scan wgeo wshuffle_state).2.2
          = some logical_block
      ∧ find_logical_of wgeo
          (cancel_log_block wgeo
            (clean wgeo wshuffle_state logical_block (shuffle_max_scan wgeo wshuffle_state).2.2
              (shuffle_max_scan wgeo wshuffle_state).2.1).st
            (shuffle_max_scan wgeo wshuffle_state).2.2)
          (shuffle_min_scan wgeo wshuffle_state).2 = some lb2
      ∧ (shuffle_data_log wgeo wshuffle_state).trace =
          (clean wgeo wshuffle_state logical_block (shuffle_max_scan wgeo wshuffle_state).2.2
            (shuffle_max_scan wgeo wshuffle_state).2.1).trace
          ++ ((List.range wgeo.BLOCK_SIZE).filter
              (fun i => ! check_page_empty wshuffle_state.logical_to_emptiness (lb2 + i))).flatMap
            (fun i => [PhysEvent.rd (lb2 + i) (shuffle_min_scan wgeo wshuffle_state).2 i,
                       PhysEvent.wr (lb2 + i) (shuffle_max_scan wgeo wshuffle_state).2.1 i])
          ++ [PhysEvent.er lb2 (shuffle_min_scan wgeo wshuffle_state).2]
      ∧ (shuffle_data_log wgeo wshuffle_state).st.op_blocks =
          wshuffle_state.op_blocks ++ [(shuffle_min_scan wgeo wshuffle_state).2]
      ∧ (shuffle_data_log wgeo wshuffle_state).st.logical_to_physical =
          set_physical_address wgeo
            (cancel_log_block wgeo
              (clean wgeo wshuffle_state logical_block (shuffle_max_scan wgeo wshuffle_state).2.2
                (shuffle_max_scan wgeo wshuffle_state).2.1).st
              (shuffle_max_scan wgeo wshuffle_state).2.2).logical_to_physical
            lb2 (shuffle_max_scan wgeo wshuffle_state).2.1 :=
  c4_shuffle_demotes_min wgeo wshuffle_state (by decide)

/-! ## The manifest encoding and the last-occurrence rule (claim C2) -/

/-- The manifest a sequence of appends builds: each entry's decimal
digits followed by a comma (the source appends
`std::to_string(page) + ","` per entry). -/
def encode : List Nat → List Char
  | [] => []
  | n :: ns => to_string n ++ ',' :: encode ns

/-- The claim's specification of `fetch_log_page`: the 0-based index
of the last occurrence of `p` in the abstract manifest sequence. -/
def lastIdx : List Nat → Nat → Option Nat
  | [], _ => none
  | n :: ns, p =>
    match lastIdx ns p with
    | some i => some (i + 1)
    | none => if n = p then some 0 else none

theorem digitVal_digitChar {d : Nat} (h : d < 10) : digitVal (digitChar d) = d := by
  interval_cases d <;> rfl

theorem digitChar_ne_comma {d : Nat} (h : d < 10) : digitChar d ≠ ',' := by
  interval_cases d <;> decide

theorem mem_decRev : ∀ (n : Nat), ∀ c ∈ decRev n, ∃ d, d < 10 ∧ c = digitChar d := by
  intro n
  induction n using Nat.strong_induction_on with
  | _ n ih =>
    match n with
    | 0 => intro c hc; simp [decRev] at hc
    | m + 1 =>
      intro c hc
      rw [decRev] at hc
      rcases List.mem_cons.mp hc with h | h
      · exact ⟨(m + 1) % 10, Nat.mod_lt _ (by omega), h⟩
      · exact ih ((m + 1) / 10) (Nat.div_lt_self (by omega) (by omega)) c h

theorem to_string_no_comma (n : Nat) : ∀ c ∈ to_string n, c ≠ ',' := by
  intro c hc
  unfold to_string at hc
  split at hc
  · simp at hc; subst hc; decide
  · obtain ⟨d, hd, rfl⟩ := mem_decRev n c (List.mem_reverse.mp hc)
    exact digitChar_ne_comma hd

theorem to_string_ne_nil (n : Nat) : to_string n ≠ [] := by
  unfold to_string
  split
  · simp
  · rename_i h
    intro hc
    rw [List.reverse_eq_nil_iff] at hc
    match n, h with
    | m + 1, _ => rw [decRev] at hc; simp at hc

/-- Little-endian value of a digit string. -/
def valRev : List Char → Nat
  | [] => 0
  | c :: cs => digitVal c + 10 * valRev cs

theorem valRev_decRev : ∀ n, valRev (decRev n) = n := by
  intro n
  induction n using Nat.strong_induction_on with
  | _ n ih =>
    match n with
    | 0 => simp [decRev, valRev]
    | m + 1 =>
      rw [decRev]
      show digitVal (digitChar ((m + 1) % 10)) + 10 * valRev (decRev ((m + 1) / 10)) = m + 1
      rw [digitVal_digitChar (Nat.mod_lt _ (by omega)),
        ih ((m + 1) / 10) (Nat.div_lt_self (by omega) (by omega))]
      omega

theorem to_string_inj {a b : Nat} (h : to_string a = to_string b) : a = b := by
  unfold to_string at h
  by_cases ha : a = 0 <;> by_cases hb : b = 0
  · omega
  · rw [if_pos ha, if_neg hb] at h
    have hd : decRev b = ['0'] := by
      have := congrArg List.reverse h
      simpa using this.symm
    have hv := valRev_decRev b
    rw [hd] at hv
    simp [valRev, digitVal] at hv
    omega
  · rw [if_neg ha, if_pos hb] at h
    have hd : decRev a = ['0'] := by
      have := congrArg List.reverse h
      simpa using this
    have hv := valRev_decRev a
    rw [hd] at hv
    simp [valRev, digitVal] at hv
    omega
  · rw [if_neg ha, if_neg hb] at h
    have hd : decRev a = decRev b := by
      have := congrArg List.reverse h
      simpa using this
    have := congrArg valRev hd
    rw [valRev_decRev, valRev_decRev] at this
    exact this

theorem matchAt_iff (pat : List Char) : ∀ s, matchAt pat s = true ↔ ∃ t, s = pat ++ t := by
  induction pat with
  | nil => intro s; simp [matchAt]
  | cons c p ih =>
    intro s
    cases s with
    | nil => simp [matchAt]
    | cons d s' =>
      simp only [matchAt, Bool.and_eq_true, beq_iff_eq]
      constructor
      · rintro ⟨rfl, hm⟩
        obtain ⟨t, rfl⟩ := (ih s').mp hm
        exact ⟨t, rfl⟩
      · rintro ⟨t, heq⟩
        rw [List.cons_append] at heq
        injection heq with h1 h2
        exact ⟨h1.symm, (ih s').mpr ⟨t, h2⟩⟩

theorem append_comma_inj : ∀ (xs ys t u : List Char),
    (∀ c ∈ xs, c ≠ ',') → (∀ c ∈ ys, c ≠ ',') →
    xs ++ ',' :: t = ys ++ ',' :: u → xs = ys ∧ t = u := by
  intro xs
  induction xs with
  | nil =>
    intro ys t u _ hys h
    cases ys with
    | nil => simpa using h
    | cons y ys' =>
      rw [List.nil_append, List.cons_append] at h
      injection h with h1 _
      exact absurd h1.symm (hys y (by simp))
  | cons x xs' ih =>
    intro ys t u hxs hys h
    cases ys with
    | nil =>
      rw [List.cons_append, List.nil_append] at h
      injection h with h1 _
      exact absurd h1 (hxs x (by simp))
    | cons y ys' =>
      rw [List.cons_append, List.cons_append] at h
      injection h with h1 h2
      obtain ⟨h3, h4⟩ := ih ys' t u (fun c hc => hxs c (List.mem_cons_of_mem _ hc))
        (fun c hc => hys c (List.mem_cons_of_mem _ hc)) h2
      exact ⟨by rw [h1, h3], h4⟩

theorem to_string_comma_inj {a b : Nat} {t u : List Char}
    (h : to_string a ++ ',' :: t = to_string b ++ ',' :: u) : a = b ∧ t = u := by
  obtain ⟨h1, h2⟩ := append_comma_inj _ _ _ _ (to_string_no_comma a) (to_string_no_comma b) h
  exact ⟨to_string_inj h1, h2⟩

theorem rfindSub_append_digits (rest : List Char) :
    ∀ (xs s : List Char), (∀ c ∈ xs, c ≠ ',') →
    rfindSub (',' :: rest) (xs ++ s) = (rfindSub (',' :: rest) s).map (· + xs.length) := by
  intro xs
  induction xs with
  | nil =>
    intro s _
    cases hr : rfindSub (',' :: rest) s <;> simp [hr]
  | cons x xs' ih =>
    intro s hx
    show rfindSub (',' :: rest) (x :: (xs' ++ s)) = _
    rw [rfindSub, ih s (fun c hc => hx c (List.mem_cons_of_mem _ hc))]
    have hm : matchAt (',' :: rest) (x :: (xs' ++ s)) = false := by
      have hxne : ¬ ((',' : Char) = x) := fun hc => hx x (by simp) hc.symm
      simp [matchAt, hxne]
    cases hr : rfindSub (',' :: rest) s with
    | some i => simp [Nat.add_assoc, Nat.add_comm 1 xs'.length]
    | none => simp [hm]

theorem count_commas_skip (xs s : List Char) (hxs : ∀ c ∈ xs, c ≠ ',') (i : Nat) :
    count_commas (xs ++ ',' :: s) (xs.length + 1 + i) = count_commas s i + 1 := by
  unfold count_commas
  rw [show xs.length + 1 + i = xs.length + (1 + i) from by omega, List.take_append]
  have hxf : xs.filter (fun c => c == ',') = [] :=
    List.filter_eq_nil_iff.mpr (fun c hc => by simp [hxs c hc])
  rw [List.filter_append, hxf]
  rw [List.nil_append, show 1 + i = i + 1 from Nat.add_comm 1 i, List.take_succ_cons]
  simp [List.filter_cons]

theorem count_commas_front (xs s : List Char) (hxs : ∀ c ∈ xs, c ≠ ',') :
    count_commas (xs ++ ',' :: s) xs.length = 0 := by
  unfold count_commas
  rw [List.take_left]
  simp only [List.length_eq_zero, List.filter_eq_nil_iff]
  intro c hc
  simp [hxs c hc]

theorem lastIdx_some_getElem : ∀ (ns : List Nat) (p i : Nat),
    lastIdx ns p = some i → ns[i]? = some p := by
  intro ns
  induction ns with
  | nil => intro p i h; simp [lastIdx] at h
  | cons n t ih =>
    intro p i h
    unfold lastIdx at h
    cases hl : lastIdx t p with
    | some j =>
      rw [hl] at h
      injection h with h
      subst h
      simpa using ih p j hl
    | none =>
      rw [hl] at h
      by_cases hnp : n = p
      · rw [if_pos hnp] at h
        injection h with h
        subst h
        simp [hnp]
      · rw [if_neg hnp] at h
        exact absurd h (by simp)

theorem lastIdx_eq_none_iff {ns : List Nat} {p : Nat} :
    lastIdx ns p = none ↔ ∀ j : Nat, ns[j]? ≠ some p := by
  induction ns with
  | nil => simp [lastIdx]
  | cons n t ih =>
    unfold lastIdx
    cases hl : lastIdx t p with
    | some i =>
      simp only [hl]
      constructor
      · intro h; exact absurd h (by simp)
      · intro h
        exact absurd (lastIdx_some_getElem t p i hl) (by simpa using h (i + 1))
    | none =>
      simp only [hl]
      constructor
      · intro h j
        have hnp : ¬ (n = p) := by
          intro hc; rw [if_pos hc] at h; exact absurd h (by simp)
        cases j with
        | zero =>
          intro hc
          rw [List.getElem?_cons_zero] at hc
          exact hnp (by injection hc)
        | succ j' =>
          rw [List.getElem?_cons_succ]
          exact (ih.mp hl) j'
      · intro h
        rw [if_neg (fun hc => (h 0) (by rw [List.getElem?_cons_zero, hc]))]

theorem encode_cons (n : Nat) (ns : List Nat) :
    encode (n :: ns) = to_string n ++ (',' :: encode ns) := rfl

/-- A `none` answer of the manifest `rfind` means no entry beyond the
first holds `p`. -/
theorem rfind_encode_none : ∀ (ns : List Nat) (p : Nat),
    rfindSub (',' :: (to_string p ++ [','])) (encode ns) = none →
    ∀ j : Nat, 1 ≤ j → ns[j]? ≠ some p := by
  intro ns
  induction ns with
  | nil => intro p _ j _; simp
  | cons n t ih =>
    intro p h j hj
    rw [encode_cons, rfindSub_append_digits _ _ _ (to_string_no_comma n)] at h
    have h2 : rfindSub (',' :: (to_string p ++ [','])) (',' :: encode t) = none := by
      cases hr : rfindSub (',' :: (to_string p ++ [','])) (',' :: encode t) with
      | none => rfl
      | some i => rw [hr] at h; simp at h
    have h3 : rfindSub (',' :: (to_string p ++ [','])) (encode t) = none := by
      rw [rfindSub] at h2
      cases hr : rfindSub (',' :: (to_string p ++ [','])) (encode t) with
      | none => rfl
      | some i => rw [hr] at h2; simp at h2
    have h4 : matchAt (',' :: (to_string p ++ [','])) (',' :: encode t) = false := by
      rw [rfindSub, h3] at h2
      cases hm : matchAt (',' :: (to_string p ++ [','])) (',' :: encode t) with
      | false => rfl
      | true => rw [hm] at h2; simp at h2
    cases j with
    | zero => omega
    | succ j' =>
      rw [List.getElem?_cons_succ]
      cases j' with
      | zero =>
        intro hc
        obtain ⟨t'', rfl⟩ : ∃ t'', t = p :: t'' := by
          cases t with
          | nil => simp at hc
          | cons m t'' =>
            rw [List.getElem?_cons_zero] at hc
            injection hc with hc
            exact ⟨t'', by rw [hc]⟩
        have hmt : matchAt (',' :: (to_string p ++ [','])) (',' :: encode (p :: t'')) = true := by
          apply (matchAt_iff _ _).mpr
          refine ⟨encode t'', ?_⟩
          rw [encode_cons]
          simp
        rw [hmt] at h4
        cases h4
      | succ j'' => exact ih p h3 (j'' + 1) (by omega)

/-- A `some` answer of the manifest `rfind` determines the
last-occurrence index through the comma count. -/
theorem rfind_encode_some : ∀ (ns : List Nat) (p loc : Nat),
    rfindSub (',' :: (to_string p ++ [','])) (encode ns) = some loc →
    ∃ k, lastIdx ns p = some k ∧ 1 ≤ k ∧ count_commas (encode ns) loc + 1 = k := by
  intro ns
  induction ns with
  | nil =>
    intro p loc h
    rw [show encode [] = [] from rfl, rfindSub] at h
    simp at h
  | cons n t ih =>
    intro p loc h
    rw [encode_cons, rfindSub_append_digits _ _ _ (to_string_no_comma n)] at h
    cases hr : rfindSub (',' :: (to_string p ++ [','])) (',' :: encode t) with
    | none => rw [hr] at h; simp at h
    | some loc0 =>
      rw [hr] at h
      rw [show Option.map (· + (to_string n).length) (some loc0)
          = some (loc0 + (to_string n).length) from rfl] at h
      injection h with h
      rw [rfindSub] at hr
      cases hr2 : rfindSub (',' :: (to_string p ++ [','])) (encode t) with
      | some i =>
        rw [hr2] at hr
        injection hr with hr
        obtain ⟨k, hk, hk1, hkc⟩ := ih p i hr2
        refine ⟨k + 1, ?_, by omega, ?_⟩
        · show lastIdx (n :: t) p = some (k + 1)
          unfold lastIdx
          rw [hk]
        · rw [encode_cons,
            show loc = (to_string n).length + 1 + i from by omega,
            count_commas_skip _ _ (to_string_no_comma n) i]
          omega
      | none =>
        rw [hr2] at hr
        have hm : matchAt (',' :: (to_string p ++ [','])) (',' :: encode t) = true := by
          cases hmm : matchAt (',' :: (to_string p ++ [','])) (',' :: encode t) with
          | true => rfl
          | false => rw [hmm] at hr; simp at hr
        have hloc0 : loc0 = 0 := by
          rw [hm] at hr
          simp at hr
          omega
        obtain ⟨r, hmr⟩ := (matchAt_iff _ _).mp hm
        rw [List.cons_append] at hmr
        injection hmr with _ hmr
        rw [List.append_assoc, List.singleton_append] at hmr
        obtain ⟨t'', rfl⟩ : ∃ t'', t = p :: t'' := by
          cases t with
          | nil =>
            rw [show encode [] = [] from rfl] at hmr
            exact absurd hmr.symm (by simp [to_string_ne_nil p])
          | cons m t'' =>
            rw [encode_cons] at hmr
            obtain ⟨hmp, _⟩ := to_string_comma_inj hmr
            exact ⟨t'', by rw [hmp]⟩
        have hnone := rfind_encode_none (p :: t'') p hr2
        have hlast : lastIdx (p :: t'') p = some 0 := by
          have ht'' : lastIdx t'' p = none := by
            rw [lastIdx_eq_none_iff]
            intro j
            have := hnone (j + 1) (by omega)
            rwa [List.getElem?_cons_succ] at this
          unfold lastIdx
          rw [ht'', if_pos rfl]
        refine ⟨1, ?_, by omega, ?_⟩
        · show lastIdx (n :: p :: t'') p = some 1
          unfold lastIdx
          rw [hlast]
        · rw [encode_cons, show loc = (to_string n).length from by omega,
            count_commas_front _ _ (to_string_no_comma n)]

theorem findSub_eq_some_zero_iff {pat s : List Char} (hp : pat ≠ []) :
    findSub pat s = some 0 ↔ matchAt pat s = true := by
  cases s with
  | nil =>
    cases pat with
    | nil => exact absurd rfl hp
    | cons c p' => simp [findSub, matchAt]
  | cons d s' =>
    rw [findSub]
    by_cases hm : matchAt pat (d :: s') = true
    · simp [hm]
    · rw [if_neg hm]
      simp only [hm]
      constructor
      · intro hc
        cases hf : findSub pat s' with
        | none => rw [hf] at hc; simp at hc
        | some m => rw [hf] at hc; simp at hc
      · intro hc
        cases hc

/-- C2: for every manifest (an ordered sequence of page offsets,
serialized as the source serializes it) and every page offset,
`fetch_log_page` returns the 0-based index of the last occurrence in
the manifest, and reports absent when the offset never occurs;
consequently a READ whose data block has a mapped log block whose
manifest contains the page resolves to the last-appended copy. -/
theorem c2_fetch_last_occurrence :
    (∀ (ns : List Nat) (p : Nat), fetch_log_page (encode ns) p = lastIdx ns p)
    ∧ (∀ (g : Geo) (s : FtlState) (L log_address k : Nat) (ns : List Nat),
        L < USABLE_SIZE g →
        check_page_empty s.logical_to_emptiness L = false →
        check_log_block g s.data_to_log
          (check_physical_address g s.logical_to_physical L
            - check_physical_address g s.logical_to_physical L % g.BLOCK_SIZE)
          = some log_address →
        mapFind s.log_to_pages log_address = some (encode ns) →
        lastIdx ns (check_physical_address g s.logical_to_physical L % g.BLOCK_SIZE) = some k →
        (translate g s ⟨EvType.READ, L⟩).val = (Status.SUCCESS, some (log_address, k))) := by
  have hfetch : ∀ (ns : List Nat) (p : Nat), fetch_log_page (encode ns) p = lastIdx ns p := by
    intro ns p
    cases ns with
    | nil => rfl
    | cons n t =>
      unfold fetch_log_page
      have hne : ¬ ((encode (n :: t)).isEmpty = true) := by
        rw [encode_cons]
        cases hts : to_string n with
        | nil => exact absurd hts (to_string_ne_nil n)
        | cons c cs => simp
      rw [if_neg hne]
      cases hr : rfindSub (',' :: (to_string p ++ [','])) (encode (n :: t)) with
      | some loc =>
        obtain ⟨k, hk, hk1, hkc⟩ := rfind_encode_some (n :: t) p loc hr
        rw [hk]
        show some (count_commas (encode (n :: t)) loc + 1) = some k
        rw [hkc]
      | none =>
        have hnone := rfind_encode_none (n :: t) p hr
        by_cases hhead : n = p
        · subst hhead
          have hm : matchAt (to_string n ++ [',']) (encode (n :: t)) = true := by
            apply (matchAt_iff _ _).mpr
            refine ⟨encode t, ?_⟩
            rw [encode_cons]
            simp
          have hf : findSub (to_string n ++ [',']) (encode (n :: t)) = some 0 :=
            (findSub_eq_some_zero_iff (by simp)).mpr hm
          rw [hf]
          have hlt : lastIdx t n = none := by
            rw [lastIdx_eq_none_iff]
            intro j
            have := hnone (j + 1) (by omega)
            rwa [List.getElem?_cons_succ] at this
          show some 0 = lastIdx (n :: t) n
          unfold lastIdx
          rw [hlt, if_pos rfl]
        · have hlast : lastIdx (n :: t) p = none := by
            rw [lastIdx_eq_none_iff]
            intro j
            cases j with
            | zero =>
              intro hc
              rw [List.getElem?_cons_zero] at hc
              exact hhead (by injection hc)
            | succ j' => exact hnone (j' + 1) (by omega)
          rw [hlast]
          cases hf : findSub (to_string p ++ [',']) (encode (n :: t)) with
          | none => rfl
          | some m =>
            cases m with
            | zero =>
              have hm := (findSub_eq_some_zero_iff (by simp)).mp hf
              obtain ⟨r, hmr⟩ := (matchAt_iff _ _).mp hm
              rw [encode_cons, List.append_assoc, List.singleton_append] at hmr
              obtain ⟨hnp, _⟩ := to_string_comma_inj hmr
              exact absurd hnp hhead
            | succ m' => rfl
  refine ⟨hfetch, ?_⟩
  intro g s L log_address k ns hL hbit hclb hfind hlast
  unfold translate
  rw [if_neg (by show ¬ USABLE_SIZE g ≤ L; omega)]
  dsimp only
  rw [if_neg (by simp [hbit]), hclb]
  dsimp only
  rw [show manifest_of s log_address = encode ns from by
      unfold manifest_of; rw [hfind]; rfl,
    hfetch ns _, hlast]

/-- C2, witness: the two-entry manifest `[0, 0]` resolves page 0 to
index 1, and a READ of logical page 0 against it is routed to
`(log block 12, page 1)`. -/
theorem c2_fetch_last_occurrence_witness :
    fetch_log_page (encode [0, 0]) 0 = lastIdx [0, 0] 0
    ∧ (translate wgeo
        ⟨fun w => if w = 0 then 1 else 0, fun _ => 0, fun _ => 0,
         fun d => if d = 0 then 3 else 0, [(12, encode [0, 0])], []⟩
        ⟨EvType.READ, 0⟩).val = (Status.SUCCESS, some (12, 1)) :=
  ⟨c2_fetch_last_occurrence.1 [0, 0] 0,
   c2_fetch_last_occurrence.2 wgeo
     ⟨fun w => if w = 0 then 1 else 0, fun _ => 0, fun _ => 0,
      fun d => if d = 0 then 3 else 0, [(12, encode [0, 0])], []⟩
     0 12 1 [0, 0] (by decide) (by decide) (by decide) (by decide) (by decide)⟩

/-! ## Reachable-state invariants (claims C5, C9) -/

/-- Well-formed geometry: positive block size and erase budget, and
block-aligned over-provisioning within the raw capacity (the shipped
configurations satisfy all of these). -/
structure GeoWF (g : Geo) : Prop where
  bs_pos : 0 < g.BLOCK_SIZE
  cap_pos : 0 < g.BLOCK_ERASES
  op_le : g.OP_SIZE ≤ RAW_SIZE g
  bs_dvd_op : g.BLOCK_SIZE ∣ g.OP_SIZE

theorem bs_dvd_raw (g : Geo) : g.BLOCK_SIZE ∣ RAW_SIZE g :=
  ⟨g.SSD_SIZE * g.PACKAGE_SIZE * g.DIE_SIZE * g.PLANE_SIZE, by unfold RAW_SIZE; ring⟩

theorem bs_dvd_usable {g : Geo} (hw : GeoWF g) : g.BLOCK_SIZE ∣ USABLE_SIZE g :=
  Nat.dvd_sub' (bs_dvd_raw g) hw.bs_dvd_op

theorem lgc_le_phy (g : Geo) : NUM_OF_LGC_B g ≤ NUM_OF_PHY_B g :=
  Nat.div_le_div_right (Nat.sub_le _ _)

theorem lt_lgc_of_lt_usable {g : Geo} (hw : GeoWF g) {L : Nat} (h : L < USABLE_SIZE g) :
    L / g.BLOCK_SIZE < NUM_OF_LGC_B g := by
  obtain ⟨m, hm⟩ := bs_dvd_usable hw
  rw [NUM_OF_LGC_B, hm, Nat.mul_div_cancel_left _ hw.bs_pos]
  exact Nat.div_lt_of_lt_mul (by rw [← hm]; exact h)

theorem block_base_lt_raw {g : Geo} (hw : GeoWF g) {d : Nat} (h : d < NUM_OF_PHY_B g) :
    d * g.BLOCK_SIZE < RAW_SIZE g := by
  obtain ⟨m, hm⟩ := bs_dvd_raw g
  rw [NUM_OF_PHY_B, hm, Nat.mul_div_cancel_left _ hw.bs_pos] at h
  calc d * g.BLOCK_SIZE < m * g.BLOCK_SIZE := (Nat.mul_lt_mul_right hw.bs_pos).mpr h
    _ = RAW_SIZE g := by rw [hm, Nat.mul_comm]

theorem block_idx_lt_phy (g : Geo) {b : Nat} (h : b < RAW_SIZE g) :
    b / g.BLOCK_SIZE < NUM_OF_PHY_B g :=
  Nat.div_lt_div_of_lt_of_dvd (bs_dvd_raw g) h

/-- `check_physical_address` at a block base. -/
theorem cpa_block (g : Geo) (ltp : Nat → Int) (i : Nat) (hbs : 0 < g.BLOCK_SIZE) :
    check_physical_address g ltp (i * g.BLOCK_SIZE)
      = ((i : Int) + ltp i).toNat * g.BLOCK_SIZE := by
  unfold check_physical_address
  rw [Nat.mul_mod_left, Nat.mul_div_cancel _ hbs]
  simp

/-- `check_log_block` at a block base. -/
theorem clb_block (g : Geo) (dtl : Nat → Int) (d : Nat) (hbs : 0 < g.BLOCK_SIZE) :
    check_log_block g dtl (d * g.BLOCK_SIZE)
      = if dtl d = 0 then none else some (((d : Int) + dtl d).toNat * g.BLOCK_SIZE) := by
  unfold check_log_block
  rw [Nat.mul_mod_left, Nat.mul_div_cancel _ hbs]
  by_cases h : dtl d = 0
  · simp [h]
  · simp [h]

/-- Setting any bit never clears a written flag. -/
theorem check_page_empty_set_false {bm : Nat → Nat} {x y : Nat}
    (h : check_page_empty bm x = false) :
    check_page_empty (set_page_written bm y) x = false := by
  rw [check_page_empty_testBit] at h ⊢
  unfold set_page_written
  by_cases hw : x / SIZEOF_UINT = y / SIZEOF_UINT
  · rw [hw]
    simp only [if_pos rfl, Nat.testBit_or]
    simp only [Bool.not_eq_false'] at h ⊢
    rw [hw] at h
    simp [h]
  · rw [if_neg hw]
    exact h

theorem find?_filter_ne (k k' : Nat) :
    ∀ (m : List (Nat × List Char)),
    List.find? (fun e => e.1 == k') (m.filter (fun e => e.1 != k))
      = if k' = k then none else List.find? (fun e => e.1 == k') m := by
  intro m
  induction m with
  | nil => by_cases hk : k' = k <;> simp [hk]
  | cons e t ih =>
    by_cases he : e.1 = k
    · by_cases hk : k' = k
      · rw [if_pos hk, List.filter_cons_of_neg (by simp [he]), ih, if_pos hk]
      · rw [if_neg hk, List.find?_cons_of_neg _ (by simp [he]; omega),
          List.filter_cons_of_neg (by simp [he]), ih, if_neg hk]
    · by_cases hek : e.1 = k'
      · have hk : ¬ k' = k := fun hc => he (hek.trans hc)
        rw [if_neg hk, List.filter_cons_of_pos (by simp [he]),
          List.find?_cons_of_pos _ (by simp [hek]), List.find?_cons_of_pos _ (by simp [hek])]
      · by_cases hk : k' = k
        · rw [if_pos hk, List.filter_cons_of_pos (by simp [he]),
            List.find?_cons_of_neg _ (by simp [hek]), ih, if_pos hk]
        · rw [if_neg hk, List.filter_cons_of_pos (by simp [he]),
            List.find?_cons_of_neg _ (by simp [hek]), List.find?_cons_of_neg _ (by simp [hek]),
            ih, if_neg hk]

/-- `mapFind` after `mapErase`. -/
theorem mapFind_mapErase (m : List (Nat × List Char)) (k k' : Nat) :
    mapFind (mapErase m k) k' = if k' = k then none else mapFind m k' := by
  unfold mapFind mapErase
  rw [find?_filter_ne]
  by_cases hk : k' = k <;> simp [hk]

theorem find?_map_key (k k' : Nat) (v : List Char) :
    ∀ (t : List (Nat × List Char)),
    List.find? (fun e => e.1 == k')
        (t.map (fun e => if e.1 == k then ((k, v) : Nat × List Char) else e))
      = if k' = k then (List.find? (fun e => e.1 == k) t).map (fun _ => (k, v))
        else List.find? (fun e => e.1 == k') t := by
  intro t
  induction t with
  | nil => by_cases hk : k' = k <;> simp [hk]
  | cons e t ih =>
    rw [List.map_cons]
    by_cases he : e.1 = k
    · rw [show (if e.1 == k then ((k, v) : Nat × List Char) else e) = (k, v) from by simp [he]]
      by_cases hk : k' = k
      · rw [if_pos hk, List.find?_cons_of_pos _ (by simp [hk]),
          List.find?_cons_of_pos _ (by simp [he])]
        simp
      · rw [if_neg hk, List.find?_cons_of_neg _ (by simp; omega), ih, if_neg hk,
          List.find?_cons_of_neg _ (by simp [he]; omega)]
    · rw [show (if e.1 == k then ((k, v) : Nat × List Char) else e) = e from by simp [he]]
      by_cases hek : e.1 = k'
      · have hk : ¬ k' = k := fun hc => he (hek.trans hc)
        rw [if_neg hk, List.find?_cons_of_pos _ (by simp [hek]),
          List.find?_cons_of_pos _ (by simp [hek])]
      · by_cases hk : k' = k
        · rw [if_pos hk, List.find?_cons_of_neg _ (by simp [hek]), ih, if_pos hk,
            List.find?_cons_of_neg _ (by simp [he])]
        · rw [if_neg hk, List.find?_cons_of_neg _ (by simp [hek]), ih, if_neg hk,
            List.find?_cons_of_neg _ (by simp [hek])]

/-- `mapFind` after `mapAssign` (`operator[]=` overwrites or inserts). -/
theorem mapFind_mapAssign (m : List (Nat × List Char)) (k k' : Nat) (v : List Char) :
    mapFind (mapAssign m k v) k' = if k' = k then some v else mapFind m k' := by
  unfold mapAssign
  by_cases hp : (mapFind m k).isSome
  · rw [if_pos hp]
    unfold mapFind at hp ⊢
    rw [find?_map_key]
    by_cases hk : k' = k
    · subst hk
      rw [if_pos rfl, if_pos rfl]
      cases hf : List.find? (fun e => e.1 == k') m with
      | none => (try rw [hf] at hp); simp at hp
      | some e => rfl
    · rw [if_neg hk, if_neg hk]
  · rw [if_neg hp]
    unfold mapFind at *
    rw [List.find?_append]
    by_cases hk : k' = k
    · subst hk
      rw [if_pos rfl]
      rw [Option.not_isSome_iff_eq_none] at hp
      cases hf : List.find? (fun e => e.1 == k') m with
      | some e => (try rw [hf] at hp); simp at hp
      | none => simp [List.find?]
    · rw [if_neg hk]
      cases hf : List.find? (fun e => e.1 == k') m with
      | some e => simp
      | none =>
        have hkv : ((k, v).1 == k') = false := by simp; omega
        simp [List.find?, hkv]

/-- `mapFind` after `mapInsert`. -/
theorem mapFind_mapInsert (m : List (Nat × List Char)) (k k' : Nat) (v : List Char) :
    (mapFind (mapInsert m k v) k').isSome
      = (decide (k' = k) || (mapFind m k').isSome) := by
  unfold mapInsert
  by_cases hp : (mapFind m k).isSome
  · rw [if_pos hp]
    by_cases hk : k' = k
    · subst hk
      simp [hp]
    · simp [hk]
  · rw [if_neg hp]
    unfold mapFind at *
    rw [List.find?_append]
    by_cases hk : k' = k
    · subst hk
      cases hf : List.find? (fun e => e.1 == k') m with
      | some e => simp [hf]
      | none => simp [List.find?]
    · cases hf : List.find? (fun e => e.1 == k') m with
      | some e => simp [hk]
      | none =>
        have hkv : ((k, v).1 == k') = false := by simp; omega
        simp [hk, List.find?, hkv]

/-- The physical data-block index of logical block `i` (the
`nth_logical_block + offset` computation). -/
def dIdxN (s : FtlState) (i : Nat) : Nat := ((i : Int) + s.logical_to_physical i).toNat

/-- The physical log-block index mapped by data-block index `d` (the
`nth_data_block + offset` computation). -/
def lIdxN (s : FtlState) (d : Nat) : Nat := ((d : Int) + s.data_to_log d).toNat

/-- Every ERASE in the trace targets a block under the cap of `ec`. -/
def erases_under_cap (g : Geo) (ec : Nat → Nat) (tr : List PhysEvent) : Prop :=
  ∀ lba base, PhysEvent.er lba base ∈ tr → ec (base / g.BLOCK_SIZE) < g.BLOCK_ERASES

/-- The garbage collector leaves cap-blocked pairs alone: a mapped
data block whose data or log side is at the erase cap keeps its
mapping, its owners and both erase counters. -/
def gc_frame (g : Geo) (s st : FtlState) : Prop :=
  ∀ d, d < NUM_OF_PHY_B g → s.data_to_log d ≠ 0 →
    (g.BLOCK_ERASES ≤ s.erase_count d ∨ g.BLOCK_ERASES ≤ s.erase_count (lIdxN s d)) →
    st.data_to_log d = s.data_to_log d
    ∧ (∀ i, i < NUM_OF_LGC_B g → dIdxN s i = d →
        st.logical_to_physical i = s.logical_to_physical i)
    ∧ st.erase_count d = s.erase_count d
    ∧ st.erase_count (lIdxN s d) = s.erase_count (lIdxN s d)

/-- The inductive state invariant of the FTL. -/
structure Inv (g : Geo) (s : FtlState) : Prop where
  ec_le : ∀ b, s.erase_count b ≤ g.BLOCK_ERASES
  ltp_nonneg : ∀ i, i < NUM_OF_LGC_B g → 0 ≤ (i : Int) + s.logical_to_physical i
  ltp_lt : ∀ i, i < NUM_OF_LGC_B g → dIdxN s i < NUM_OF_PHY_B g
  ltp_inj : ∀ i, i < NUM_OF_LGC_B g → ∀ j, j < NUM_OF_LGC_B g → dIdxN s i = dIdxN s j → i = j
  dtl_nonneg : ∀ d, d < NUM_OF_PHY_B g → s.data_to_log d ≠ 0 → 0 ≤ (d : Int) + s.data_to_log d
  dtl_lt : ∀ d, d < NUM_OF_PHY_B g → s.data_to_log d ≠ 0 → lIdxN s d < NUM_OF_PHY_B g
  manifest : ∀ d, d < NUM_OF_PHY_B g → s.data_to_log d ≠ 0 →
    (mapFind s.log_to_pages (lIdxN s d * g.BLOCK_SIZE)).isSome = true
  log_inj : ∀ d, d < NUM_OF_PHY_B g → ∀ d', d' < NUM_OF_PHY_B g →
    s.data_to_log d ≠ 0 → s.data_to_log d' ≠ 0 → lIdxN s d = lIdxN s d' → d = d'
  log_not_data : ∀ d, d < NUM_OF_PHY_B g → s.data_to_log d ≠ 0 →
    ∀ i, i < NUM_OF_LGC_B g → dIdxN s i ≠ lIdxN s d
  mapped_data : ∀ d, d < NUM_OF_PHY_B g → s.data_to_log d ≠ 0 →
    ∃ i, i < NUM_OF_LGC_B g ∧ dIdxN s i = d ∧ ∃ j, j < g.BLOCK_SIZE ∧
      check_page_empty s.logical_to_emptiness (i * g.BLOCK_SIZE + j) = false
  pool_aligned : ∀ b ∈ s.op_blocks, g.BLOCK_SIZE ∣ b
  pool_lt : ∀ b ∈ s.op_blocks, b < RAW_SIZE g
  pool_fresh : ∀ b ∈ s.op_blocks, s.erase_count (b / g.BLOCK_SIZE) < g.BLOCK_ERASES
  pool_not_data : ∀ b ∈ s.op_blocks, ∀ i, i < NUM_OF_LGC_B g → dIdxN s i ≠ b / g.BLOCK_SIZE
  pool_not_log : ∀ b ∈ s.op_blocks, ∀ d, d < NUM_OF_PHY_B g → s.data_to_log d ≠ 0 →
    lIdxN s d ≠ b / g.BLOCK_SIZE
  pool_nodup : s.op_blocks.Nodup

/-- Pointwise equal FTL states are equal. -/
theorem ftl_ext {st s : FtlState}
    (hbm : ∀ x, st.logical_to_emptiness x = s.logical_to_emptiness x)
    (hec : ∀ b, st.erase_count b = s.erase_count b)
    (hltp : ∀ i, st.logical_to_physical i = s.logical_to_physical i)
    (hdtl : ∀ d, st.data_to_log d = s.data_to_log d)
    (hlog : st.log_to_pages = s.log_to_pages)
    (hpool : st.op_blocks = s.op_blocks) : st = s := by
  cases st
  cases s
  congr 1
  · exact funext hbm
  · exact funext hec
  · exact funext hltp
  · exact funext hdtl

/-- The invariant transfers along pointwise state equality. -/
theorem Inv_congr {g : Geo} {s st : FtlState} (hI : Inv g s)
    (hbm : ∀ x, st.logical_to_emptiness x = s.logical_to_emptiness x)
    (hec : ∀ b, st.erase_count b = s.erase_count b)
    (hltp : ∀ i, st.logical_to_physical i = s.logical_to_physical i)
    (hdtl : ∀ d, st.data_to_log d = s.data_to_log d)
    (hlog : st.log_to_pages = s.log_to_pages)
    (hpool : st.op_blocks = s.op_blocks) : Inv g st := by
  rw [ftl_ext hbm hec hltp hdtl hlog hpool]
  exact hI

/-- The invariant survives a change of erase counters alone, given the
new counters stay under the cap on the free pool and at the cap
globally. -/
theorem Inv_ec_only {g : Geo} {s st : FtlState} (hI : Inv g s)
    (hbm : st.logical_to_emptiness = s.logical_to_emptiness)
    (hltp : st.logical_to_physical = s.logical_to_physical)
    (hdtl : st.data_to_log = s.data_to_log)
    (hlog : st.log_to_pages = s.log_to_pages)
    (hpool : st.op_blocks = s.op_blocks)
    (hle : ∀ b, st.erase_count b ≤ g.BLOCK_ERASES)
    (hfresh : ∀ b ∈ s.op_blocks, st.erase_count (b / g.BLOCK_SIZE) < g.BLOCK_ERASES) :
    Inv g st := by
  have hd : ∀ i, dIdxN st i = dIdxN s i := fun i => by unfold dIdxN; rw [hltp]
  have hl : ∀ d, lIdxN st d = lIdxN s d := fun d => by unfold lIdxN; rw [hdtl]
  refine ⟨hle, ?_, ?_, ?_, ?_, ?_, ?_, ?_, ?_, ?_, ?_, ?_, ?_, ?_, ?_, ?_⟩
  · intro i hi; rw [hltp]; exact hI.ltp_nonneg i hi
  · intro i hi; rw [hd]; exact hI.ltp_lt i hi
  · intro i hi j hj hij; rw [hd, hd] at hij; exact hI.ltp_inj i hi j hj hij
  · intro d hdp hm; rw [hdtl] at hm ⊢; exact hI.dtl_nonneg d hdp hm
  · intro d hdp hm; rw [hdtl] at hm; rw [hl]; exact hI.dtl_lt d hdp hm
  · intro d hdp hm; rw [hdtl] at hm; rw [hlog, hl]; exact hI.manifest d hdp hm
  · intro d hdp d' hdp' hm hm' hll
    rw [hdtl] at hm hm'
    rw [hl, hl] at hll
    exact hI.log_inj d hdp d' hdp' hm hm' hll
  · intro d hdp hm i hi; rw [hdtl] at hm; rw [hd, hl]; exact hI.log_not_data d hdp hm i hi
  · intro d hdp hm
    rw [hdtl] at hm
    obtain ⟨i, hi, hdi, j, hj, hwr⟩ := hI.mapped_data d hdp hm
    exact ⟨i, hi, by rw [hd]; exact hdi, j, hj, by rw [hbm]; exact hwr⟩
  · intro b hb; rw [hpool] at hb; exact hI.pool_aligned b hb
  · intro b hb; rw [hpool] at hb; exact hI.pool_lt b hb
  · intro b hb; rw [hpool] at hb; exact hfresh b hb
  · intro b hb i hi; rw [hpool] at hb; rw [hd]; exact hI.pool_not_data b hb i hi
  · intro b hb d hdp hm; rw [hpool] at hb; rw [hdtl] at hm; rw [hl]
    exact hI.pool_not_log b hb d hdp hm
  · rw [hpool]; exact hI.pool_nodup

/-- The invariant survives any manifest-map change that keeps present
keys present. -/
theorem Inv_log_keep {g : Geo} {s : FtlState} (hI : Inv g s) (m : List (Nat × List Char))
    (hkeep : ∀ k, (mapFind s.log_to_pages k).isSome = true → (mapFind m k).isSome = true) :
    Inv g { s with log_to_pages := m } := by
  refine ⟨hI.ec_le, hI.ltp_nonneg, hI.ltp_lt, hI.ltp_inj, hI.dtl_nonneg, hI.dtl_lt, ?_,
    hI.log_inj, hI.log_not_data, hI.mapped_data, hI.pool_aligned, hI.pool_lt, hI.pool_fresh,
    hI.pool_not_data, hI.pool_not_log, hI.pool_nodup⟩
  intro d hdp hm
  exact hkeep _ (hI.manifest d hdp hm)

/-- A mapped log index differs from its data index. -/
theorem lIdxN_ne_self {g : Geo} {s : FtlState} (hI : Inv g s) {d : Nat}
    (hd : d < NUM_OF_PHY_B g) (hm : s.data_to_log d ≠ 0) : lIdxN s d ≠ d := by
  have h0 := hI.dtl_nonneg d hd hm
  unfold lIdxN
  intro hc
  apply hm
  omega

/-- Fold preservation for the linear scans. -/
theorem foldl_preserve {α β : Type} (p : α → Prop) (q : β → Prop) (f : β → α → β)
    (l : List α) (b : β) (hb : q b) (hstep : ∀ x, p x → ∀ acc, q acc → q (f acc x))
    (hl : ∀ x ∈ l, p x) : q (l.foldl f b) := by
  induction l generalizing b with
  | nil => exact hb
  | cons a t ih =>
    exact ih (f b a) (hstep a (hl a (List.mem_cons_self a t)) b hb)
      (fun x hx => hl x (List.mem_cons_of_mem a hx))

/-- One step of the scratch-block scan preserves its certificate. -/
theorem find_empty_clean_step_spec (g : Geo) (s : FtlState) (x : Nat)
    (hx : x < NUM_OF_LGC_B g) (acc : Nat × Option Nat)
    (hacc : ∀ c2, acc.2 = some c2 →
      ∃ i, i < NUM_OF_LGC_B g
        ∧ c2 = check_physical_address g s.logical_to_physical (i * g.BLOCK_SIZE)
        ∧ block_all_empty g s.logical_to_emptiness i = true
        ∧ s.erase_count (c2 / g.BLOCK_SIZE) < g.BLOCK_ERASES) :
    ∀ c2, (find_empty_clean_step g s acc x).2 = some c2 →
      ∃ i, i < NUM_OF_LGC_B g
        ∧ c2 = check_physical_address g s.logical_to_physical (i * g.BLOCK_SIZE)
        ∧ block_all_empty g s.logical_to_emptiness i = true
        ∧ s.erase_count (c2 / g.BLOCK_SIZE) < g.BLOCK_ERASES := by
  intro c2 hc2
  unfold find_empty_clean_step at hc2
  by_cases hcond : block_all_empty g s.logical_to_emptiness x = true
    ∧ s.erase_count
        (check_physical_address g s.logical_to_physical (x * g.BLOCK_SIZE) / g.BLOCK_SIZE)
        < acc.1
    ∧ s.erase_count
        (check_physical_address g s.logical_to_physical (x * g.BLOCK_SIZE) / g.BLOCK_SIZE)
        < g.BLOCK_ERASES
  · rw [if_pos hcond] at hc2
    simp at hc2
    exact ⟨x, hx, hc2.symm, hcond.1, by rw [← hc2]; exact hcond.2.2⟩
  · rw [if_neg hcond] at hc2
    exact hacc c2 hc2

/-- What a successful scratch-block scan guarantees. -/
theorem find_empty_cleaning_spec (g : Geo) (s : FtlState) {c : Nat}
    (h : find_empty_data_block_for_cleaning g s = some c) :
    ∃ i, i < NUM_OF_LGC_B g
      ∧ c = check_physical_address g s.logical_to_physical (i * g.BLOCK_SIZE)
      ∧ block_all_empty g s.logical_to_emptiness i = true
      ∧ s.erase_count (c / g.BLOCK_SIZE) < g.BLOCK_ERASES := by
  unfold find_empty_data_block_for_cleaning at h
  exact foldl_preserve (fun x => x < NUM_OF_LGC_B g)
    (fun acc : Nat × Option Nat => ∀ c2, acc.2 = some c2 →
      ∃ i, i < NUM_OF_LGC_B g
        ∧ c2 = check_physical_address g s.logical_to_physical (i * g.BLOCK_SIZE)
        ∧ block_all_empty g s.logical_to_emptiness i = true
        ∧ s.erase_count (c2 / g.BLOCK_SIZE) < g.BLOCK_ERASES)
    (find_empty_clean_step g s) (List.range (NUM_OF_LGC_B g)) (g.BLOCK_ERASES + 1, none)
    (by intro c2 hc2; simp at hc2)
    (find_empty_clean_step_spec g s)
    (by intro x hx; exact List.mem_range.mp hx) c h

/-- One step of the remap-target scan preserves its certificate. -/
theorem find_empty_remap_step_spec (g : Geo) (s : FtlState) (x : Nat)
    (hx : x < NUM_OF_LGC_B g) (acc : Nat × Option (Nat × Nat))
    (hacc : ∀ c2 : Nat × Nat, acc.2 = some c2 →
      ∃ i, i < NUM_OF_LGC_B g
        ∧ c2.1 = check_physical_address g s.logical_to_physical (i * g.BLOCK_SIZE)
        ∧ c2.2 = i * g.BLOCK_SIZE
        ∧ block_all_empty g s.logical_to_emptiness i = true
        ∧ s.erase_count (c2.1 / g.BLOCK_SIZE) < g.BLOCK_ERASES) :
    ∀ c2 : Nat × Nat, (find_empty_remap_step g s acc x).2 = some c2 →
      ∃ i, i < NUM_OF_LGC_B g
        ∧ c2.1 = check_physical_address g s.logical_to_physical (i * g.BLOCK_SIZE)
        ∧ c2.2 = i * g.BLOCK_SIZE
        ∧ block_all_empty g s.logical_to_emptiness i = true
        ∧ s.erase_count (c2.1 / g.BLOCK_SIZE) < g.BLOCK_ERASES := by
  intro c2 hc2
  unfold find_empty_remap_step at hc2
  by_cases hcond : block_all_empty g s.logical_to_emptiness x = true
    ∧ s.erase_count
        (check_physical_address g s.logical_to_physical (x * g.BLOCK_SIZE) / g.BLOCK_SIZE)
        < acc.1
    ∧ s.erase_count
        (check_physical_address g s.logical_to_physical (x * g.BLOCK_SIZE) / g.BLOCK_SIZE)
        < g.BLOCK_ERASES
  · rw [if_pos hcond] at hc2
    simp at hc2
    refine ⟨x, hx, ?_, ?_, hcond.1, ?_⟩
    · rw [← hc2]
    · rw [← hc2]
    · rw [← hc2]; exact hcond.2.2
  · rw [if_neg hcond] at hc2
    exact hacc c2 hc2

/-- What a successful remap-target scan guarantees. -/
theorem find_empty_remapping_spec (g : Geo) (s : FtlState) {c : Nat × Nat}
    (h : find_empty_data_block_for_remapping g s = some c) :
    ∃ i, i < NUM_OF_LGC_B g
      ∧ c.1 = check_physical_address g s.logical_to_physical (i * g.BLOCK_SIZE)
      ∧ c.2 = i * g.BLOCK_SIZE
      ∧ block_all_empty g s.logical_to_emptiness i = true
      ∧ s.erase_count (c.1 / g.BLOCK_SIZE) < g.BLOCK_ERASES := by
  unfold find_empty_data_block_for_remapping at h
  exact foldl_preserve (fun x => x < NUM_OF_LGC_B g)
    (fun acc : Nat × Option (Nat × Nat) => ∀ c2 : Nat × Nat, acc.2 = some c2 →
      ∃ i, i < NUM_OF_LGC_B g
        ∧ c2.1 = check_physical_address g s.logical_to_physical (i * g.BLOCK_SIZE)
        ∧ c2.2 = i * g.BLOCK_SIZE
        ∧ block_all_empty g s.logical_to_emptiness i = true
        ∧ s.erase_count (c2.1 / g.BLOCK_SIZE) < g.BLOCK_ERASES)
    (find_empty_remap_step g s) (List.range (NUM_OF_LGC_B g)) (g.BLOCK_ERASES + 1, none)
    (by intro c2 hc2; simp at hc2)
    (find_empty_remap_step_spec g s)
    (by intro x hx; exact List.mem_range.mp hx) c h

/-- One step of the maximal scan preserves its certificate. -/
theorem shuffle_max_step_spec (g : Geo) (s : FtlState) (hbs : 0 < g.BLOCK_SIZE) (x : Nat)
    (hx : x < NUM_OF_PHY_B g) (acc : Nat × Nat × Nat)
    (hacc : (acc.2.2 = RAW_SIZE g ∧ acc.2.1 = RAW_SIZE g)
      ∨ (∃ d, d < NUM_OF_PHY_B g ∧ acc.2.2 = d * g.BLOCK_SIZE ∧ s.data_to_log d ≠ 0
          ∧ acc.2.1 = lIdxN s d * g.BLOCK_SIZE
          ∧ s.erase_count (lIdxN s d) ≠ g.BLOCK_ERASES
          ∧ s.erase_count d ≠ g.BLOCK_ERASES)) :
    ((shuffle_max_step g s acc x).2.2 = RAW_SIZE g
        ∧ (shuffle_max_step g s acc x).2.1 = RAW_SIZE g)
    ∨ (∃ d, d < NUM_OF_PHY_B g ∧ (shuffle_max_step g s acc x).2.2 = d * g.BLOCK_SIZE
        ∧ s.data_to_log d ≠ 0
        ∧ (shuffle_max_step g s acc x).2.1 = lIdxN s d * g.BLOCK_SIZE
        ∧ s.erase_count (lIdxN s d) ≠ g.BLOCK_ERASES
        ∧ s.erase_count d ≠ g.BLOCK_ERASES) := by
  unfold shuffle_max_step
  dsimp only
  rw [clb_block g s.data_to_log x hbs]
  by_cases hm : s.data_to_log x = 0
  · rw [if_pos hm]
    exact hacc
  · rw [if_neg hm]
    dsimp only
    split
    · rename_i hcond
      refine Or.inr ⟨x, hx, rfl, hm, rfl, ?_, ?_⟩
      · have := hcond.1
        rwa [Nat.mul_div_cancel _ hbs] at this
      · have := hcond.2.1
        rwa [Nat.mul_div_cancel _ hbs] at this
    · exact hacc

/-- What the winning pair of `shuffle_max_scan` satisfies. -/
theorem shuffle_max_spec (g : Geo) (s : FtlState) (hbs : 0 < g.BLOCK_SIZE) :
    ((shuffle_max_scan g s).2.2 = RAW_SIZE g ∧ (shuffle_max_scan g s).2.1 = RAW_SIZE g)
    ∨ (∃ d, d < NUM_OF_PHY_B g ∧ (shuffle_max_scan g s).2.2 = d * g.BLOCK_SIZE
        ∧ s.data_to_log d ≠ 0
        ∧ (shuffle_max_scan g s).2.1 = lIdxN s d * g.BLOCK_SIZE
        ∧ s.erase_count (lIdxN s d) ≠ g.BLOCK_ERASES
        ∧ s.erase_count d ≠ g.BLOCK_ERASES) := by
  unfold shuffle_max_scan
  exact foldl_preserve (fun x => x < NUM_OF_PHY_B g)
    (fun acc : Nat × Nat × Nat =>
      (acc.2.2 = RAW_SIZE g ∧ acc.2.1 = RAW_SIZE g)
      ∨ (∃ d, d < NUM_OF_PHY_B g ∧ acc.2.2 = d * g.BLOCK_SIZE ∧ s.data_to_log d ≠ 0
          ∧ acc.2.1 = lIdxN s d * g.BLOCK_SIZE
          ∧ s.erase_count (lIdxN s d) ≠ g.BLOCK_ERASES
          ∧ s.erase_count d ≠ g.BLOCK_ERASES))
    (shuffle_max_step g s) (List.range (NUM_OF_PHY_B g)) (0, RAW_SIZE g, RAW_SIZE g)
    (Or.inl ⟨rfl, rfl⟩)
    (shuffle_max_step_spec g s hbs)
    (by intro x hx; exact List.mem_range.mp hx)

/-- What `find_logical_of` returns. -/
theorem find_logical_of_spec (g : Geo) (s : FtlState) {target lb : Nat}
    (h : find_logical_of g s target = some lb) :
    ∃ i, i < NUM_OF_LGC_B g ∧ lb = i * g.BLOCK_SIZE
      ∧ check_physical_address g s.logical_to_physical (i * g.BLOCK_SIZE) = target := by
  unfold find_logical_of at h
  cases hf : (List.range (NUM_OF_LGC_B g)).find? (fun i =>
      check_physical_address g s.logical_to_physical (i * g.BLOCK_SIZE) == target) with
  | none => rw [hf] at h; simp at h
  | some i =>
    rw [hf] at h
    have hp := List.find?_some hf
    have hmem := List.mem_range.mp (List.mem_of_find?_eq_some hf)
    simp at h hp
    exact ⟨i, hmem, h.symm, hp⟩

/-- One step of the minimal scan preserves its certificate. -/
theorem shuffle_min_step_spec (g : Geo) (s : FtlState) (hbs : 0 < g.BLOCK_SIZE) (x : Nat)
    (hx : x < NUM_OF_LGC_B g) (acc : Nat × Nat)
    (hacc : acc.2 = RAW_SIZE g
      ∨ (∃ i, i < NUM_OF_LGC_B g ∧ acc.2 = dIdxN s i * g.BLOCK_SIZE
          ∧ s.data_to_log (dIdxN s i) = 0 ∧ s.erase_count (dIdxN s i) = acc.1)) :
    (shuffle_min_step g s acc x).2 = RAW_SIZE g
    ∨ (∃ i, i < NUM_OF_LGC_B g
        ∧ (shuffle_min_step g s acc x).2 = dIdxN s i * g.BLOCK_SIZE
        ∧ s.data_to_log (dIdxN s i) = 0
        ∧ s.erase_count (dIdxN s i) = (shuffle_min_step g s acc x).1) := by
  unfold shuffle_min_step
  dsimp only
  rw [cpa_block g s.logical_to_physical x hbs]
  rw [clb_block g s.data_to_log _ hbs]
  by_cases hm : s.data_to_log (dIdxN s x) = 0
  · rw [show s.data_to_log (((x : Int) + s.logical_to_physical x).toNat)
        = s.data_to_log (dIdxN s x) from rfl, if_pos hm]
    dsimp only
    split
    · refine Or.inr ⟨x, hx, rfl, hm, ?_⟩
      show s.erase_count (dIdxN s x) = s.erase_count (dIdxN s x * g.BLOCK_SIZE / g.BLOCK_SIZE)
      rw [Nat.mul_div_cancel _ hbs]
    · exact hacc
  · rw [show s.data_to_log (((x : Int) + s.logical_to_physical x).toNat)
        = s.data_to_log (dIdxN s x) from rfl, if_neg hm]
    exact hacc

/-- What the winner of `shuffle_min_scan` satisfies. -/
theorem shuffle_min_spec (g : Geo) (s : FtlState) (hbs : 0 < g.BLOCK_SIZE) :
    (shuffle_min_scan g s).2 = RAW_SIZE g
    ∨ (∃ i, i < NUM_OF_LGC_B g
        ∧ (shuffle_min_scan g s).2 = dIdxN s i * g.BLOCK_SIZE
        ∧ s.data_to_log (dIdxN s i) = 0
        ∧ s.erase_count (dIdxN s i) = (shuffle_min_scan g s).1) := by
  unfold shuffle_min_scan
  exact foldl_preserve (fun x => x < NUM_OF_LGC_B g)
    (fun acc : Nat × Nat =>
      acc.2 = RAW_SIZE g
      ∨ (∃ i, i < NUM_OF_LGC_B g ∧ acc.2 = dIdxN s i * g.BLOCK_SIZE
          ∧ s.data_to_log (dIdxN s i) = 0 ∧ s.erase_count (dIdxN s i) = acc.1))
    (shuffle_min_step g s) (List.range (NUM_OF_LGC_B g)) (g.BLOCK_ERASES + 1, RAW_SIZE g)
    (Or.inl rfl)
    (shuffle_min_step_spec g s hbs)
    (by intro x hx; exact List.mem_range.mp hx)

/-- A failed `clean` leaves the state alone and issues nothing. -/
theorem clean_fail {g : Geo} {s : FtlState} {lb D L : Nat}
    (h : (clean g s lb D L).val = false) :
    (clean g s lb D L).st = s ∧ (clean g s lb D L).trace = [] := by
  unfold clean at h ⊢
  cases hf : find_empty_data_block_for_cleaning g s with
  | none => exact ⟨rfl, rfl⟩
  | some c => rw [hf] at h; simp at h

/-- A successful `clean` bumps exactly the three participating blocks
and erases nothing else. -/
theorem clean_ec (g : Geo) (s : FtlState) (lb D L : Nat)
    (h : (clean g s lb D L).val = true) :
    ∃ cln, find_empty_data_block_for_cleaning g s = some cln
      ∧ (∀ b, (clean g s lb D L).st.erase_count b
          = s.erase_count b + (if b = D / g.BLOCK_SIZE then 1 else 0)
            + (if b = L / g.BLOCK_SIZE then 1 else 0)
            + (if b = cln / g.BLOCK_SIZE then 1 else 0))
      ∧ (∀ lba base, PhysEvent.er lba base ∈ (clean g s lb D L).trace →
          base = D ∨ base = L ∨ base = cln) := by
  cases hf : find_empty_data_block_for_cleaning g s with
  | none => unfold clean at h; rw [hf] at h; exact absurd h (by simp)
  | some cln =>
    refine ⟨cln, rfl, ?_, ?_⟩
    · intro b
      simp only [clean, hf]
      unfold update_erase_count
      split_ifs <;> omega
    · intro lba base hmem
      simp only [clean, hf, List.mem_append] at hmem
      rcases hmem with ((h1 | h2) | h3) | h4
      · exfalso
        rw [List.mem_flatMap] at h1
        obtain ⟨i, _, h2⟩ := h1
        cases hcp : check_page_empty s.logical_to_emptiness (lb + i) with
        | true => rw [hcp] at h2; simp at h2
        | false =>
          rw [hcp] at h2
          cases hfp : fetch_log_page (manifest_of s L) i with
          | none => rw [hfp] at h2; simp at h2
          | some k => rw [hfp] at h2; simp at h2
      · simp at h2
        rcases h2 with ⟨_, h⟩ | ⟨_, h⟩
        · exact Or.inl h
        · exact Or.inr (Or.inl h)
      · exfalso
        rw [List.mem_flatMap] at h3
        obtain ⟨i, _, h2⟩ := h3
        cases hcp : check_page_empty s.logical_to_emptiness (lb + i) with
        | true => rw [hcp] at h2; simp at h2
        | false => rw [hcp] at h2; simp at h2
      · simp at h4
        exact Or.inr (Or.inr h4.2)

/-- A fully empty block owns no written page. -/
theorem block_all_empty_written {g : Geo} {bm : Nat → Nat} {i j : Nat}
    (hall : block_all_empty g bm i = true) (hj : j < g.BLOCK_SIZE)
    (hwr : check_page_empty bm (i * g.BLOCK_SIZE + j) = false) : False := by
  unfold block_all_empty at hall
  rw [List.all_eq_true] at hall
  have h2 := hall j (List.mem_range.mpr hj)
  simp only at h2
  rw [hwr] at h2
  exact absurd h2 (by decide)

/-- `clean`, called on a mapped pair with both sides under the cap,
preserves the invariant, grows the counters monotonically, erases only
under-cap blocks and leaves every cap-blocked mapped pair alone. -/
theorem clean_preserves (g : Geo) (hw : GeoWF g) {s : FtlState} (hI : Inv g s)
    (lb : Nat) {md D L : Nat}
    (hmd : md < NUM_OF_PHY_B g) (hmap : s.data_to_log md ≠ 0)
    (hD : D = md * g.BLOCK_SIZE) (hL : L = lIdxN s md * g.BLOCK_SIZE)
    (hDc : s.erase_count md < g.BLOCK_ERASES)
    (hLc : s.erase_count (lIdxN s md) < g.BLOCK_ERASES) :
    Inv g (clean g s lb D L).st
    ∧ (∀ b, s.erase_count b ≤ (clean g s lb D L).st.erase_count b)
    ∧ erases_under_cap g s.erase_count (clean g s lb D L).trace
    ∧ (∀ d, d < NUM_OF_PHY_B g → s.data_to_log d ≠ 0 →
        (g.BLOCK_ERASES ≤ s.erase_count d ∨ g.BLOCK_ERASES ≤ s.erase_count (lIdxN s d)) →
        (clean g s lb D L).st.erase_count d = s.erase_count d
        ∧ (clean g s lb D L).st.erase_count (lIdxN s d) = s.erase_count (lIdxN s d))
    ∧ (∀ b, (clean g s lb D L).st.erase_count b ≤ s.erase_count b + 1) := by
  cases hval : (clean g s lb D L).val with
  | false =>
    obtain ⟨hst, htr⟩ := clean_fail hval
    rw [hst, htr]
    exact ⟨hI, fun b => le_refl _, fun lba base hmem => absurd hmem (List.not_mem_nil _),
      fun d _ _ _ => ⟨rfl, rfl⟩, fun b => by omega⟩
  | true =>
    obtain ⟨cln, hf, hpt, herb⟩ := clean_ec g s lb D L hval
    obtain ⟨i3, hi3, hcln, hempty3, hclnc⟩ := find_empty_cleaning_spec g s hf
    have hclnB : cln = dIdxN s i3 * g.BLOCK_SIZE := by
      rw [hcln, cpa_block g _ i3 hw.bs_pos]; rfl
    have hc3P : dIdxN s i3 < NUM_OF_PHY_B g := hI.ltp_lt i3 hi3
    have hdivD : D / g.BLOCK_SIZE = md := by rw [hD, Nat.mul_div_cancel _ hw.bs_pos]
    have hdivL : L / g.BLOCK_SIZE = lIdxN s md := by rw [hL, Nat.mul_div_cancel _ hw.bs_pos]
    have hdivC : cln / g.BLOCK_SIZE = dIdxN s i3 := by
      rw [hclnB, Nat.mul_div_cancel _ hw.bs_pos]
    have hclnc' : s.erase_count (dIdxN s i3) < g.BLOCK_ERASES := by rw [← hdivC]; exact hclnc
    have hc3un : s.data_to_log (dIdxN s i3) = 0 := by
      by_contra hne
      obtain ⟨iW, hiW, hdiW, j, hj, hwr⟩ := hI.mapped_data (dIdxN s i3) hc3P hne
      have hii : iW = i3 := hI.ltp_inj iW hiW i3 hi3 hdiW
      subst hii
      exact block_all_empty_written hempty3 hj hwr
    obtain ⟨i0, hi0, hdi0, j0, hj0, hwr0⟩ := hI.mapped_data md hmd hmap
    have hmd_ne_l : lIdxN s md ≠ md := lIdxN_ne_self hI hmd hmap
    have hc3_ne_md : dIdxN s i3 ≠ md := by
      intro hc
      have hii : i3 = i0 := hI.ltp_inj i3 hi3 i0 hi0 (by rw [hc, hdi0])
      subst hii
      exact block_all_empty_written hempty3 hj0 hwr0
    have hc3_ne_l : dIdxN s i3 ≠ lIdxN s md := hI.log_not_data md hmd hmap i3 hi3
    have hpt' : ∀ b, (clean g s lb D L).st.erase_count b
        = s.erase_count b + (if b = md then 1 else 0)
          + (if b = lIdxN s md then 1 else 0) + (if b = dIdxN s i3 then 1 else 0) := by
      intro b
      rw [hpt b, hdivD, hdivL, hdivC]
    have hfr := clean_frame g s lb D L
    have hle : ∀ b, (clean g s lb D L).st.erase_count b ≤ g.BLOCK_ERASES := by
      intro b
      rw [hpt' b]
      by_cases h1 : b = md
      · subst h1
        rw [if_pos rfl, if_neg (fun hc => hmd_ne_l hc.symm),
          if_neg (fun hc => hc3_ne_md hc.symm)]
        omega
      · by_cases h2 : b = lIdxN s md
        · subst h2
          rw [if_neg h1, if_pos rfl, if_neg (fun hc => hc3_ne_l hc.symm)]
          omega
        · by_cases h3 : b = dIdxN s i3
          · subst h3
            rw [if_neg h1, if_neg h2, if_pos rfl]
            omega
          · rw [if_neg h1, if_neg h2, if_neg h3]
            have := hI.ec_le b
            omega
    refine ⟨?_, ?_, ?_, ?_, ?_⟩
    · refine Inv_ec_only hI hfr.1 hfr.2.1 hfr.2.2.1 hfr.2.2.2.1 hfr.2.2.2.2 hle ?_
      intro b hb
      rw [hpt' (b / g.BLOCK_SIZE),
        if_neg (fun hc => hI.pool_not_data b hb i0 hi0 (hdi0.trans hc.symm)),
        if_neg (fun hc => hI.pool_not_log b hb md hmd hmap hc.symm),
        if_neg (fun hc => hI.pool_not_data b hb i3 hi3 hc.symm)]
      have := hI.pool_fresh b hb
      omega
    · intro b
      rw [hpt' b]
      split_ifs <;> omega
    · intro lba base hmem
      rcases herb lba base hmem with h | h | h
      · subst h; rw [hdivD]; exact hDc
      · subst h; rw [hdivL]; exact hLc
      · subst h; rw [hdivC]; exact hclnc'
    · intro d hd hm hcap'
      have hd1 : d ≠ md := by
        intro hc
        subst hc
        rcases hcap' with hc | hc
        · omega
        · omega
      have hd2 : d ≠ lIdxN s md := by
        intro hc
        obtain ⟨iW, hiW, hdiW, _, _, _⟩ := hI.mapped_data d hd hm
        exact hI.log_not_data md hmd hmap iW hiW (hdiW.trans hc)
      have hd3 : d ≠ dIdxN s i3 := by
        intro hc
        rw [hc] at hm
        exact hm hc3un
      have hl1 : lIdxN s d ≠ md := by
        intro hc
        exact hI.log_not_data d hd hm i0 hi0 (hdi0.trans hc.symm)
      have hl2 : lIdxN s d ≠ lIdxN s md := by
        intro hc
        exact hd1 (hI.log_inj d hd md hmd hm hmap hc)
      have hl3 : lIdxN s d ≠ dIdxN s i3 := by
        intro hc
        exact hI.log_not_data d hd hm i3 hi3 hc.symm
      constructor
      · rw [hpt' d, if_neg hd1, if_neg hd2, if_neg hd3]
        omega
      · rw [hpt' (lIdxN s d), if_neg hl1, if_neg hl2, if_neg (fun hc => hl3 hc)]
        omega
    · intro b
      rw [hpt' b]
      by_cases h1 : b = md
      · subst h1
        rw [if_pos rfl, if_neg (fun hc => hmd_ne_l hc.symm),
          if_neg (fun hc => hc3_ne_md hc.symm)]
      · by_cases h2 : b = lIdxN s md
        · subst h2
          rw [if_neg h1, if_pos rfl, if_neg (fun hc => hc3_ne_l hc.symm)]
        · by_cases h3 : b = dIdxN s i3
          · subst h3
            rw [if_neg h1, if_neg h2, if_pos rfl]
          · rw [if_neg h1, if_neg h2, if_neg h3]
            omega

/-- `cancel_log_block` on a mapped data block base: the data-to-log
offset is cleared and the log block's manifest entry dropped. -/
theorem cancel_spec (g : Geo) (hw : GeoWF g) (s : FtlState) {da md : Nat}
    (hda : da = md * g.BLOCK_SIZE)
    (hmap : s.data_to_log md ≠ 0)
    (hkey : (mapFind s.log_to_pages (lIdxN s md * g.BLOCK_SIZE)).isSome = true) :
    (∀ d, (cancel_log_block g s da).data_to_log d
        = if d = md then 0 else s.data_to_log d)
    ∧ (cancel_log_block g s da).log_to_pages
        = mapErase s.log_to_pages (lIdxN s md * g.BLOCK_SIZE) := by
  subst hda
  unfold cancel_log_block
  dsimp only
  rw [clb_block g s.data_to_log md hw.bs_pos, if_neg hmap]
  dsimp only
  have hkey' : (mapFind s.log_to_pages
      (((md : Int) + s.data_to_log md).toNat * g.BLOCK_SIZE)).isSome = true := hkey
  rw [if_pos hkey']
  constructor
  · intro d
    show set_log_block g s.data_to_log (md * g.BLOCK_SIZE) (md * g.BLOCK_SIZE) d = _
    unfold set_log_block
    rw [Nat.mul_div_cancel _ hw.bs_pos]
    by_cases hd : d = md
    · rw [if_pos hd, if_pos hd]
      simp
    · rw [if_neg hd, if_neg hd]
  · rfl

/-- The invariant survives clearing one data-to-log mapping, provided
every other present manifest key stays present. -/
theorem Inv_unmap {g : Geo} (hw : GeoWF g) {t st : FtlState} (hI : Inv g t) {md : Nat}
    (hmd : md < NUM_OF_PHY_B g) (hmap : t.data_to_log md ≠ 0)
    (hbm : st.logical_to_emptiness = t.logical_to_emptiness)
    (hec : st.erase_count = t.erase_count)
    (hltp : st.logical_to_physical = t.logical_to_physical)
    (hdtl : ∀ d, st.data_to_log d = if d = md then 0 else t.data_to_log d)
    (hpool : st.op_blocks = t.op_blocks)
    (hlog : ∀ k, k ≠ lIdxN t md * g.BLOCK_SIZE →
        (mapFind t.log_to_pages k).isSome = true → (mapFind st.log_to_pages k).isSome = true) :
    Inv g st := by
  have hd : ∀ i, dIdxN st i = dIdxN t i := fun i => by unfold dIdxN; rw [hltp]
  have hmm : ∀ d, st.data_to_log d ≠ 0 → d ≠ md ∧ t.data_to_log d ≠ 0 := by
    intro d hm
    rw [hdtl d] at hm
    by_cases hdm : d = md
    · rw [if_pos hdm] at hm
      exact absurd rfl hm
    · rw [if_neg hdm] at hm
      exact ⟨hdm, hm⟩
  have hl : ∀ d, d ≠ md → lIdxN st d = lIdxN t d := by
    intro d hdm
    unfold lIdxN
    rw [hdtl d, if_neg hdm]
  refine ⟨?_, ?_, ?_, ?_, ?_, ?_, ?_, ?_, ?_, ?_, ?_, ?_, ?_, ?_, ?_, ?_⟩
  · intro b; rw [hec]; exact hI.ec_le b
  · intro i hi; rw [hltp]; exact hI.ltp_nonneg i hi
  · intro i hi; rw [hd]; exact hI.ltp_lt i hi
  · intro i hi j hj hij; rw [hd, hd] at hij; exact hI.ltp_inj i hi j hj hij
  · intro d hdp hm
    obtain ⟨hdm, hm'⟩ := hmm d hm
    rw [hdtl d, if_neg hdm]
    exact hI.dtl_nonneg d hdp hm'
  · intro d hdp hm
    obtain ⟨hdm, hm'⟩ := hmm d hm
    rw [hl d hdm]
    exact hI.dtl_lt d hdp hm'
  · intro d hdp hm
    obtain ⟨hdm, hm'⟩ := hmm d hm
    rw [hl d hdm]
    refine hlog _ ?_ (hI.manifest d hdp hm')
    intro hc
    have hll : lIdxN t d = lIdxN t md := Nat.eq_of_mul_eq_mul_right hw.bs_pos hc
    exact hdm (hI.log_inj d hdp md hmd hm' hmap hll)
  · intro d hdp d' hdp' hm hm' hll
    obtain ⟨hdm, hm2⟩ := hmm d hm
    obtain ⟨hdm', hm2'⟩ := hmm d' hm'
    rw [hl d hdm, hl d' hdm'] at hll
    exact hI.log_inj d hdp d' hdp' hm2 hm2' hll
  · intro d hdp hm i hi
    obtain ⟨hdm, hm'⟩ := hmm d hm
    rw [hd, hl d hdm]
    exact hI.log_not_data d hdp hm' i hi
  · intro d hdp hm
    obtain ⟨hdm, hm'⟩ := hmm d hm
    obtain ⟨i, hi, hdi, j, hj, hwr⟩ := hI.mapped_data d hdp hm'
    exact ⟨i, hi, by rw [hd]; exact hdi, j, hj, by rw [hbm]; exact hwr⟩
  · intro b hb; rw [hpool] at hb; exact hI.pool_aligned b hb
  · intro b hb; rw [hpool] at hb; exact hI.pool_lt b hb
  · intro b hb; rw [hpool] at hb; rw [hec]; exact hI.pool_fresh b hb
  · intro b hb i hi; rw [hpool] at hb; rw [hd]; exact hI.pool_not_data b hb i hi
  · intro b hb d hdp hm
    rw [hpool] at hb
    obtain ⟨hdm, hm'⟩ := hmm d hm
    rw [hl d hdm]
    exact hI.pool_not_log b hb d hdp hm'
  · rw [hpool]; exact hI.pool_nodup

/-- The pop loop pops exactly the top of a non-empty pool whose top is
under the cap. -/
theorem numb_loop_top (g : Geo) (ec : Nat → Nat) (v : List Nat) (hv : v ≠ [])
    (hfresh : over_erase_limit g ec (v.getLast hv) = false) :
    numb_loop g ec v 0 = (some (v.getLast hv), v.dropLast) := by
  obtain ⟨n, hn⟩ : ∃ n, v.length = n + 1 := by
    cases v with
    | nil => exact absurd rfl hv
    | cons a t => exact ⟨t.length, rfl⟩
  unfold numb_loop
  rw [hn]
  show numb_go g ec (n + 1) v 0 = _
  unfold numb_go
  rw [if_pos (show 0 < v.length by omega)]
  have hla : v.getD (v.length - 1 - 0) 0 = v.getLast hv := by
    rw [List.getLast_eq_getElem, List.getD_eq_getElem?_getD,
      List.getElem?_eq_getElem (show v.length - 1 - 0 < v.length by omega)]
    rfl
  dsimp only
  rw [hla, if_neg (show ¬ over_erase_limit g ec (v.getLast hv) = true by
    rw [hfresh]; exact Bool.false_ne_true)]

/-- The pop loop on the empty pool yields nothing. -/
theorem numb_loop_nil (g : Geo) (ec : Nat → Nat) :
    numb_loop g ec [] 0 = (none, []) := rfl

/-- The invariant holds after a successful shuffle: the max pair's
data block is unmapped, its owner redirected to the old log block, the
old manifest dropped and the min unmapped data block pushed to the
pool. -/
theorem shuffle_post_Inv (g : Geo) (hw : GeoWF g) {s st : FtlState} (hI : Inv g s)
    {md i2 : Nat}
    (hmd : md < NUM_OF_PHY_B g) (hmap : s.data_to_log md ≠ 0)
    (hi2 : i2 < NUM_OF_LGC_B g) (hun2 : s.data_to_log (dIdxN s i2) = 0)
    (hbm3 : st.logical_to_emptiness = s.logical_to_emptiness)
    (hltp3 : ∀ i, st.logical_to_physical i
        = if i = i2 then ((lIdxN s md : Nat) : Int) - ((i2 : Nat) : Int)
          else s.logical_to_physical i)
    (hdtl3 : ∀ d, st.data_to_log d = if d = md then 0 else s.data_to_log d)
    (hlog3 : st.log_to_pages = mapErase s.log_to_pages (lIdxN s md * g.BLOCK_SIZE))
    (hpool3 : st.op_blocks = s.op_blocks ++ [dIdxN s i2 * g.BLOCK_SIZE])
    (hecle : ∀ b, st.erase_count b ≤ g.BLOCK_ERASES)
    (hfr_old : ∀ b ∈ s.op_blocks, st.erase_count (b / g.BLOCK_SIZE) < g.BLOCK_ERASES)
    (hfr_new : st.erase_count (dIdxN s i2) < g.BLOCK_ERASES) :
    Inv g st := by
  have hd3 : ∀ i, dIdxN st i = if i = i2 then lIdxN s md else dIdxN s i := by
    intro i
    unfold dIdxN
    rw [hltp3 i]
    by_cases hi : i = i2
    · rw [if_pos hi, if_pos hi, hi]
      omega
    · rw [if_neg hi, if_neg hi]
  have hmm3 : ∀ d, st.data_to_log d ≠ 0 → d ≠ md ∧ s.data_to_log d ≠ 0 := by
    intro d hm
    rw [hdtl3 d] at hm
    by_cases hdm : d = md
    · rw [if_pos hdm] at hm
      exact absurd rfl hm
    · rw [if_neg hdm] at hm
      exact ⟨hdm, hm⟩
  have hl3 : ∀ d, d ≠ md → lIdxN st d = lIdxN s d := by
    intro d hdm
    unfold lIdxN
    rw [hdtl3 d, if_neg hdm]
  refine ⟨hecle, ?_, ?_, ?_, ?_, ?_, ?_, ?_, ?_, ?_, ?_, ?_, ?_, ?_, ?_, ?_⟩
  · intro i hi
    rw [hltp3 i]
    by_cases hii : i = i2
    · rw [if_pos hii]
      omega
    · rw [if_neg hii]
      exact hI.ltp_nonneg i hi
  · intro i hi
    rw [hd3 i]
    by_cases hii : i = i2
    · rw [if_pos hii]
      exact hI.dtl_lt md hmd hmap
    · rw [if_neg hii]
      exact hI.ltp_lt i hi
  · intro i hi j hj hij
    rw [hd3 i, hd3 j] at hij
    by_cases hii : i = i2
    · by_cases hjj : j = i2
      · rw [hii, hjj]
      · rw [if_pos hii, if_neg hjj] at hij
        exact absurd hij.symm (hI.log_not_data md hmd hmap j hj)
    · by_cases hjj : j = i2
      · rw [if_neg hii, if_pos hjj] at hij
        exact absurd hij (hI.log_not_data md hmd hmap i hi)
      · rw [if_neg hii, if_neg hjj] at hij
        exact hI.ltp_inj i hi j hj hij
  · intro d hdp hm
    obtain ⟨hdm, hm'⟩ := hmm3 d hm
    rw [hdtl3 d, if_neg hdm]
    exact hI.dtl_nonneg d hdp hm'
  · intro d hdp hm
    obtain ⟨hdm, hm'⟩ := hmm3 d hm
    rw [hl3 d hdm]
    exact hI.dtl_lt d hdp hm'
  · intro d hdp hm
    obtain ⟨hdm, hm'⟩ := hmm3 d hm
    rw [hl3 d hdm, hlog3, mapFind_mapErase]
    rw [if_neg (show ¬ lIdxN s d * g.BLOCK_SIZE = lIdxN s md * g.BLOCK_SIZE from by
      intro hc
      exact hdm (hI.log_inj d hdp md hmd hm' hmap
        (Nat.eq_of_mul_eq_mul_right hw.bs_pos hc)))]
    exact hI.manifest d hdp hm'
  · intro d hdp d' hdp' hm hm' hll
    obtain ⟨hdm, hm2⟩ := hmm3 d hm
    obtain ⟨hdm', hm2'⟩ := hmm3 d' hm'
    rw [hl3 d hdm, hl3 d' hdm'] at hll
    exact hI.log_inj d hdp d' hdp' hm2 hm2' hll
  · intro d hdp hm i hi
    obtain ⟨hdm, hm'⟩ := hmm3 d hm
    rw [hd3 i, hl3 d hdm]
    by_cases hii : i = i2
    · rw [if_pos hii]
      intro hc
      exact hdm (hI.log_inj d hdp md hmd hm' hmap hc.symm)
    · rw [if_neg hii]
      exact hI.log_not_data d hdp hm' i hi
  · intro d hdp hm
    obtain ⟨hdm, hm'⟩ := hmm3 d hm
    obtain ⟨iW, hiW, hdiW, j, hj, hwr⟩ := hI.mapped_data d hdp hm'
    have hiW2 : iW ≠ i2 := by
      intro hc
      rw [hc] at hdiW
      rw [← hdiW] at hm'
      exact hm' hun2
    refine ⟨iW, hiW, ?_, j, hj, ?_⟩
    · rw [hd3 iW, if_neg hiW2]
      exact hdiW
    · rw [hbm3]
      exact hwr
  · intro b hb
    rw [hpool3] at hb
    rcases List.mem_append.mp hb with hb | hb
    · exact hI.pool_aligned b hb
    · rw [List.mem_singleton] at hb
      rw [hb]
      exact dvd_mul_left g.BLOCK_SIZE (dIdxN s i2)
  · intro b hb
    rw [hpool3] at hb
    rcases List.mem_append.mp hb with hb | hb
    · exact hI.pool_lt b hb
    · rw [List.mem_singleton] at hb
      rw [hb]
      exact block_base_lt_raw hw (hI.ltp_lt i2 hi2)
  · intro b hb
    rw [hpool3] at hb
    rcases List.mem_append.mp hb with hb | hb
    · exact hfr_old b hb
    · rw [List.mem_singleton] at hb
      rw [hb, Nat.mul_div_cancel _ hw.bs_pos]
      exact hfr_new
  · intro b hb i hi
    rw [hpool3] at hb
    rw [hd3 i]
    rcases List.mem_append.mp hb with hb | hb
    · by_cases hii : i = i2
      · rw [if_pos hii]
        exact hI.pool_not_log b hb md hmd hmap
      · rw [if_neg hii]
        exact hI.pool_not_data b hb i hi
    · rw [List.mem_singleton] at hb
      rw [hb, Nat.mul_div_cancel _ hw.bs_pos]
      by_cases hii : i = i2
      · rw [if_pos hii]
        intro hc
        exact hI.log_not_data md hmd hmap i2 hi2 hc.symm
      · rw [if_neg hii]
        intro hc
        exact hii (hI.ltp_inj i hi i2 hi2 hc)
  · intro b hb d hdp hm
    rw [hpool3] at hb
    obtain ⟨hdm, hm'⟩ := hmm3 d hm
    rw [hl3 d hdm]
    rcases List.mem_append.mp hb with hb | hb
    · exact hI.pool_not_log b hb d hdp hm'
    · rw [List.mem_singleton] at hb
      rw [hb, Nat.mul_div_cancel _ hw.bs_pos]
      intro hc
      exact hI.log_not_data d hdp hm' i2 hi2 hc.symm
  · rw [hpool3]
    refine List.Nodup.append hI.pool_nodup (List.nodup_singleton _) ?_
    intro x hx hmem
    rw [List.mem_singleton] at hmem
    exact hI.pool_not_data x hx i2 hi2
      (show dIdxN s i2 = x / g.BLOCK_SIZE by rw [hmem, Nat.mul_div_cancel _ hw.bs_pos])

/-- The bundle of garbage-collection conclusions for a no-op result. -/
theorem op_id_concl (g : Geo) {s : FtlState} (hI : Inv g s) :
    Inv g s
    ∧ (∀ b, s.erase_count b ≤ s.erase_count b)
    ∧ erases_under_cap g s.erase_count ([] : List PhysEvent)
    ∧ gc_frame g s s
    ∧ (∀ d, s.data_to_log d = s.data_to_log d ∨ s.data_to_log d = 0)
    ∧ s.logical_to_emptiness = s.logical_to_emptiness
    ∧ (false = false → s.op_blocks = s.op_blocks)
    ∧ (false = true → ∃ mi, s.op_blocks = s.op_blocks ++ [mi]
        ∧ (∀ j, j < NUM_OF_LGC_B g → dIdxN s j ≠ dIdxN s j →
            mi = dIdxN s j * g.BLOCK_SIZE))
    ∧ (false = false → ∀ i, s.logical_to_physical i = s.logical_to_physical i) := by
  refine ⟨hI, fun b => le_refl _, ?_, ?_, fun d => Or.inl rfl, rfl, fun _ => rfl, ?_,
    fun _ i => rfl⟩
  · intro lba base hmem
    exact absurd hmem (List.not_mem_nil _)
  · intro d hd hm hcap
    exact ⟨rfl, fun i _ _ => rfl, rfl, rfl⟩
  · intro hc
    exact absurd hc Bool.false_ne_true

/-- The shuffle's conclusions when the second owner search fails right
after the clean/cancel of the max pair. -/
theorem shuffle_cancelfail_spec (g : Geo) (hw : GeoWF g) {s : FtlState} (hI : Inv g s)
    {A B lb1 md : Nat}
    (hm22 : A = md * g.BLOCK_SIZE) (hmdP : md < NUM_OF_PHY_B g)
    (hmap : s.data_to_log md ≠ 0)
    (hm21 : B = lIdxN s md * g.BLOCK_SIZE)
    (hDc : s.erase_count md < g.BLOCK_ERASES)
    (hLc : s.erase_count (lIdxN s md) < g.BLOCK_ERASES)
    (hcv : (clean g s lb1 A B).val = true)
    (st : FtlState) (tr : List PhysEvent)
    (hst : st = cancel_log_block g (clean g s lb1 A B).st A)
    (htr : tr = (clean g s lb1 A B).trace) :
    Inv g st ∧ (∀ b, s.erase_count b ≤ st.erase_count b)
    ∧ erases_under_cap g s.erase_count tr
    ∧ gc_frame g s st
    ∧ (∀ d, st.data_to_log d = s.data_to_log d ∨ st.data_to_log d = 0)
    ∧ st.logical_to_emptiness = s.logical_to_emptiness
    ∧ st.op_blocks = s.op_blocks
    ∧ (∀ i, st.logical_to_physical i = s.logical_to_physical i) := by
  have hcp := clean_preserves g hw hI lb1 hmdP hmap hm22 hm21 hDc hLc
  have hfr := clean_frame g s lb1 A B
  have hmap_c : (clean g s lb1 A B).st.data_to_log md ≠ 0 := by
    rw [hfr.2.2.1]; exact hmap
  have hlIc : lIdxN (clean g s lb1 A B).st md = lIdxN s md := by
    unfold lIdxN; rw [hfr.2.2.1]
  have hkey_c : (mapFind (clean g s lb1 A B).st.log_to_pages
      (lIdxN (clean g s lb1 A B).st md * g.BLOCK_SIZE)).isSome = true := by
    rw [hfr.2.2.2.1, hlIc]; exact hI.manifest md hmdP hmap
  have hcs := cancel_spec g hw (clean g s lb1 A B).st hm22 hmap_c hkey_c
  have hfrc := cancel_log_block_frame g (clean g s lb1 A B).st A
  have hdtl2 : ∀ d, st.data_to_log d = if d = md then 0 else s.data_to_log d := by
    intro d
    rw [hst, hcs.1 d, hfr.2.2.1]
  have hec2 : st.erase_count = (clean g s lb1 A B).st.erase_count := by
    rw [hst]; exact hfrc.2.1
  refine ⟨?_, ?_, ?_, ?_, ?_, ?_, ?_, ?_⟩
  · rw [hst]
    refine Inv_unmap hw hcp.1 hmdP hmap_c hfrc.1 hfrc.2.1 hfrc.2.2.1 hcs.1 hfrc.2.2.2 ?_
    intro k hk hkk
    rw [hcs.2, mapFind_mapErase, if_neg hk]
    exact hkk
  · intro b
    rw [hec2]
    exact hcp.2.1 b
  · rw [htr]
    exact hcp.2.2.1
  · intro d hd hm hcap
    have hd_ne : d ≠ md := by
      intro hc
      subst hc
      rcases hcap with h | h <;> omega
    refine ⟨?_, ?_, ?_, ?_⟩
    · rw [hdtl2 d, if_neg hd_ne]
    · intro i hi hdi
      rw [hst, hfrc.2.2.1, hfr.2.1]
    · rw [hec2]
      exact (hcp.2.2.2.1 d hd hm hcap).1
    · rw [hec2]
      exact (hcp.2.2.2.1 d hd hm hcap).2
  · intro d
    rw [hdtl2 d]
    by_cases hdm : d = md
    · rw [if_pos hdm]
      exact Or.inr rfl
    · rw [if_neg hdm]
      exact Or.inl rfl
  · rw [hst, hfrc.1, hfr.1]
  · rw [hst, hfrc.2.2.2, hfr.2.2.2.2]
  · intro i
    rw [hst, hfrc.2.2.1, hfr.2.1]

/-- The shuffle's conclusions on the success path. -/
theorem shuffle_succ_spec (g : Geo) (hw : GeoWF g) {s : FtlState} (hI : Inv g s)
    {A B mn2 lb1 lb2 md i2 : Nat}
    (hm22 : A = md * g.BLOCK_SIZE) (hmdP : md < NUM_OF_PHY_B g)
    (hmap : s.data_to_log md ≠ 0)
    (hm21 : B = lIdxN s md * g.BLOCK_SIZE)
    (hDc : s.erase_count md < g.BLOCK_ERASES)
    (hLc : s.erase_count (lIdxN s md) < g.BLOCK_ERASES)
    (hi2 : i2 < NUM_OF_LGC_B g) (hmn2 : mn2 = dIdxN s i2 * g.BLOCK_SIZE)
    (hun2 : s.data_to_log (dIdxN s i2) = 0)
    (hminc : s.erase_count (dIdxN s i2) < g.BLOCK_ERASES - 1)
    (hcv : (clean g s lb1 A B).val = true)
    (hfl2 : find_logical_of g (cancel_log_block g (clean g s lb1 A B).st A) mn2 = some lb2)
    (st : FtlState) (tr : List PhysEvent)
    (hst : st = { cancel_log_block g (clean g s lb1 A B).st A with
        logical_to_physical := set_physical_address g
          (cancel_log_block g (clean g s lb1 A B).st A).logical_to_physical lb2 B,
        op_blocks := (cancel_log_block g (clean g s lb1 A B).st A).op_blocks ++ [mn2] })
    (htr : tr = (clean g s lb1 A B).trace
        ++ (List.range g.BLOCK_SIZE).flatMap (fun i =>
            if check_page_empty
                (cancel_log_block g (clean g s lb1 A B).st A).logical_to_emptiness (lb2 + i)
            then [] else [PhysEvent.rd (lb2 + i) mn2 i, PhysEvent.wr (lb2 + i) B i])
        ++ [PhysEvent.er lb2 mn2]) :
    Inv g st ∧ (∀ b, s.erase_count b ≤ st.erase_count b)
    ∧ erases_under_cap g s.erase_count tr
    ∧ gc_frame g s st
    ∧ (∀ d, st.data_to_log d = s.data_to_log d ∨ st.data_to_log d = 0)
    ∧ st.logical_to_emptiness = s.logical_to_emptiness
    ∧ st.op_blocks = s.op_blocks ++ [mn2]
    ∧ (∀ j, j < NUM_OF_LGC_B g → dIdxN st j ≠ dIdxN s j →
        mn2 = dIdxN s j * g.BLOCK_SIZE) := by
  have hcp := clean_preserves g hw hI lb1 hmdP hmap hm22 hm21 hDc hLc
  have hfr := clean_frame g s lb1 A B
  have hmap_c : (clean g s lb1 A B).st.data_to_log md ≠ 0 := by
    rw [hfr.2.2.1]; exact hmap
  have hlIc : lIdxN (clean g s lb1 A B).st md = lIdxN s md := by
    unfold lIdxN; rw [hfr.2.2.1]
  have hkey_c : (mapFind (clean g s lb1 A B).st.log_to_pages
      (lIdxN (clean g s lb1 A B).st md * g.BLOCK_SIZE)).isSome = true := by
    rw [hfr.2.2.2.1, hlIc]; exact hI.manifest md hmdP hmap
  have hcs := cancel_spec g hw (clean g s lb1 A B).st hm22 hmap_c hkey_c
  have hfrc := cancel_log_block_frame g (clean g s lb1 A B).st A
  have hltp2 : (cancel_log_block g (clean g s lb1 A B).st A).logical_to_physical
      = s.logical_to_physical := by
    rw [hfrc.2.2.1, hfr.2.1]
  -- identify the found owner with i2
  obtain ⟨i2', hi2', hlb2, hcpa2⟩ := find_logical_of_spec g _ hfl2
  rw [hltp2, cpa_block g _ i2' hw.bs_pos] at hcpa2
  have hi2eq : i2' = i2 := by
    refine hI.ltp_inj i2' hi2' i2 hi2 (Nat.eq_of_mul_eq_mul_right hw.bs_pos ?_)
    show dIdxN s i2' * g.BLOCK_SIZE = dIdxN s i2 * g.BLOCK_SIZE
    rw [← hmn2]
    exact hcpa2
  rw [hi2eq] at hlb2
  -- pointwise description of the final state
  have hbm3 : st.logical_to_emptiness = s.logical_to_emptiness := by
    rw [hst]
    show (cancel_log_block g (clean g s lb1 A B).st A).logical_to_emptiness = _
    rw [hfrc.1, hfr.1]
  have hec3 : st.erase_count = (clean g s lb1 A B).st.erase_count := by
    rw [hst]
    show (cancel_log_block g (clean g s lb1 A B).st A).erase_count = _
    exact hfrc.2.1
  have hdtl3 : ∀ d, st.data_to_log d = if d = md then 0 else s.data_to_log d := by
    intro d
    rw [hst]
    show (cancel_log_block g (clean g s lb1 A B).st A).data_to_log d = _
    rw [hcs.1 d, hfr.2.2.1]
  have hlog3 : st.log_to_pages = mapErase s.log_to_pages (lIdxN s md * g.BLOCK_SIZE) := by
    rw [hst]
    show (cancel_log_block g (clean g s lb1 A B).st A).log_to_pages = _
    rw [hcs.2, hfr.2.2.2.1, hlIc]
  have hpool3 : st.op_blocks = s.op_blocks ++ [mn2] := by
    rw [hst]
    show (cancel_log_block g (clean g s lb1 A B).st A).op_blocks ++ [mn2] = _
    rw [hfrc.2.2.2, hfr.2.2.2.2]
  have hltp3 : ∀ i, st.logical_to_physical i
      = if i = i2 then ((lIdxN s md : Nat) : Int) - ((i2 : Nat) : Int)
        else s.logical_to_physical i := by
    intro i
    rw [hst]
    show set_physical_address g
      (cancel_log_block g (clean g s lb1 A B).st A).logical_to_physical lb2 B i = _
    unfold set_physical_address
    rw [hltp2, hlb2, hm21, Nat.mul_div_cancel _ hw.bs_pos, Nat.mul_div_cancel _ hw.bs_pos]
  have hecle : ∀ b, st.erase_count b ≤ g.BLOCK_ERASES := by
    intro b
    rw [hec3]
    exact (hcp.1).ec_le b
  have hfr_old : ∀ b ∈ s.op_blocks, st.erase_count (b / g.BLOCK_SIZE) < g.BLOCK_ERASES := by
    intro b hb
    rw [hec3]
    exact (hcp.1).pool_fresh b (by rw [hfr.2.2.2.2]; exact hb)
  have hfr_new : st.erase_count (dIdxN s i2) < g.BLOCK_ERASES := by
    rw [hec3]
    have := hcp.2.2.2.2 (dIdxN s i2)
    omega
  have hd3 : ∀ j, dIdxN st j = if j = i2 then lIdxN s md else dIdxN s j := by
    intro j
    unfold dIdxN
    rw [hltp3 j]
    by_cases hjj : j = i2
    · rw [if_pos hjj, if_pos hjj, hjj]
      omega
    · rw [if_neg hjj, if_neg hjj]
  refine ⟨shuffle_post_Inv g hw hI hmdP hmap hi2 hun2 hbm3 hltp3 hdtl3 hlog3
      (by rw [hpool3, hmn2]) hecle hfr_old hfr_new, ?_, ?_, ?_, ?_, hbm3, hpool3, ?_⟩
  · intro b
    rw [hec3]
    exact hcp.2.1 b
  · intro lba base hmem
    rw [htr] at hmem
    simp only [List.mem_append] at hmem
    rcases hmem with (h1 | h2) | h3
    · exact hcp.2.2.1 lba base h1
    · exfalso
      rw [List.mem_flatMap] at h2
      obtain ⟨i, _, h22⟩ := h2
      cases hcp2 : check_page_empty
          (cancel_log_block g (clean g s lb1 A B).st A).logical_to_emptiness (lb2 + i) with
      | true => rw [hcp2] at h22; simp at h22
      | false => rw [hcp2] at h22; simp at h22
    · simp at h3
      rw [h3.2, hmn2, Nat.mul_div_cancel _ hw.bs_pos]
      omega
  · intro d hd hm hcap
    have hd_ne : d ≠ md := by
      intro hc
      subst hc
      rcases hcap with h | h <;> omega
    refine ⟨?_, ?_, ?_, ?_⟩
    · rw [hdtl3 d, if_neg hd_ne]
    · intro i hi hdi
      rw [hltp3 i, if_neg (show ¬ i = i2 from ?_)]
      intro hc
      rw [hc] at hdi
      rw [← hdi] at hm
      exact hm hun2
    · rw [hec3]
      exact (hcp.2.2.2.1 d hd hm hcap).1
    · rw [hec3]
      exact (hcp.2.2.2.1 d hd hm hcap).2
  · intro d
    rw [hdtl3 d]
    by_cases hdm : d = md
    · rw [if_pos hdm]
      exact Or.inr rfl
    · rw [if_neg hdm]
      exact Or.inl rfl
  · intro j hj hne
    by_cases hjj : j = i2
    · rw [hjj]
      exact hmn2
    · exfalso
      apply hne
      rw [hd3 j, if_neg hjj]

/-- `shuffle_data_log` preserves the invariant; its counters grow
monotonically, its erases target under-cap blocks, cap-blocked pairs
are untouched, mappings are only ever cleared, the bitmap is fixed,
and on success exactly the min unmapped data block is pushed (which is
also the only block whose owner is redirected). -/
theorem shuffle_spec (g : Geo) (hw : GeoWF g) {s : FtlState} (hI : Inv g s) :
    Inv g (shuffle_data_log g s).st
    ∧ (∀ b, s.erase_count b ≤ (shuffle_data_log g s).st.erase_count b)
    ∧ erases_under_cap g s.erase_count (shuffle_data_log g s).trace
    ∧ gc_frame g s (shuffle_data_log g s).st
    ∧ (∀ d, (shuffle_data_log g s).st.data_to_log d = s.data_to_log d
        ∨ (shuffle_data_log g s).st.data_to_log d = 0)
    ∧ (shuffle_data_log g s).st.logical_to_emptiness = s.logical_to_emptiness
    ∧ ((shuffle_data_log g s).val = false → (shuffle_data_log g s).st.op_blocks = s.op_blocks)
    ∧ ((shuffle_data_log g s).val = true → ∃ mi,
        (shuffle_data_log g s).st.op_blocks = s.op_blocks ++ [mi]
        ∧ (∀ j, j < NUM_OF_LGC_B g → dIdxN (shuffle_data_log g s).st j ≠ dIdxN s j →
            mi = dIdxN s j * g.BLOCK_SIZE))
    ∧ ((shuffle_data_log g s).val = false →
        ∀ i, (shuffle_data_log g s).st.logical_to_physical i = s.logical_to_physical i) := by
  by_cases hg1 : (shuffle_max_scan g s).2.2 = RAW_SIZE g
      ∨ (shuffle_max_scan g s).2.1 = RAW_SIZE g
  · have hred : shuffle_data_log g s = ⟨false, s, []⟩ := by
      unfold shuffle_data_log
      dsimp only
      rw [if_pos hg1]
    rw [hred]
    exact op_id_concl g hI
  · rcases shuffle_max_spec g s hw.bs_pos with ⟨h1, _⟩ | ⟨md, hmdP, hm22, hmap, hm21, hlne, hdne⟩
    · exact absurd (Or.inl h1) hg1
    · have hDc : s.erase_count md < g.BLOCK_ERASES := lt_of_le_of_ne (hI.ec_le md) hdne
      have hLc : s.erase_count (lIdxN s md) < g.BLOCK_ERASES :=
        lt_of_le_of_ne (hI.ec_le _) hlne
      cases hfl : find_logical_of g s (shuffle_max_scan g s).2.2 with
      | none =>
        have hred : shuffle_data_log g s = ⟨false, s, []⟩ := by
          unfold shuffle_data_log
          dsimp only
          rw [if_neg hg1, hfl]
        rw [hred]
        exact op_id_concl g hI
      | some lb1 =>
        by_cases hg2 : (shuffle_min_scan g s).2 = RAW_SIZE g
        · have hred : shuffle_data_log g s = ⟨false, s, []⟩ := by
            unfold shuffle_data_log
            dsimp only
            rw [if_neg hg1, hfl]
            dsimp only
            rw [if_pos hg2]
          rw [hred]
          exact op_id_concl g hI
        · by_cases hg3 : g.BLOCK_ERASES - 1 ≤ (shuffle_min_scan g s).1
          · have hred : shuffle_data_log g s = ⟨false, s, []⟩ := by
              unfold shuffle_data_log
              dsimp only
              rw [if_neg hg1, hfl]
              dsimp only
              rw [if_neg hg2, if_pos hg3]
            rw [hred]
            exact op_id_concl g hI
          · rcases shuffle_min_spec g s hw.bs_pos with h | ⟨i2, hi2, hmn2, hun2, hec2⟩
            · exact absurd h hg2
            · have hminc : s.erase_count (dIdxN s i2) < g.BLOCK_ERASES - 1 := by
                rw [hec2]
                omega
              cases hcv : (clean g s lb1 (shuffle_max_scan g s).2.2
                  (shuffle_max_scan g s).2.1).val with
              | false =>
                obtain ⟨hcst, hctr⟩ := clean_fail hcv
                have hred : shuffle_data_log g s
                    = ⟨false,
                       (clean g s lb1 (shuffle_max_scan g s).2.2
                         (shuffle_max_scan g s).2.1).st,
                       (clean g s lb1 (shuffle_max_scan g s).2.2
                         (shuffle_max_scan g s).2.1).trace⟩ := by
                  unfold shuffle_data_log
                  dsimp only
                  rw [if_neg hg1, hfl]
                  dsimp only
                  rw [if_neg hg2, if_neg hg3, if_pos hcv]
                rw [hred, hcst, hctr]
                exact op_id_concl g hI
              | true =>
                cases hfl2 : find_logical_of g
                    (cancel_log_block g
                      (clean g s lb1 (shuffle_max_scan g s).2.2
                        (shuffle_max_scan g s).2.1).st
                      (shuffle_max_scan g s).2.2)
                    (shuffle_min_scan g s).2 with
                | none =>
                  have hred : shuffle_data_log g s
                      = ⟨false,
                         cancel_log_block g
                           (clean g s lb1 (shuffle_max_scan g s).2.2
                             (shuffle_max_scan g s).2.1).st
                           (shuffle_max_scan g s).2.2,
                         (clean g s lb1 (shuffle_max_scan g s).2.2
                           (shuffle_max_scan g s).2.1).trace⟩ := by
                    unfold shuffle_data_log
                    dsimp only
                    rw [if_neg hg1, hfl]
                    dsimp only
                    rw [if_neg hg2, if_neg hg3,
                      if_neg (show ¬ (clean g s lb1 (shuffle_max_scan g s).2.2
                          (shuffle_max_scan g s).2.1).val = false by
                        rw [hcv]; decide)]
                    rw [hfl2]
                  rw [hred]
                  have hcf := shuffle_cancelfail_spec g hw hI hm22 hmdP hmap hm21 hDc hLc
                    hcv _ _ rfl rfl
                  exact ⟨hcf.1, hcf.2.1, hcf.2.2.1, hcf.2.2.2.1, hcf.2.2.2.2.1,
                    hcf.2.2.2.2.2.1, fun _ => hcf.2.2.2.2.2.2.1,
                    fun hc => absurd hc Bool.false_ne_true,
                    fun _ => hcf.2.2.2.2.2.2.2⟩
                | some lb2 =>
                  have hred : shuffle_data_log g s
                      = ⟨true,
                         { cancel_log_block g
                             (clean g s lb1 (shuffle_max_scan g s).2.2
                               (shuffle_max_scan g s).2.1).st
                             (shuffle_max_scan g s).2.2 with
                           logical_to_physical := set_physical_address g
                             (cancel_log_block g
                               (clean g s lb1 (shuffle_max_scan g s).2.2
                                 (shuffle_max_scan g s).2.1).st
                               (shuffle_max_scan g s).2.2).logical_to_physical
                             lb2 (shuffle_max_scan g s).2.1,
                           op_blocks := (cancel_log_block g
                               (clean g s lb1 (shuffle_max_scan g s).2.2
                                 (shuffle_max_scan g s).2.1).st
                               (shuffle_max_scan g s).2.2).op_blocks
                             ++ [(shuffle_min_scan g s).2] },
                         (clean g s lb1 (shuffle_max_scan g s).2.2
                           (shuffle_max_scan g s).2.1).trace
                           ++ (List.range g.BLOCK_SIZE).flatMap (fun i =>
                               if check_page_empty
                                   (cancel_log_block g
                                     (clean g s lb1 (shuffle_max_scan g s).2.2
                                       (shuffle_max_scan g s).2.1).st
                                     (shuffle_max_scan g s).2.2).logical_to_emptiness
                                   (lb2 + i)
                               then []
                               else [PhysEvent.rd (lb2 + i) (shuffle_min_scan g s).2 i,
                                     PhysEvent.wr (lb2 + i) (shuffle_max_scan g s).2.1 i])
                           ++ [PhysEvent.er lb2 (shuffle_min_scan g s).2]⟩ := by
                    unfold shuffle_data_log
                    dsimp only
                    rw [if_neg hg1, hfl]
                    dsimp only
                    rw [if_neg hg2, if_neg hg3,
                      if_neg (show ¬ (clean g s lb1 (shuffle_max_scan g s).2.2
                          (shuffle_max_scan g s).2.1).val = false by
                        rw [hcv]; decide)]
                    rw [hfl2]
                  rw [hred]
                  have hss := shuffle_succ_spec g hw hI hm22 hmdP hmap hm21 hDc hLc
                    hi2 hmn2 hun2 hminc hcv hfl2 _ _ rfl rfl
                  exact ⟨hss.1, hss.2.1, hss.2.2.1, hss.2.2.2.1, hss.2.2.2.2.1,
                    hss.2.2.2.2.2.1, fun hc => Bool.noConfusion hc,
                    fun _ => ⟨(shuffle_min_scan g s).2, hss.2.2.2.2.2.2.1,
                      hss.2.2.2.2.2.2.2⟩,
                    fun hc => Bool.noConfusion hc⟩

/-- Dropping the pool top preserves the invariant. -/
theorem Inv_pool_drop {g : Geo} {s : FtlState} (hI : Inv g s) :
    Inv g { s with op_blocks := s.op_blocks.dropLast } := by
  have hsub : ∀ b ∈ s.op_blocks.dropLast, b ∈ s.op_blocks :=
    fun b hb => List.dropLast_subset _ hb
  exact ⟨hI.ec_le, hI.ltp_nonneg, hI.ltp_lt, hI.ltp_inj, hI.dtl_nonneg, hI.dtl_lt,
    hI.manifest, hI.log_inj, hI.log_not_data, hI.mapped_data,
    fun b hb => hI.pool_aligned b (hsub b hb),
    fun b hb => hI.pool_lt b (hsub b hb),
    fun b hb => hI.pool_fresh b (hsub b hb),
    fun b hb => hI.pool_not_data b (hsub b hb),
    fun b hb => hI.pool_not_log b (hsub b hb),
    List.Nodup.sublist (List.dropLast_sublist _) hI.pool_nodup⟩

/-- `next_unmapped_log_block` preserves the invariant, and a returned
block is aligned, in range, under the cap, outside both mapping images
and outside the remaining pool; the only owner redirection it can make
points at the returned block's old position. -/
theorem numb_spec (g : Geo) (hw : GeoWF g) {s : FtlState} (hI : Inv g s) :
    Inv g (next_unmapped_log_block g s).st
    ∧ (∀ b, s.erase_count b ≤ (next_unmapped_log_block g s).st.erase_count b)
    ∧ erases_under_cap g s.erase_count (next_unmapped_log_block g s).trace
    ∧ gc_frame g s (next_unmapped_log_block g s).st
    ∧ (∀ d, (next_unmapped_log_block g s).st.data_to_log d = s.data_to_log d
        ∨ (next_unmapped_log_block g s).st.data_to_log d = 0)
    ∧ (next_unmapped_log_block g s).st.logical_to_emptiness = s.logical_to_emptiness
    ∧ (∀ j, j < NUM_OF_LGC_B g →
        dIdxN (next_unmapped_log_block g s).st j ≠ dIdxN s j →
        (next_unmapped_log_block g s).val = some (dIdxN s j * g.BLOCK_SIZE))
    ∧ (∀ b, (next_unmapped_log_block g s).val = some b →
        g.BLOCK_SIZE ∣ b ∧ b < RAW_SIZE g
        ∧ (next_unmapped_log_block g s).st.erase_count (b / g.BLOCK_SIZE) < g.BLOCK_ERASES
        ∧ (∀ i, i < NUM_OF_LGC_B g →
            dIdxN (next_unmapped_log_block g s).st i ≠ b / g.BLOCK_SIZE)
        ∧ (∀ d, d < NUM_OF_PHY_B g → (next_unmapped_log_block g s).st.data_to_log d ≠ 0 →
            lIdxN (next_unmapped_log_block g s).st d ≠ b / g.BLOCK_SIZE)
        ∧ b ∉ (next_unmapped_log_block g s).st.op_blocks) := by
  cases hpe : s.op_blocks.isEmpty with
  | false =>
    have hv : s.op_blocks ≠ [] := by
      intro hc
      rw [hc] at hpe
      exact Bool.noConfusion hpe
    have hlmem : s.op_blocks.getLast hv ∈ s.op_blocks := List.getLast_mem hv
    have hfresh : over_erase_limit g s.erase_count (s.op_blocks.getLast hv) = false := by
      unfold over_erase_limit
      rw [decide_eq_false_iff_not]
      exact Nat.not_le.mpr (hI.pool_fresh _ hlmem)
    have hloop := numb_loop_top g s.erase_count s.op_blocks hv hfresh
    have hred : next_unmapped_log_block g s
        = ⟨some (s.op_blocks.getLast hv),
           { s with op_blocks := s.op_blocks.dropLast }, []⟩ := by
      unfold next_unmapped_log_block
      dsimp only
      rw [if_neg (show ¬ s.op_blocks.isEmpty = true from
          fun h => Bool.noConfusion (hpe.symm.trans h))]
      rw [hloop]
    rw [hred]
    refine ⟨Inv_pool_drop hI, fun b => le_refl _, ?_, ?_, fun d => Or.inl rfl, rfl, ?_, ?_⟩
    · intro lba base hmem
      exact absurd hmem (List.not_mem_nil _)
    · intro d hd hm hcap
      exact ⟨rfl, fun i _ _ => rfl, rfl, rfl⟩
    · intro j hj hne
      exact absurd rfl hne
    · intro b hb
      have hbl : b = s.op_blocks.getLast hv := (Option.some.inj hb).symm
      subst hbl
      refine ⟨hI.pool_aligned _ hlmem, hI.pool_lt _ hlmem, hI.pool_fresh _ hlmem,
        fun i hi => hI.pool_not_data _ hlmem i hi,
        fun d hd hm => hI.pool_not_log _ hlmem d hd hm, ?_⟩
      have hnd := hI.pool_nodup
      rw [← List.dropLast_append_getLast hv] at hnd
      have hdisj := (List.nodup_append.mp hnd).2.2
      intro hmem
      exact hdisj hmem (List.mem_singleton_self _)
  | true =>
    have hsp := shuffle_spec g hw hI
    cases hsv : (shuffle_data_log g s).val with
    | false =>
      have hred : next_unmapped_log_block g s
          = ⟨none, (shuffle_data_log g s).st, (shuffle_data_log g s).trace⟩ := by
        unfold next_unmapped_log_block
        dsimp only
        rw [if_pos hpe]
        rw [if_pos hsv]
      rw [hred]
      refine ⟨hsp.1, hsp.2.1, hsp.2.2.1, hsp.2.2.2.1, hsp.2.2.2.2.1, hsp.2.2.2.2.2.1,
        ?_, ?_⟩
      · intro j hj hne
        exfalso
        apply hne
        unfold dIdxN
        rw [hsp.2.2.2.2.2.2.2.2 hsv j]
      · intro b hb
        exact absurd hb (by simp)
    | true =>
      have hpool0 : s.op_blocks = [] := List.isEmpty_iff.mp hpe
      obtain ⟨mi, hpool, hchg⟩ := hsp.2.2.2.2.2.2.2.1 hsv
      have hpool' : (shuffle_data_log g s).st.op_blocks = [mi] := by
        rw [hpool, hpool0]
        rfl
      have hv' : (shuffle_data_log g s).st.op_blocks ≠ [] := by
        rw [hpool']
        exact List.cons_ne_nil _ _
      have hmem' : mi ∈ (shuffle_data_log g s).st.op_blocks := by
        rw [hpool']
        exact List.mem_singleton_self _
      have hfresh : over_erase_limit g (shuffle_data_log g s).st.erase_count
          ((shuffle_data_log g s).st.op_blocks.getLast hv') = false := by
        unfold over_erase_limit
        rw [decide_eq_false_iff_not]
        exact Nat.not_le.mpr ((hsp.1).pool_fresh _ (List.getLast_mem hv'))
      have hloop := numb_loop_top g (shuffle_data_log g s).st.erase_count
        (shuffle_data_log g s).st.op_blocks hv' hfresh
      have hgl : (shuffle_data_log g s).st.op_blocks.getLast hv' = mi := by
        have h1 : ∀ (l : List Nat) (h : l ≠ []), l = [mi] → l.getLast h = mi := by
          intro l h hl
          subst hl
          rfl
        exact h1 _ hv' hpool'
      have hred : next_unmapped_log_block g s
          = ⟨some mi,
             { (shuffle_data_log g s).st with
               op_blocks := (shuffle_data_log g s).st.op_blocks.dropLast },
             (shuffle_data_log g s).trace⟩ := by
        unfold next_unmapped_log_block
        dsimp only
        rw [if_pos hpe]
        rw [if_neg (show ¬ (shuffle_data_log g s).val = false from
            fun h => Bool.noConfusion (hsv.symm.trans h))]
        rw [hloop, hgl]
      have hdrop : (shuffle_data_log g s).st.op_blocks.dropLast = [] := by
        rw [hpool']
        rfl
      rw [hred]
      refine ⟨Inv_pool_drop hsp.1, hsp.2.1, hsp.2.2.1, ?_, hsp.2.2.2.2.1,
        hsp.2.2.2.2.2.1, ?_, ?_⟩
      · intro d hd hm hcap
        exact hsp.2.2.2.1 d hd hm hcap
      · intro j hj hne
        have := hchg j hj hne
        rw [this]
      · intro b hb
        have hbm : b = mi := (Option.some.inj hb).symm
        subst hbm
        refine ⟨(hsp.1).pool_aligned _ hmem', (hsp.1).pool_lt _ hmem',
          (hsp.1).pool_fresh _ hmem',
          fun i hi => (hsp.1).pool_not_data _ hmem' i hi,
          fun d hd hm => (hsp.1).pool_not_log _ hmem' d hd hm, ?_⟩
        rw [hdrop]
        exact List.not_mem_nil _

/-- `remap_data_core` when the new data block comes from the free pool
(no scavenged logical block): the written logical block moves onto the
fresh block, which inherits the old block's log mapping. -/
theorem remap_data_pathB (g : Geo) (hw : GeoWF g) {t : FtlState} (hIt : Inv g t)
    {lb old log b : Nat} {i0 od bI : Nat} (tr0 : List PhysEvent)
    (hi0 : i0 < NUM_OF_LGC_B g) (hlb : lb = i0 * g.BLOCK_SIZE)
    (hown : dIdxN t i0 = od) (hod : old = od * g.BLOCK_SIZE)
    (hodP : od < NUM_OF_PHY_B g) (hmap : t.data_to_log od ≠ 0)
    (hlog : log = lIdxN t od * g.BLOCK_SIZE)
    (hb : b = bI * g.BLOCK_SIZE) (hbP : bI < NUM_OF_PHY_B g)
    (hbe : t.erase_count bI < g.BLOCK_ERASES)
    (hbnd : ∀ i, i < NUM_OF_LGC_B g → dIdxN t i ≠ bI)
    (hbnl : ∀ d, d < NUM_OF_PHY_B g → t.data_to_log d ≠ 0 → lIdxN t d ≠ bI)
    (hbpool : b ∉ t.op_blocks) :
    Inv g (remap_data_core g t lb old log b none tr0).st
    ∧ (remap_data_core g t lb old log b none tr0).st.erase_count = t.erase_count
    ∧ (∀ lba base, PhysEvent.er lba base ∈ (remap_data_core g t lb old log b none tr0).trace →
        PhysEvent.er lba base ∈ tr0)
    ∧ (remap_data_core g t lb old log b none tr0).val = b
    ∧ (remap_data_core g t lb old log b none tr0).st.data_to_log bI ≠ 0
    ∧ lIdxN (remap_data_core g t lb old log b none tr0).st bI = lIdxN t od
    ∧ dIdxN (remap_data_core g t lb old log b none tr0).st i0 = bI
    ∧ b ≠ log := by
  have hbsp := hw.bs_pos
  have hodd : old / g.BLOCK_SIZE = od := by rw [hod, Nat.mul_div_cancel _ hbsp]
  have hbd : b / g.BLOCK_SIZE = bI := by rw [hb, Nat.mul_div_cancel _ hbsp]
  have hlbd : lb / g.BLOCK_SIZE = i0 := by rw [hlb, Nat.mul_div_cancel _ hbsp]
  have hlogd : log / g.BLOCK_SIZE = lIdxN t od := by rw [hlog, Nat.mul_div_cancel _ hbsp]
  have hbne_od : bI ≠ od := by
    intro hc
    exact hbnd i0 hi0 (by rw [hown, hc])
  have hlne_b : lIdxN t od ≠ bI := hbnl od hodP hmap
  have hdtl2 : ∀ d, (remap_data_core g t lb old log b none tr0).st.data_to_log d
      = if d = bI then ((lIdxN t od : Nat) : Int) - ((bI : Nat) : Int)
        else if d = od then 0 else t.data_to_log d := by
    intro d
    show set_log_block g (set_log_block g t.data_to_log old old) b log d = _
    unfold set_log_block
    rw [hodd, hbd, hlogd]
    by_cases h1 : d = bI
    · rw [if_pos h1, if_pos h1]
    · rw [if_neg h1, if_neg h1]
      by_cases h2 : d = od
      · rw [if_pos h2, if_pos h2]
        omega
      · rw [if_neg h2, if_neg h2]
  have hltp2 : ∀ i, (remap_data_core g t lb old log b none tr0).st.logical_to_physical i
      = if i = i0 then ((bI : Nat) : Int) - ((i0 : Nat) : Int)
        else t.logical_to_physical i := by
    intro i
    show set_physical_address g t.logical_to_physical lb b i = _
    unfold set_physical_address
    rw [hlbd, hbd]
  have hd2 : ∀ i, dIdxN (remap_data_core g t lb old log b none tr0).st i
      = if i = i0 then bI else dIdxN t i := by
    intro i
    unfold dIdxN
    rw [hltp2 i]
    by_cases hi : i = i0
    · rw [if_pos hi, if_pos hi]
      omega
    · rw [if_neg hi, if_neg hi]
  have hl2 : ∀ d, d ≠ bI → d ≠ od →
      lIdxN (remap_data_core g t lb old log b none tr0).st d = lIdxN t d := by
    intro d h1 h2
    unfold lIdxN
    rw [hdtl2 d, if_neg h1, if_neg h2]
  have hl2b : lIdxN (remap_data_core g t lb old log b none tr0).st bI = lIdxN t od := by
    show ((bI : Int)
        + (remap_data_core g t lb old log b none tr0).st.data_to_log bI).toNat = lIdxN t od
    rw [hdtl2 bI, if_pos rfl]
    omega
  have hmm2 : ∀ d, (remap_data_core g t lb old log b none tr0).st.data_to_log d ≠ 0 →
      d = bI ∨ (d ≠ bI ∧ d ≠ od ∧ t.data_to_log d ≠ 0) := by
    intro d hm
    rw [hdtl2 d] at hm
    by_cases h1 : d = bI
    · exact Or.inl h1
    · rw [if_neg h1] at hm
      by_cases h2 : d = od
      · rw [if_pos h2] at hm
        exact absurd rfl hm
      · rw [if_neg h2] at hm
        exact Or.inr ⟨h1, h2, hm⟩
  obtain ⟨iW, hiW, hdiW, j0, hj0, hwr0⟩ := hIt.mapped_data od hodP hmap
  have hiW0 : iW = i0 := hIt.ltp_inj iW hiW i0 hi0 (by rw [hdiW, hown])
  rw [hiW0] at hwr0
  have hfr_ec : (remap_data_core g t lb old log b none tr0).st.erase_count
      = t.erase_count := rfl
  have hfr_bm : (remap_data_core g t lb old log b none tr0).st.logical_to_emptiness
      = t.logical_to_emptiness := rfl
  have hfr_log : (remap_data_core g t lb old log b none tr0).st.log_to_pages
      = t.log_to_pages := rfl
  have hfr_pool : (remap_data_core g t lb old log b none tr0).st.op_blocks
      = t.op_blocks := rfl
  refine ⟨?_, hfr_ec, ?_, rfl, ?_, hl2b, by rw [hd2 i0, if_pos rfl], ?_⟩
  · refine ⟨hIt.ec_le, ?_, ?_, ?_, ?_, ?_, ?_, ?_, ?_, ?_, ?_, ?_, ?_, ?_, ?_, ?_⟩
    · intro i hi
      rw [hltp2 i]
      by_cases hii : i = i0
      · rw [if_pos hii]
        omega
      · rw [if_neg hii]
        exact hIt.ltp_nonneg i hi
    · intro i hi
      rw [hd2 i]
      by_cases hii : i = i0
      · rw [if_pos hii]
        exact hbP
      · rw [if_neg hii]
        exact hIt.ltp_lt i hi
    · intro i hi j hj hij
      rw [hd2 i, hd2 j] at hij
      by_cases hii : i = i0
      · by_cases hjj : j = i0
        · rw [hii, hjj]
        · rw [if_pos hii, if_neg hjj] at hij
          exact absurd hij.symm (hbnd j hj)
      · by_cases hjj : j = i0
        · rw [if_neg hii, if_pos hjj] at hij
          exact absurd hij (hbnd i hi)
        · rw [if_neg hii, if_neg hjj] at hij
          exact hIt.ltp_inj i hi j hj hij
    · intro d hdp hm
      rcases hmm2 d hm with h1 | ⟨h1, h2, h3⟩
      · rw [h1, hdtl2 bI, if_pos rfl]
        omega
      · rw [hdtl2 d, if_neg h1, if_neg h2]
        exact hIt.dtl_nonneg d hdp h3
    · intro d hdp hm
      rcases hmm2 d hm with h1 | ⟨h1, h2, h3⟩
      · rw [h1, hl2b]
        exact hIt.dtl_lt od hodP hmap
      · rw [hl2 d h1 h2]
        exact hIt.dtl_lt d hdp h3
    · intro d hdp hm
      rw [hfr_log]
      rcases hmm2 d hm with h1 | ⟨h1, h2, h3⟩
      · rw [h1, hl2b]
        exact hIt.manifest od hodP hmap
      · rw [hl2 d h1 h2]
        exact hIt.manifest d hdp h3
    · intro d hdp d' hdp' hm hm' hll
      rcases hmm2 d hm with h1 | ⟨h1, h2, h3⟩ <;>
        rcases hmm2 d' hm' with h1' | ⟨h1', h2', h3'⟩
      · rw [h1, h1']
      · rw [h1, hl2b, hl2 d' h1' h2'] at hll
        exact absurd (hIt.log_inj od hodP d' hdp' hmap h3' hll) (Ne.symm h2')
      · rw [h1', hl2 d h1 h2, hl2b] at hll
        exact absurd (hIt.log_inj d hdp od hodP h3 hmap hll) h2
      · rw [hl2 d h1 h2, hl2 d' h1' h2'] at hll
        exact hIt.log_inj d hdp d' hdp' h3 h3' hll
    · intro d hdp hm i hi
      rw [hd2 i]
      rcases hmm2 d hm with h1 | ⟨h1, h2, h3⟩
      · rw [h1, hl2b]
        by_cases hii : i = i0
        · rw [if_pos hii]
          exact Ne.symm hlne_b
        · rw [if_neg hii]
          exact hIt.log_not_data od hodP hmap i hi
      · rw [hl2 d h1 h2]
        by_cases hii : i = i0
        · rw [if_pos hii]
          exact Ne.symm (hbnl d hdp h3)
        · rw [if_neg hii]
          exact hIt.log_not_data d hdp h3 i hi
    · intro d hdp hm
      rcases hmm2 d hm with h1 | ⟨h1, h2, h3⟩
      · refine ⟨i0, hi0, by rw [hd2 i0, if_pos rfl, h1], j0, hj0, ?_⟩
        rw [hfr_bm]
        exact hwr0
      · obtain ⟨iW', hiW', hdiW', j', hj', hwr'⟩ := hIt.mapped_data d hdp h3
        have hiWn : iW' ≠ i0 := by
          intro hc
          rw [hc, hown] at hdiW'
          exact h2 hdiW'.symm
        refine ⟨iW', hiW', ?_, j', hj', ?_⟩
        · rw [hd2 iW', if_neg hiWn]
          exact hdiW'
        · rw [hfr_bm]
          exact hwr'
    · intro x hx
      rw [hfr_pool] at hx
      exact hIt.pool_aligned x hx
    · intro x hx
      rw [hfr_pool] at hx
      exact hIt.pool_lt x hx
    · intro x hx
      rw [hfr_pool] at hx
      rw [hfr_ec]
      exact hIt.pool_fresh x hx
    · intro x hx i hi
      rw [hfr_pool] at hx
      rw [hd2 i]
      by_cases hii : i = i0
      · rw [if_pos hii]
        intro hc
        apply hbpool
        have hxa : x = (x / g.BLOCK_SIZE) * g.BLOCK_SIZE := by
          obtain ⟨q, hq⟩ := hIt.pool_aligned x hx
          rw [hq, Nat.mul_div_cancel_left _ hbsp, Nat.mul_comm]
        rw [hb, hc, ← hxa]
        exact hx
      · rw [if_neg hii]
        exact hIt.pool_not_data x hx i hi
    · intro x hx d hdp hm
      rw [hfr_pool] at hx
      rcases hmm2 d hm with h1 | ⟨h1, h2, h3⟩
      · rw [h1, hl2b]
        exact hIt.pool_not_log x hx od hodP hmap
      · rw [hl2 d h1 h2]
        exact hIt.pool_not_log x hx d hdp h3
    · rw [hfr_pool]
      exact hIt.pool_nodup
  · intro lba base hmem
    rw [show (remap_data_core g t lb old log b none tr0).trace
        = tr0 ++ (List.range g.BLOCK_SIZE).flatMap (fun i =>
            if check_page_empty t.logical_to_emptiness (lb + i) then []
            else
              match fetch_log_page (manifest_of t log) i with
              | some _ => []
              | none =>
                [PhysEvent.rd (lb + i) old i,
                 PhysEvent.wr (lb + i) b i]) from rfl] at hmem
    rcases List.mem_append.mp hmem with h | h
    · exact h
    · exfalso
      rw [List.mem_flatMap] at h
      obtain ⟨i, _, h2⟩ := h
      cases hcp2 : check_page_empty t.logical_to_emptiness (lb + i) with
      | true => rw [hcp2] at h2; simp at h2
      | false =>
        rw [hcp2] at h2
        cases hfp : fetch_log_page (manifest_of t log) i with
        | none => rw [hfp] at h2; simp at h2
        | some k => rw [hfp] at h2; simp at h2
  · rw [hdtl2 bI, if_pos rfl]
    intro hc
    apply hlne_b
    omega
  · intro hc
    apply hlne_b
    rw [← hbd, hc, hlogd]

/-- `remap_data_core` when the new data block is a scavenged fully
empty data block: its owner and the written owner swap physical
blocks, and the new block inherits the old block's log mapping. -/
theorem remap_data_pathA (g : Geo) (hw : GeoWF g) {s : FtlState} (hI : Inv g s)
    {lb old log nd nlb : Nat} {i0 od i3 : Nat}
    (hi0 : i0 < NUM_OF_LGC_B g) (hlb : lb = i0 * g.BLOCK_SIZE)
    (hown : dIdxN s i0 = od) (hod : old = od * g.BLOCK_SIZE)
    (hodP : od < NUM_OF_PHY_B g) (hmap : s.data_to_log od ≠ 0)
    (hlog : log = lIdxN s od * g.BLOCK_SIZE)
    (hi3 : i3 < NUM_OF_LGC_B g) (hnd : nd = dIdxN s i3 * g.BLOCK_SIZE)
    (hnlb : nlb = i3 * g.BLOCK_SIZE)
    (hempty3 : block_all_empty g s.logical_to_emptiness i3 = true)
    (hndc : s.erase_count (dIdxN s i3) < g.BLOCK_ERASES) :
    Inv g (remap_data_core g s lb old log nd (some nlb) []).st
    ∧ (remap_data_core g s lb old log nd (some nlb) []).st.erase_count = s.erase_count
    ∧ (∀ lba base,
        PhysEvent.er lba base ∈ (remap_data_core g s lb old log nd (some nlb) []).trace →
        False)
    ∧ (remap_data_core g s lb old log nd (some nlb) []).val = nd
    ∧ (remap_data_core g s lb old log nd (some nlb) []).st.data_to_log (dIdxN s i3) ≠ 0
    ∧ lIdxN (remap_data_core g s lb old log nd (some nlb) []).st (dIdxN s i3) = lIdxN s od
    ∧ dIdxN (remap_data_core g s lb old log nd (some nlb) []).st i0 = dIdxN s i3
    ∧ nd ≠ log := by
  have hbsp := hw.bs_pos
  have hndP : dIdxN s i3 < NUM_OF_PHY_B g := hI.ltp_lt i3 hi3
  have hodd : old / g.BLOCK_SIZE = od := by rw [hod, Nat.mul_div_cancel _ hbsp]
  have hndd : nd / g.BLOCK_SIZE = dIdxN s i3 := by rw [hnd, Nat.mul_div_cancel _ hbsp]
  have hlbd : lb / g.BLOCK_SIZE = i0 := by rw [hlb, Nat.mul_div_cancel _ hbsp]
  have hnlbd : nlb / g.BLOCK_SIZE = i3 := by rw [hnlb, Nat.mul_div_cancel _ hbsp]
  have hlogd : log / g.BLOCK_SIZE = lIdxN s od := by rw [hlog, Nat.mul_div_cancel _ hbsp]
  have hndun : s.data_to_log (dIdxN s i3) = 0 := by
    by_contra hne
    obtain ⟨iW, hiW, hdiW, j, hj, hwr⟩ := hI.mapped_data (dIdxN s i3) hndP hne
    have hii : iW = i3 := hI.ltp_inj iW hiW i3 hi3 hdiW
    rw [hii] at hwr
    exact block_all_empty_written hempty3 hj hwr
  have hnd_ne_od : dIdxN s i3 ≠ od := by
    intro hc
    rw [hc] at hndun
    exact hmap hndun
  obtain ⟨iW, hiW, hdiW, j0, hj0, hwr0⟩ := hI.mapped_data od hodP hmap
  have hiW0 : iW = i0 := hI.ltp_inj iW hiW i0 hi0 (by rw [hdiW, hown])
  rw [hiW0] at hwr0
  have hi30 : i3 ≠ i0 := by
    intro hc
    rw [hc] at hempty3
    exact block_all_empty_written hempty3 hj0 hwr0
  have hlne_nd : lIdxN s od ≠ dIdxN s i3 :=
    Ne.symm (hI.log_not_data od hodP hmap i3 hi3)
  have hdtl2 : ∀ d, (remap_data_core g s lb old log nd (some nlb) []).st.data_to_log d
      = if d = dIdxN s i3 then ((lIdxN s od : Nat) : Int) - ((dIdxN s i3 : Nat) : Int)
        else if d = od then 0 else s.data_to_log d := by
    intro d
    show set_log_block g (set_log_block g s.data_to_log old old) nd log d = _
    unfold set_log_block
    rw [hodd, hndd, hlogd]
    by_cases h1 : d = dIdxN s i3
    · rw [if_pos h1, if_pos h1]
    · rw [if_neg h1, if_neg h1]
      by_cases h2 : d = od
      · rw [if_pos h2, if_pos h2]
        omega
      · rw [if_neg h2, if_neg h2]
  have hltp2 : ∀ i, (remap_data_core g s lb old log nd (some nlb) []).st.logical_to_physical i
      = if i = i0 then ((dIdxN s i3 : Nat) : Int) - ((i0 : Nat) : Int)
        else if i = i3 then ((od : Nat) : Int) - ((i3 : Nat) : Int)
        else s.logical_to_physical i := by
    intro i
    show set_physical_address g
      (set_physical_address g s.logical_to_physical nlb old) lb nd i = _
    unfold set_physical_address
    rw [hlbd, hndd, hnlbd, hodd]
  have hd2 : ∀ i, dIdxN (remap_data_core g s lb old log nd (some nlb) []).st i
      = if i = i0 then dIdxN s i3 else if i = i3 then od else dIdxN s i := by
    intro i
    show ((i : Int)
        + (remap_data_core g s lb old log nd (some nlb) []).st.logical_to_physical i).toNat
      = _
    rw [hltp2 i]
    by_cases h1 : i = i0
    · rw [if_pos h1, if_pos h1]
      omega
    · rw [if_neg h1, if_neg h1]
      by_cases h2 : i = i3
      · rw [if_pos h2, if_pos h2]
        omega
      · rw [if_neg h2, if_neg h2]
        rfl
  have hl2 : ∀ d, d ≠ dIdxN s i3 → d ≠ od →
      lIdxN (remap_data_core g s lb old log nd (some nlb) []).st d = lIdxN s d := by
    intro d h1 h2
    unfold lIdxN
    rw [hdtl2 d, if_neg h1, if_neg h2]
  have hl2b : lIdxN (remap_data_core g s lb old log nd (some nlb) []).st (dIdxN s i3)
      = lIdxN s od := by
    show ((dIdxN s i3 : Int)
        + (remap_data_core g s lb old log nd (some nlb) []).st.data_to_log
            (dIdxN s i3)).toNat = lIdxN s od
    rw [hdtl2 (dIdxN s i3), if_pos rfl]
    omega
  have hmm2 : ∀ d, (remap_data_core g s lb old log nd (some nlb) []).st.data_to_log d ≠ 0 →
      d = dIdxN s i3 ∨ (d ≠ dIdxN s i3 ∧ d ≠ od ∧ s.data_to_log d ≠ 0) := by
    intro d hm
    rw [hdtl2 d] at hm
    by_cases h1 : d = dIdxN s i3
    · exact Or.inl h1
    · rw [if_neg h1] at hm
      by_cases h2 : d = od
      · rw [if_pos h2] at hm
        exact absurd rfl hm
      · rw [if_neg h2] at hm
        exact Or.inr ⟨h1, h2, hm⟩
  have hfr_ec : (remap_data_core g s lb old log nd (some nlb) []).st.erase_count
      = s.erase_count := rfl
  have hfr_bm : (remap_data_core g s lb old log nd (some nlb) []).st.logical_to_emptiness
      = s.logical_to_emptiness := rfl
  have hfr_log : (remap_data_core g s lb old log nd (some nlb) []).st.log_to_pages
      = s.log_to_pages := rfl
  have hfr_pool : (remap_data_core g s lb old log nd (some nlb) []).st.op_blocks
      = s.op_blocks := rfl
  refine ⟨?_, hfr_ec, ?_, rfl, ?_, hl2b, by rw [hd2 i0, if_pos rfl], ?_⟩
  · refine ⟨hI.ec_le, ?_, ?_, ?_, ?_, ?_, ?_, ?_, ?_, ?_, ?_, ?_, ?_, ?_, ?_, ?_⟩
    · intro i hi
      rw [hltp2 i]
      by_cases h1 : i = i0
      · rw [if_pos h1]
        omega
      · rw [if_neg h1]
        by_cases h2 : i = i3
        · rw [if_pos h2]
          omega
        · rw [if_neg h2]
          exact hI.ltp_nonneg i hi
    · intro i hi
      rw [hd2 i]
      by_cases h1 : i = i0
      · rw [if_pos h1]
        exact hndP
      · rw [if_neg h1]
        by_cases h2 : i = i3
        · rw [if_pos h2]
          exact hodP
        · rw [if_neg h2]
          exact hI.ltp_lt i hi
    · intro i hi j hj hij
      rw [hd2 i, hd2 j] at hij
      by_cases h1 : i = i0
      · by_cases h1' : j = i0
        · rw [h1, h1']
        · rw [if_pos h1, if_neg h1'] at hij
          by_cases h2' : j = i3
          · rw [if_pos h2'] at hij
            exact absurd hij hnd_ne_od
          · rw [if_neg h2'] at hij
            exact absurd (hI.ltp_inj i3 hi3 j hj hij) (fun hc => h2' hc.symm)
      · rw [if_neg h1] at hij
        by_cases h2 : i = i3
        · rw [if_pos h2] at hij
          by_cases h1' : j = i0
          · rw [if_pos h1'] at hij
            exact absurd hij.symm hnd_ne_od
          · rw [if_neg h1'] at hij
            by_cases h2' : j = i3
            · rw [h2, h2']
            · rw [if_neg h2'] at hij
              have := hI.ltp_inj i0 hi0 j hj (by rw [hown]; exact hij)
              exact absurd this.symm h1'
        · rw [if_neg h2] at hij
          by_cases h1' : j = i0
          · rw [if_pos h1'] at hij
            exact absurd (hI.ltp_inj i hi i3 hi3 hij) h2
          · rw [if_neg h1'] at hij
            by_cases h2' : j = i3
            · rw [if_pos h2'] at hij
              have := hI.ltp_inj i hi i0 hi0 (by rw [hown]; exact hij)
              exact absurd this h1
            · rw [if_neg h2'] at hij
              exact hI.ltp_inj i hi j hj hij
    · intro d hdp hm
      rcases hmm2 d hm with h1 | ⟨h1, h2, h3⟩
      · rw [h1, hdtl2 (dIdxN s i3), if_pos rfl]
        omega
      · rw [hdtl2 d, if_neg h1, if_neg h2]
        exact hI.dtl_nonneg d hdp h3
    · intro d hdp hm
      rcases hmm2 d hm with h1 | ⟨h1, h2, h3⟩
      · rw [h1, hl2b]
        exact hI.dtl_lt od hodP hmap
      · rw [hl2 d h1 h2]
        exact hI.dtl_lt d hdp h3
    · intro d hdp hm
      rw [hfr_log]
      rcases hmm2 d hm with h1 | ⟨h1, h2, h3⟩
      · rw [h1, hl2b]
        exact hI.manifest od hodP hmap
      · rw [hl2 d h1 h2]
        exact hI.manifest d hdp h3
    · intro d hdp d' hdp' hm hm' hll
      rcases hmm2 d hm with h1 | ⟨h1, h2, h3⟩ <;>
        rcases hmm2 d' hm' with h1' | ⟨h1', h2', h3'⟩
      · rw [h1, h1']
      · rw [h1, hl2b, hl2 d' h1' h2'] at hll
        exact absurd (hI.log_inj od hodP d' hdp' hmap h3' hll) (Ne.symm h2')
      · rw [h1', hl2 d h1 h2, hl2b] at hll
        exact absurd (hI.log_inj d hdp od hodP h3 hmap hll) h2
      · rw [hl2 d h1 h2, hl2 d' h1' h2'] at hll
        exact hI.log_inj d hdp d' hdp' h3 h3' hll
    · intro d hdp hm i hi
      rw [hd2 i]
      rcases hmm2 d hm with h1 | ⟨h1, h2, h3⟩
      · rw [h1, hl2b]
        by_cases hii : i = i0
        · rw [if_pos hii]
          exact fun hc => hlne_nd hc.symm
        · rw [if_neg hii]
          by_cases hii3 : i = i3
          · rw [if_pos hii3]
            exact fun hc => (lIdxN_ne_self hI hodP hmap) hc.symm
          · rw [if_neg hii3]
            exact hI.log_not_data od hodP hmap i hi
      · rw [hl2 d h1 h2]
        by_cases hii : i = i0
        · rw [if_pos hii]
          exact hI.log_not_data d hdp h3 i3 hi3
        · rw [if_neg hii]
          by_cases hii3 : i = i3
          · rw [if_pos hii3]
            rw [← hown]
            exact hI.log_not_data d hdp h3 i0 hi0
          · rw [if_neg hii3]
            exact hI.log_not_data d hdp h3 i hi
    · intro d hdp hm
      rcases hmm2 d hm with h1 | ⟨h1, h2, h3⟩
      · refine ⟨i0, hi0, by rw [hd2 i0, if_pos rfl, h1], j0, hj0, ?_⟩
        rw [hfr_bm]
        exact hwr0
      · obtain ⟨iW', hiW', hdiW', j', hj', hwr'⟩ := hI.mapped_data d hdp h3
        have hiWn : iW' ≠ i0 := by
          intro hc
          rw [hc, hown] at hdiW'
          exact h2 hdiW'.symm
        have hiWn3 : iW' ≠ i3 := by
          intro hc
          rw [hc] at hdiW'
          exact h1 hdiW'.symm
        refine ⟨iW', hiW', ?_, j', hj', ?_⟩
        · rw [hd2 iW', if_neg hiWn, if_neg hiWn3]
          exact hdiW'
        · rw [hfr_bm]
          exact hwr'
    · intro x hx
      rw [hfr_pool] at hx
      exact hI.pool_aligned x hx
    · intro x hx
      rw [hfr_pool] at hx
      exact hI.pool_lt x hx
    · intro x hx
      rw [hfr_pool] at hx
      rw [hfr_ec]
      exact hI.pool_fresh x hx
    · intro x hx i hi
      rw [hfr_pool] at hx
      rw [hd2 i]
      by_cases h1 : i = i0
      · rw [if_pos h1]
        exact hI.pool_not_data x hx i3 hi3
      · rw [if_neg h1]
        by_cases h2 : i = i3
        · rw [if_pos h2]
          rw [← hown]
          exact hI.pool_not_data x hx i0 hi0
        · rw [if_neg h2]
          exact hI.pool_not_data x hx i hi
    · intro x hx d hdp hm
      rw [hfr_pool] at hx
      rcases hmm2 d hm with h1 | ⟨h1, h2, h3⟩
      · rw [h1, hl2b]
        exact hI.pool_not_log x hx od hodP hmap
      · rw [hl2 d h1 h2]
        exact hI.pool_not_log x hx d hdp h3
    · rw [hfr_pool]
      exact hI.pool_nodup
  · intro lba base hmem
    rw [show (remap_data_core g s lb old log nd (some nlb) []).trace
        = [] ++ (List.range g.BLOCK_SIZE).flatMap (fun i =>
            if check_page_empty s.logical_to_emptiness (lb + i) then []
            else
              match fetch_log_page (manifest_of s log) i with
              | some _ => []
              | none =>
                [PhysEvent.rd (lb + i) old i,
                 PhysEvent.wr (lb + i) nd i]) from rfl] at hmem
    rcases List.mem_append.mp hmem with h | h
    · exact absurd h (List.not_mem_nil _)
    · rw [List.mem_flatMap] at h
      obtain ⟨i, _, h2⟩ := h
      cases hcp2 : check_page_empty s.logical_to_emptiness (lb + i) with
      | true => rw [hcp2] at h2; simp at h2
      | false =>
        rw [hcp2] at h2
        cases hfp : fetch_log_page (manifest_of s log) i with
        | none => rw [hfp] at h2; simp at h2
        | some k => rw [hfp] at h2; simp at h2
  · rw [hdtl2 (dIdxN s i3), if_pos rfl]
    intro hc
    apply hlne_nd
    omega
  · intro hc
    apply hlne_nd
    rw [← hlogd, ← hc, hndd]

/-- `remap_data_block` on a mapped, cap-blocked data block: the
invariant is preserved, counters only grow, erases stay under the cap,
and unless the `log_pba` failure sentinel comes back the written
logical block now sits on a fresh data block (aligned, in range,
under the cap) carrying the same log mapping, with the log side's
counter untouched. -/
theorem remap_data_spec (g : Geo) (hw : GeoWF g) {s : FtlState} (hI : Inv g s)
    {lb old log i0 od : Nat}
    (hi0 : i0 < NUM_OF_LGC_B g) (hlb : lb = i0 * g.BLOCK_SIZE)
    (hown : dIdxN s i0 = od) (hod : old = od * g.BLOCK_SIZE)
    (hodP : od < NUM_OF_PHY_B g) (hmap : s.data_to_log od ≠ 0)
    (hlog : log = lIdxN s od * g.BLOCK_SIZE)
    (hcap : g.BLOCK_ERASES ≤ s.erase_count od) :
    Inv g (remap_data_block g s lb old log).st
    ∧ (∀ b, s.erase_count b ≤ (remap_data_block g s lb old log).st.erase_count b)
    ∧ erases_under_cap g s.erase_count (remap_data_block g s lb old log).trace
    ∧ ((remap_data_block g s lb old log).val = log
       ∨ ((remap_data_block g s lb old log).val
            = (remap_data_block g s lb old log).val / g.BLOCK_SIZE * g.BLOCK_SIZE
          ∧ (remap_data_block g s lb old log).val / g.BLOCK_SIZE < NUM_OF_PHY_B g
          ∧ (remap_data_block g s lb old log).st.data_to_log
              ((remap_data_block g s lb old log).val / g.BLOCK_SIZE) ≠ 0
          ∧ lIdxN (remap_data_block g s lb old log).st
              ((remap_data_block g s lb old log).val / g.BLOCK_SIZE) = log / g.BLOCK_SIZE
          ∧ dIdxN (remap_data_block g s lb old log).st i0
              = (remap_data_block g s lb old log).val / g.BLOCK_SIZE
          ∧ (remap_data_block g s lb old log).st.erase_count
              ((remap_data_block g s lb old log).val / g.BLOCK_SIZE) < g.BLOCK_ERASES
          ∧ (remap_data_block g s lb old log).st.erase_count (log / g.BLOCK_SIZE)
              = s.erase_count (log / g.BLOCK_SIZE)
          ∧ (remap_data_block g s lb old log).val ≠ log)) := by
  have hbsp := hw.bs_pos
  have hlogd : log / g.BLOCK_SIZE = lIdxN s od := by rw [hlog, Nat.mul_div_cancel _ hbsp]
  cases hf : find_empty_data_block_for_remapping g s with
  | some p =>
    have hred : remap_data_block g s lb old log
        = remap_data_core g s lb old log p.1 (some p.2) [] := by
      unfold remap_data_block
      rw [hf]
    obtain ⟨i3, hi3, hp1, hp2, hempty3, hec⟩ := find_empty_remapping_spec g s hf
    have hnd : p.1 = dIdxN s i3 * g.BLOCK_SIZE := by
      rw [hp1, cpa_block g _ i3 hbsp]
      rfl
    have hndd : p.1 / g.BLOCK_SIZE = dIdxN s i3 := by
      rw [hnd, Nat.mul_div_cancel _ hbsp]
    have hndc : s.erase_count (dIdxN s i3) < g.BLOCK_ERASES := by
      rw [← hndd]
      exact hec
    have hA := remap_data_pathA g hw hI hi0 hlb hown hod hodP hmap hlog
      hi3 hnd hp2 hempty3 hndc
    have hv : (remap_data_core g s lb old log p.1 (some p.2) []).val = p.1 := hA.2.2.2.1
    rw [hred]
    refine ⟨hA.1, ?_, ?_, Or.inr ⟨?_, ?_, ?_, ?_, ?_, ?_, ?_, ?_⟩⟩
    · intro b
      rw [hA.2.1]
    · intro lba base hmem
      exact absurd (hA.2.2.1 lba base hmem) id
    · rw [hv, hndd]
      exact hnd
    · rw [hv, hndd]
      exact hI.ltp_lt i3 hi3
    · rw [hv, hndd]
      exact hA.2.2.2.2.1
    · rw [hv, hndd, hlogd]
      exact hA.2.2.2.2.2.1
    · rw [hv, hndd]
      exact hA.2.2.2.2.2.2.1
    · rw [hv, hndd, hA.2.1]
      exact hndc
    · rw [hA.2.1]
    · rw [hv]
      exact hA.2.2.2.2.2.2.2
  | none =>
    cases hrv : (next_unmapped_log_block g s).val with
    | none =>
      have hred : remap_data_block g s lb old log
          = ⟨log, (next_unmapped_log_block g s).st, (next_unmapped_log_block g s).trace⟩ := by
        unfold remap_data_block
        rw [hf]
        dsimp only
        rw [hrv]
      rw [hred]
      have hns := numb_spec g hw hI
      exact ⟨hns.1, hns.2.1, hns.2.2.1, Or.inl rfl⟩
    | some b =>
      have hred : remap_data_block g s lb old log
          = remap_data_core g (next_unmapped_log_block g s).st lb old log b none
              (next_unmapped_log_block g s).trace := by
        unfold remap_data_block
        rw [hf]
        dsimp only
        rw [hrv]
      have hns := numb_spec g hw hI
      have hgc := hns.2.2.2.1 od hodP hmap (Or.inl hcap)
      have hmap_t : (next_unmapped_log_block g s).st.data_to_log od ≠ 0 := by
        rw [hgc.1]
        exact hmap
      have hlI_t : lIdxN (next_unmapped_log_block g s).st od = lIdxN s od := by
        unfold lIdxN
        rw [hgc.1]
      have hown_t : dIdxN (next_unmapped_log_block g s).st i0 = od := by
        show ((i0 : Int)
            + (next_unmapped_log_block g s).st.logical_to_physical i0).toNat = od
        rw [hgc.2.1 i0 hi0 hown]
        exact hown
      have hlog_t : log = lIdxN (next_unmapped_log_block g s).st od * g.BLOCK_SIZE := by
        rw [hlI_t]
        exact hlog
      obtain ⟨hdvd, hblt, hbec, hbnd, hbnl, hbnp⟩ := hns.2.2.2.2.2.2.2 b hrv
      have hb : b = b / g.BLOCK_SIZE * g.BLOCK_SIZE := (Nat.div_mul_cancel hdvd).symm
      have hbP : b / g.BLOCK_SIZE < NUM_OF_PHY_B g := block_idx_lt_phy g hblt
      have hB := remap_data_pathB g hw hns.1 (next_unmapped_log_block g s).trace
        hi0 hlb hown_t hod hodP hmap_t hlog_t hb hbP hbec hbnd hbnl hbnp
      have hv : (remap_data_core g (next_unmapped_log_block g s).st lb old log b none
          (next_unmapped_log_block g s).trace).val = b := hB.2.2.2.1
      have hecX := hB.2.1
      rw [hred]
      refine ⟨hB.1, ?_, ?_, Or.inr ⟨?_, ?_, ?_, ?_, ?_, ?_, ?_, ?_⟩⟩
      · intro x
        rw [hecX]
        exact hns.2.1 x
      · intro lba base hmem
        exact hns.2.2.1 lba base (hB.2.2.1 lba base hmem)
      · rw [hv]
        exact hb
      · rw [hv]
        exact hbP
      · rw [hv]
        exact hB.2.2.2.2.1
      · rw [hv, hlogd, hB.2.2.2.2.2.1, hlI_t]
      · rw [hv]
        exact hB.2.2.2.2.2.2.1
      · rw [hv, hecX]
        exact hbec
      · rw [hecX, hlogd]
        exact hgc.2.2.2
      · rw [hv]
        exact hB.2.2.2.2.2.2.2

/-- The compaction fold of `remap_log_block` issues no ERASE. -/
theorem remap_log_fold_no_er (g : Geo) (s1 : FtlState) (man : List Char)
    (lb ol nl : Nat) :
    ∀ lba base, PhysEvent.er lba base ∈
      ((List.range g.BLOCK_SIZE).foldl (remap_log_step g s1 man lb ol nl)
        (0, [], [])).2.2 → False := by
  have := foldl_preserve (fun _ : Nat => True)
    (fun acc : Nat × List Char × List PhysEvent =>
      ∀ lba base, PhysEvent.er lba base ∈ acc.2.2 → False)
    (remap_log_step g s1 man lb ol nl) (List.range g.BLOCK_SIZE) (0, [], [])
    (by intro lba base hmem; exact absurd hmem (List.not_mem_nil _))
    (by
      intro x _ acc hacc lba base hmem
      unfold remap_log_step at hmem
      by_cases hcp2 : check_page_empty s1.logical_to_emptiness (lb + x) = true
      · rw [if_pos hcp2] at hmem
        exact hacc lba base hmem
      · rw [if_neg hcp2] at hmem
        cases hfp : fetch_log_page man x with
        | none =>
          rw [hfp] at hmem
          exact hacc lba base hmem
        | some k =>
          rw [hfp] at hmem
          dsimp only at hmem
          rcases List.mem_append.mp hmem with h | h
          · exact hacc lba base h
          · simp at h)
    (fun x _ => trivial)
  exact this

/-- The state change of `remap_log_block` on its success path: the
data block's log mapping moves to the fresh block, which receives the
compacted manifest. -/
theorem remap_log_succ (g : Geo) (hw : GeoWF g) {t : FtlState} (hIt : Inv g t)
    {data_pba b : Nat} {dp bI : Nat} (W : List Char)
    (hdp : data_pba = dp * g.BLOCK_SIZE) (hdpP : dp < NUM_OF_PHY_B g)
    (hmap : t.data_to_log dp ≠ 0)
    (hb : b = bI * g.BLOCK_SIZE) (hbP : bI < NUM_OF_PHY_B g)
    (hbnd : ∀ i, i < NUM_OF_LGC_B g → dIdxN t i ≠ bI)
    (hbnl : ∀ d, d < NUM_OF_PHY_B g → t.data_to_log d ≠ 0 → lIdxN t d ≠ bI)
    (hbpool : b ∉ t.op_blocks)
    (st : FtlState)
    (hst : st = { cancel_log_block g t data_pba with
        data_to_log := set_log_block g (cancel_log_block g t data_pba).data_to_log
          data_pba b,
        log_to_pages := mapAssign (cancel_log_block g t data_pba).log_to_pages b W }) :
    Inv g st ∧ st.erase_count = t.erase_count ∧ st.data_to_log dp ≠ 0
    ∧ lIdxN st dp = bI
    ∧ (∀ i, st.logical_to_physical i = t.logical_to_physical i)
    ∧ b ≠ data_pba := by
  have hbsp := hw.bs_pos
  have hdpd : data_pba / g.BLOCK_SIZE = dp := by rw [hdp, Nat.mul_div_cancel _ hbsp]
  have hbd : b / g.BLOCK_SIZE = bI := by rw [hb, Nat.mul_div_cancel _ hbsp]
  have hkey_t : (mapFind t.log_to_pages (lIdxN t dp * g.BLOCK_SIZE)).isSome = true :=
    hIt.manifest dp hdpP hmap
  have hcs := cancel_spec g hw t hdp hmap hkey_t
  have hfrc := cancel_log_block_frame g t data_pba
  have hdp_ne_b : dp ≠ bI := by
    obtain ⟨iW, hiW, hdiW, _, _, _⟩ := hIt.mapped_data dp hdpP hmap
    intro hc
    exact hbnd iW hiW (by rw [hdiW, hc])
  have hdtl3 : ∀ d, st.data_to_log d
      = if d = dp then ((bI : Nat) : Int) - ((dp : Nat) : Int) else t.data_to_log d := by
    intro d
    rw [hst]
    show set_log_block g (cancel_log_block g t data_pba).data_to_log data_pba b d = _
    unfold set_log_block
    rw [hdpd, hbd]
    by_cases h1 : d = dp
    · rw [if_pos h1, if_pos h1]
    · rw [if_neg h1, if_neg h1]
      rw [hcs.1 d, if_neg h1]
  have hlog3 : st.log_to_pages
      = mapAssign (mapErase t.log_to_pages (lIdxN t dp * g.BLOCK_SIZE)) b W := by
    rw [hst]
    show mapAssign (cancel_log_block g t data_pba).log_to_pages b W = _
    rw [hcs.2]
  have hltp3 : ∀ i, st.logical_to_physical i = t.logical_to_physical i := by
    intro i
    rw [hst]
    show (cancel_log_block g t data_pba).logical_to_physical i = _
    rw [hfrc.2.2.1]
  have hec3 : st.erase_count = t.erase_count := by
    rw [hst]
    show (cancel_log_block g t data_pba).erase_count = _
    exact hfrc.2.1
  have hbm3 : st.logical_to_emptiness = t.logical_to_emptiness := by
    rw [hst]
    show (cancel_log_block g t data_pba).logical_to_emptiness = _
    exact hfrc.1
  have hpool3 : st.op_blocks = t.op_blocks := by
    rw [hst]
    show (cancel_log_block g t data_pba).op_blocks = _
    exact hfrc.2.2.2
  have hd3 : ∀ i, dIdxN st i = dIdxN t i := by
    intro i
    unfold dIdxN
    rw [hltp3 i]
  have hl3 : ∀ d, d ≠ dp → lIdxN st d = lIdxN t d := by
    intro d h1
    unfold lIdxN
    rw [hdtl3 d, if_neg h1]
  have hl3b : lIdxN st dp = bI := by
    show ((dp : Int) + st.data_to_log dp).toNat = bI
    rw [hdtl3 dp, if_pos rfl]
    omega
  have hmm3 : ∀ d, st.data_to_log d ≠ 0 → d = dp ∨ (d ≠ dp ∧ t.data_to_log d ≠ 0) := by
    intro d hm
    rw [hdtl3 d] at hm
    by_cases h1 : d = dp
    · exact Or.inl h1
    · rw [if_neg h1] at hm
      exact Or.inr ⟨h1, hm⟩
  refine ⟨?_, hec3, ?_, hl3b, hltp3, ?_⟩
  · refine ⟨?_, ?_, ?_, ?_, ?_, ?_, ?_, ?_, ?_, ?_, ?_, ?_, ?_, ?_, ?_, ?_⟩
    · intro x
      rw [hec3]
      exact hIt.ec_le x
    · intro i hi
      rw [hltp3 i]
      exact hIt.ltp_nonneg i hi
    · intro i hi
      rw [hd3 i]
      exact hIt.ltp_lt i hi
    · intro i hi j hj hij
      rw [hd3 i, hd3 j] at hij
      exact hIt.ltp_inj i hi j hj hij
    · intro d hdp2 hm
      rcases hmm3 d hm with h1 | ⟨h1, h3⟩
      · rw [h1, hdtl3 dp, if_pos rfl]
        omega
      · rw [hdtl3 d, if_neg h1]
        exact hIt.dtl_nonneg d hdp2 h3
    · intro d hdp2 hm
      rcases hmm3 d hm with h1 | ⟨h1, h3⟩
      · rw [h1, hl3b]
        exact hbP
      · rw [hl3 d h1]
        exact hIt.dtl_lt d hdp2 h3
    · intro d hdp2 hm
      rw [hlog3]
      rcases hmm3 d hm with h1 | ⟨h1, h3⟩
      · rw [h1, hl3b, ← hb, mapFind_mapAssign, if_pos rfl]
        rfl
      · rw [hl3 d h1, mapFind_mapAssign,
          if_neg (show ¬ lIdxN t d * g.BLOCK_SIZE = b from by
            rw [hb]
            intro hc
            exact hbnl d hdp2 h3 (Nat.eq_of_mul_eq_mul_right hbsp hc)),
          mapFind_mapErase,
          if_neg (show ¬ lIdxN t d * g.BLOCK_SIZE = lIdxN t dp * g.BLOCK_SIZE from by
            intro hc
            exact h1 (hIt.log_inj d hdp2 dp hdpP h3 hmap
              (Nat.eq_of_mul_eq_mul_right hbsp hc)))]
        exact hIt.manifest d hdp2 h3
    · intro d hdp2 d' hdp2' hm hm' hll
      rcases hmm3 d hm with h1 | ⟨h1, h3⟩ <;> rcases hmm3 d' hm' with h1' | ⟨h1', h3'⟩
      · rw [h1, h1']
      · rw [h1, hl3b, hl3 d' h1'] at hll
        exact absurd hll.symm (hbnl d' hdp2' h3')
      · rw [h1', hl3 d h1, hl3b] at hll
        exact absurd hll (hbnl d hdp2 h3)
      · rw [hl3 d h1, hl3 d' h1'] at hll
        exact hIt.log_inj d hdp2 d' hdp2' h3 h3' hll
    · intro d hdp2 hm i hi
      rw [hd3 i]
      rcases hmm3 d hm with h1 | ⟨h1, h3⟩
      · rw [h1, hl3b]
        exact hbnd i hi
      · rw [hl3 d h1]
        exact hIt.log_not_data d hdp2 h3 i hi
    · intro d hdp2 hm
      rcases hmm3 d hm with h1 | ⟨h1, h3⟩
      · obtain ⟨iW, hiW, hdiW, j', hj', hwr'⟩ := hIt.mapped_data dp hdpP hmap
        refine ⟨iW, hiW, ?_, j', hj', ?_⟩
        · rw [hd3 iW, hdiW, h1]
        · rw [hbm3]
          exact hwr'
      · obtain ⟨iW, hiW, hdiW, j', hj', hwr'⟩ := hIt.mapped_data d hdp2 h3
        refine ⟨iW, hiW, ?_, j', hj', ?_⟩
        · rw [hd3 iW]
          exact hdiW
        · rw [hbm3]
          exact hwr'
    · intro x hx
      rw [hpool3] at hx
      exact hIt.pool_aligned x hx
    · intro x hx
      rw [hpool3] at hx
      exact hIt.pool_lt x hx
    · intro x hx
      rw [hpool3] at hx
      rw [hec3]
      exact hIt.pool_fresh x hx
    · intro x hx i hi
      rw [hpool3] at hx
      rw [hd3 i]
      exact hIt.pool_not_data x hx i hi
    · intro x hx d hdp2 hm
      rw [hpool3] at hx
      rcases hmm3 d hm with h1 | ⟨h1, h3⟩
      · rw [h1, hl3b]
        intro hc
        apply hbpool
        have hxa : x = (x / g.BLOCK_SIZE) * g.BLOCK_SIZE := by
          obtain ⟨q, hq⟩ := hIt.pool_aligned x hx
          rw [hq, Nat.mul_div_cancel_left _ hbsp, Nat.mul_comm]
        rw [hb, hc, ← hxa]
        exact hx
      · rw [hl3 d h1]
        exact hIt.pool_not_log x hx d hdp2 h3
    · rw [hpool3]
      exact hIt.pool_nodup
  · rw [hdtl3 dp, if_pos rfl]
    intro hc
    apply hdp_ne_b
    omega
  · intro hc
    apply hdp_ne_b
    rw [← hdpd, ← hc, hbd]

/-- `remap_log_block` on a mapped data block whose log side is at the
cap: the invariant is preserved, counters only grow, erases stay under
the cap, and unless the `data_pba` failure sentinel comes back the log
mapping now points at a fresh under-cap block while the data block's
own counter is untouched. -/
theorem remap_log_spec (g : Geo) (hw : GeoWF g) {s : FtlState} (hI : Inv g s)
    {lb data_pba old_log dp : Nat}
    (hdp : data_pba = dp * g.BLOCK_SIZE) (hdpP : dp < NUM_OF_PHY_B g)
    (hmap : s.data_to_log dp ≠ 0)
    (hcap : g.BLOCK_ERASES ≤ s.erase_count (lIdxN s dp)) :
    Inv g (remap_log_block g s lb data_pba old_log).st
    ∧ (∀ b, s.erase_count b ≤ (remap_log_block g s lb data_pba old_log).st.erase_count b)
    ∧ erases_under_cap g s.erase_count (remap_log_block g s lb data_pba old_log).trace
    ∧ ((remap_log_block g s lb data_pba old_log).val = data_pba
       ∨ ((remap_log_block g s lb data_pba old_log).val
            = (remap_log_block g s lb data_pba old_log).val / g.BLOCK_SIZE * g.BLOCK_SIZE
          ∧ (remap_log_block g s lb data_pba old_log).val / g.BLOCK_SIZE < NUM_OF_PHY_B g
          ∧ (remap_log_block g s lb data_pba old_log).st.data_to_log dp ≠ 0
          ∧ lIdxN (remap_log_block g s lb data_pba old_log).st dp
              = (remap_log_block g s lb data_pba old_log).val / g.BLOCK_SIZE
          ∧ (remap_log_block g s lb data_pba old_log).st.erase_count dp = s.erase_count dp
          ∧ (remap_log_block g s lb data_pba old_log).st.erase_count
              ((remap_log_block g s lb data_pba old_log).val / g.BLOCK_SIZE)
              < g.BLOCK_ERASES
          ∧ (remap_log_block g s lb data_pba old_log).val ≠ data_pba)) := by
  have hbsp := hw.bs_pos
  have hns := numb_spec g hw hI
  cases hrv : (next_unmapped_log_block g s).val with
  | none =>
    have hred : remap_log_block g s lb data_pba old_log
        = ⟨data_pba, (next_unmapped_log_block g s).st,
           (next_unmapped_log_block g s).trace⟩ := by
      unfold remap_log_block
      dsimp only
      rw [hrv]
    rw [hred]
    exact ⟨hns.1, hns.2.1, hns.2.2.1, Or.inl rfl⟩
  | some b =>
    have hred : remap_log_block g s lb data_pba old_log
        = ⟨b,
           { cancel_log_block g (next_unmapped_log_block g s).st data_pba with
             data_to_log := set_log_block g
               (cancel_log_block g (next_unmapped_log_block g s).st
                 data_pba).data_to_log data_pba b,
             log_to_pages := mapAssign
               (cancel_log_block g (next_unmapped_log_block g s).st data_pba).log_to_pages
               b
               ((List.range g.BLOCK_SIZE).foldl
                 (remap_log_step g (next_unmapped_log_block g s).st
                   (manifest_of (next_unmapped_log_block g s).st old_log) lb old_log b)
                 (0, [], [])).2.1 },
           (next_unmapped_log_block g s).trace
             ++ ((List.range g.BLOCK_SIZE).foldl
                 (remap_log_step g (next_unmapped_log_block g s).st
                   (manifest_of (next_unmapped_log_block g s).st old_log) lb old_log b)
                 (0, [], [])).2.2⟩ := by
      unfold remap_log_block
      dsimp only
      rw [hrv]
    have hgc := hns.2.2.2.1 dp hdpP hmap (Or.inr hcap)
    have hmap_t : (next_unmapped_log_block g s).st.data_to_log dp ≠ 0 := by
      rw [hgc.1]
      exact hmap
    obtain ⟨hdvd, hblt, hbec, hbnd, hbnl, hbnp⟩ := hns.2.2.2.2.2.2.2 b hrv
    have hb : b = b / g.BLOCK_SIZE * g.BLOCK_SIZE := (Nat.div_mul_cancel hdvd).symm
    have hbP : b / g.BLOCK_SIZE < NUM_OF_PHY_B g := block_idx_lt_phy g hblt
    have hrs := remap_log_succ g hw hns.1
      ((List.range g.BLOCK_SIZE).foldl
        (remap_log_step g (next_unmapped_log_block g s).st
          (manifest_of (next_unmapped_log_block g s).st old_log) lb old_log b)
        (0, [], [])).2.1
      hdp hdpP hmap_t hb hbP hbnd hbnl hbnp _ rfl
    rw [hred]
    refine ⟨hrs.1, ?_, ?_, Or.inr ⟨?_, ?_, hrs.2.2.1, hrs.2.2.2.1, ?_, ?_, hrs.2.2.2.2.2⟩⟩
    · intro x
      rw [hrs.2.1]
      exact hns.2.1 x
    · intro lba base hmem
      rcases List.mem_append.mp hmem with h | h
      · exact hns.2.2.1 lba base h
      · exact absurd (remap_log_fold_no_er g (next_unmapped_log_block g s).st
          (manifest_of (next_unmapped_log_block g s).st old_log) lb old_log b
          lba base h) id
    · exact hb
    · exact hbP
    · rw [hrs.2.1, hgc.2.2.1]
    · rw [hrs.2.1]
      exact hbec

/-- Erase discipline transfers to any smaller counter assignment. -/
theorem erases_le {g : Geo} {ec0 ec1 : Nat → Nat} (h : ∀ b, ec0 b ≤ ec1 b)
    {tr : List PhysEvent} (htr : erases_under_cap g ec1 tr) : erases_under_cap g ec0 tr :=
  fun lba base hm => lt_of_le_of_lt (h _) (htr lba base hm)

/-- Erase discipline splits over concatenation. -/
theorem erases_append {g : Geo} {ec0 : Nat → Nat} {t1 t2 : List PhysEvent}
    (h1 : erases_under_cap g ec0 t1) (h2 : erases_under_cap g ec0 t2) :
    erases_under_cap g ec0 (t1 ++ t2) := by
  intro lba base hm
  rcases List.mem_append.mp hm with h | h
  · exact h1 lba base h
  · exact h2 lba base h

/-- The empty trace obeys the erase discipline. -/
theorem erases_nil {g : Geo} {ec0 : Nat → Nat} : erases_under_cap g ec0 ([] : List PhysEvent) :=
  fun lba base hm => absurd hm (List.not_mem_nil _)

/-- Marking a page written preserves the invariant. -/
theorem Inv_bitmap_set {g : Geo} {s : FtlState} (hI : Inv g s) (la : Nat) :
    Inv g { s with logical_to_emptiness := set_page_written s.logical_to_emptiness la } := by
  refine ⟨hI.ec_le, hI.ltp_nonneg, hI.ltp_lt, hI.ltp_inj, hI.dtl_nonneg, hI.dtl_lt,
    hI.manifest, hI.log_inj, hI.log_not_data, ?_, hI.pool_aligned, hI.pool_lt,
    hI.pool_fresh, hI.pool_not_data, hI.pool_not_log, hI.pool_nodup⟩
  intro d hdp hm
  obtain ⟨i, hi, hdi, j, hj, hwr⟩ := hI.mapped_data d hdp hm
  exact ⟨i, hi, hdi, j, hj, check_page_empty_set_false hwr⟩

/-- The write path through `clean` (with the manifest reseed on
success) preserves the invariant and the erase discipline. -/
theorem do_clean_spec (g : Geo) (hw : GeoWF g) {s : FtlState} (hI : Inv g s)
    (ec0 : Nat → Nat) (hm0 : ∀ b, ec0 b ≤ s.erase_count b)
    {la page data_address log_address dp : Nat} (tr0 : List PhysEvent)
    (htr0 : erases_under_cap g ec0 tr0)
    (hda : data_address = dp * g.BLOCK_SIZE) (hdpP : dp < NUM_OF_PHY_B g)
    (hmap : s.data_to_log dp ≠ 0)
    (hla2 : log_address = lIdxN s dp * g.BLOCK_SIZE)
    (hdc : s.erase_count dp < g.BLOCK_ERASES)
    (hlc : s.erase_count (lIdxN s dp) < g.BLOCK_ERASES) :
    Inv g (translate_do_clean g s la page data_address log_address tr0).st
    ∧ (∀ b, ec0 b ≤ (translate_do_clean g s la page data_address log_address tr0).st.erase_count b)
    ∧ erases_under_cap g ec0 (translate_do_clean g s la page data_address log_address tr0).trace := by
  have hcp := clean_preserves g hw hI (la - page) hdpP hmap hda hla2 hdc hlc
  have hmono : ∀ b, ec0 b ≤ (clean g s (la - page) data_address log_address).st.erase_count b :=
    fun b => le_trans (hm0 b) (hcp.2.1 b)
  have htr1 : erases_under_cap g ec0
      (tr0 ++ (clean g s (la - page) data_address log_address).trace) :=
    erases_append htr0 (erases_le hm0 hcp.2.2.1)
  cases hcv : (clean g s (la - page) data_address log_address).val with
  | false =>
    have hred : translate_do_clean g s la page data_address log_address tr0
        = ⟨(Status.FAILURE, none), (clean g s (la - page) data_address log_address).st,
           tr0 ++ (clean g s (la - page) data_address log_address).trace⟩ := by
      unfold translate_do_clean
      rw [if_pos hcv]
    rw [hred]
    exact ⟨hcp.1, hmono, htr1⟩
  | true =>
    have hred : translate_do_clean g s la page data_address log_address tr0
        = ⟨(Status.SUCCESS, some (log_address, 0)),
           { (clean g s (la - page) data_address log_address).st with
             log_to_pages := mapAssign
               (clean g s (la - page) data_address log_address).st.log_to_pages
               log_address (to_string page ++ [',']) },
           tr0 ++ (clean g s (la - page) data_address log_address).trace⟩ := by
      unfold translate_do_clean
      rw [if_neg (show ¬ (clean g s (la - page) data_address log_address).val = false from
        fun h => Bool.noConfusion (hcv.symm.trans h))]
    rw [hred]
    refine ⟨?_, hmono, htr1⟩
    refine Inv_log_keep hcp.1 _ ?_
    intro k hk
    rw [mapFind_mapAssign]
    by_cases hkk : k = log_address
    · rw [if_pos hkk]
      rfl
    · rw [if_neg hkk]
      exact hk

/-- The full-log write path from the log-side cap check onwards. -/
theorem translate_remap_log_spec (g : Geo) (hw : GeoWF g) {s : FtlState} (hI : Inv g s)
    (ec0 : Nat → Nat) (hm0 : ∀ b, ec0 b ≤ s.erase_count b)
    {la page data_address log_address dp : Nat} (tr0 : List PhysEvent)
    (htr0 : erases_under_cap g ec0 tr0)
    (hda : data_address = dp * g.BLOCK_SIZE) (hdpP : dp < NUM_OF_PHY_B g)
    (hmap : s.data_to_log dp ≠ 0)
    (hla2 : log_address = lIdxN s dp * g.BLOCK_SIZE)
    (hdc : s.erase_count dp < g.BLOCK_ERASES) :
    Inv g (translate_remap_log g s la page data_address log_address tr0).st
    ∧ (∀ b, ec0 b
        ≤ (translate_remap_log g s la page data_address log_address tr0).st.erase_count b)
    ∧ erases_under_cap g ec0
        (translate_remap_log g s la page data_address log_address tr0).trace := by
  have hbsp := hw.bs_pos
  have hlad : log_address / g.BLOCK_SIZE = lIdxN s dp := by
    rw [hla2, Nat.mul_div_cancel _ hbsp]
  cases hov : over_erase_limit g s.erase_count log_address with
  | false =>
    have hlc : s.erase_count (lIdxN s dp) < g.BLOCK_ERASES := by
      unfold over_erase_limit at hov
      rw [decide_eq_false_iff_not, hlad] at hov
      omega
    have hred : translate_remap_log g s la page data_address log_address tr0
        = translate_do_clean g s la page data_address log_address tr0 := by
      unfold translate_remap_log
      rw [hov]
      rfl
    rw [hred]
    exact do_clean_spec g hw hI ec0 hm0 tr0 htr0 hda hdpP hmap hla2 hdc hlc
  | true =>
    have hcap : g.BLOCK_ERASES ≤ s.erase_count (lIdxN s dp) := by
      unfold over_erase_limit at hov
      rw [decide_eq_true_eq, hlad] at hov
      exact hov
    have hrl := @remap_log_spec g hw _ hI (la - page) _ log_address _
      hda hdpP hmap hcap
    have hm1 : ∀ b, ec0 b
        ≤ (remap_log_block g s (la - page) data_address log_address).st.erase_count b :=
      fun b => le_trans (hm0 b) (hrl.2.1 b)
    have htr1 : erases_under_cap g ec0
        (tr0 ++ (remap_log_block g s (la - page) data_address log_address).trace) :=
      erases_append htr0 (erases_le hm0 hrl.2.2.1)
    by_cases hteq : (remap_log_block g s (la - page) data_address log_address).val
        = data_address
    · have hred : translate_remap_log g s la page data_address log_address tr0
          = ⟨(Status.FAILURE, none),
             (remap_log_block g s (la - page) data_address log_address).st,
             tr0 ++ (remap_log_block g s (la - page) data_address log_address).trace⟩ := by
        unfold translate_remap_log
        rw [hov, if_pos rfl]
        rw [if_pos hteq]
      rw [hred]
      exact ⟨hrl.1, hm1, htr1⟩
    · rcases hrl.2.2.2 with h | ⟨hal, hvP, hmap', hlI', hecdp, hecb, _⟩
      · exact absurd h hteq
      · have hred : translate_remap_log g s la page data_address log_address tr0
            = translate_do_clean g
                (remap_log_block g s (la - page) data_address log_address).st la page
                data_address
                (remap_log_block g s (la - page) data_address log_address).val
                (tr0 ++ (remap_log_block g s (la - page) data_address log_address).trace) := by
          unfold translate_remap_log
          rw [hov, if_pos rfl]
          rw [if_neg hteq]
        rw [hred]
        exact do_clean_spec g hw hrl.1 ec0 hm1 _ htr1 hda hdpP hmap'
          (by rw [hlI']; exact hal) (by rw [hecdp]; exact hdc) (by rw [hlI']; exact hecb)

/-- The whole full-log write path. -/
theorem translate_full_log_spec (g : Geo) (hw : GeoWF g) {s : FtlState} (hI : Inv g s)
    {la page data_address log_address dp : Nat}
    (hla : la < USABLE_SIZE g) (hpage : page = la % g.BLOCK_SIZE)
    (hown : dIdxN s (la / g.BLOCK_SIZE) = dp)
    (hda : data_address = dp * g.BLOCK_SIZE) (hdpP : dp < NUM_OF_PHY_B g)
    (hmap : s.data_to_log dp ≠ 0)
    (hla2 : log_address = lIdxN s dp * g.BLOCK_SIZE) :
    Inv g (translate_full_log g s la page data_address log_address).st
    ∧ (∀ b, s.erase_count b
        ≤ (translate_full_log g s la page data_address log_address).st.erase_count b)
    ∧ erases_under_cap g s.erase_count
        (translate_full_log g s la page data_address log_address).trace := by
  have hbsp := hw.bs_pos
  have hdad : data_address / g.BLOCK_SIZE = dp := by
    rw [hda, Nat.mul_div_cancel _ hbsp]
  cases hov : over_erase_limit g s.erase_count data_address with
  | false =>
    have hdc : s.erase_count dp < g.BLOCK_ERASES := by
      unfold over_erase_limit at hov
      rw [decide_eq_false_iff_not, hdad] at hov
      omega
    have hred : translate_full_log g s la page data_address log_address
        = translate_remap_log g s la page data_address log_address [] := by
      unfold translate_full_log
      rw [hov]
      rfl
    rw [hred]
    exact translate_remap_log_spec g hw hI s.erase_count (fun b => le_refl _) []
      erases_nil hda hdpP hmap hla2 hdc
  | true =>
    have hcap : g.BLOCK_ERASES ≤ s.erase_count dp := by
      unfold over_erase_limit at hov
      rw [decide_eq_true_eq, hdad] at hov
      exact hov
    have hi0 : la / g.BLOCK_SIZE < NUM_OF_LGC_B g := lt_lgc_of_lt_usable hw hla
    have hlb : la - page = la / g.BLOCK_SIZE * g.BLOCK_SIZE := by
      have h1 := Nat.mod_add_div la g.BLOCK_SIZE
      rw [Nat.mul_comm] at h1
      rw [hpage]
      omega
    have hrd := remap_data_spec g hw hI hi0 hlb hown hda hdpP hmap hla2 hcap
    by_cases hteq : log_address
        = (remap_data_block g s (la - page) data_address log_address).val
    · have hred : translate_full_log g s la page data_address log_address
          = ⟨(Status.FAILURE, none),
             (remap_data_block g s (la - page) data_address log_address).st,
             (remap_data_block g s (la - page) data_address log_address).trace⟩ := by
        unfold translate_full_log
        rw [hov, if_pos rfl]
        rw [if_pos hteq]
      rw [hred]
      exact ⟨hrd.1, hrd.2.1, hrd.2.2.1⟩
    · rcases hrd.2.2.2 with h | ⟨hal, hvP, hmap', hlI', hown', hecnew, heclog, _⟩
      · exact absurd h.symm hteq
      · have halog : log_address / g.BLOCK_SIZE * g.BLOCK_SIZE = log_address := by
          rw [hla2, Nat.mul_div_cancel _ hbsp]
        have hred : translate_full_log g s la page data_address log_address
            = translate_remap_log g
                (remap_data_block g s (la - page) data_address log_address).st la page
                (remap_data_block g s (la - page) data_address log_address).val
                log_address
                (remap_data_block g s (la - page) data_address log_address).trace := by
          unfold translate_full_log
          rw [hov, if_pos rfl]
          rw [if_neg hteq]
        rw [hred]
        exact translate_remap_log_spec g hw hrd.1 s.erase_count hrd.2.1 _ hrd.2.2.1
          hal hvP hmap' (by rw [hlI']; exact halog.symm) hecnew

/-- The invariant survives mapping a fresh log block onto a written,
previously unmapped data block. -/
theorem Inv_new_mapping (g : Geo) (hw : GeoWF g) {t st : FtlState} (hIt : Inv g t)
    {dp bI : Nat} (v : List Char)
    (hdpP : dp < NUM_OF_PHY_B g) (hun : t.data_to_log dp = 0)
    (hbP : bI < NUM_OF_PHY_B g)
    (hbnd : ∀ i, i < NUM_OF_LGC_B g → dIdxN t i ≠ bI)
    (hbnl : ∀ d, d < NUM_OF_PHY_B g → t.data_to_log d ≠ 0 → lIdxN t d ≠ bI)
    (hbpool : bI * g.BLOCK_SIZE ∉ t.op_blocks)
    (howner : ∃ i0, i0 < NUM_OF_LGC_B g ∧ dIdxN t i0 = dp ∧ ∃ j, j < g.BLOCK_SIZE
        ∧ check_page_empty t.logical_to_emptiness (i0 * g.BLOCK_SIZE + j) = false)
    (hbm : st.logical_to_emptiness = t.logical_to_emptiness)
    (hec : st.erase_count = t.erase_count)
    (hltp : st.logical_to_physical = t.logical_to_physical)
    (hdtl3 : ∀ d, st.data_to_log d
        = if d = dp then ((bI : Nat) : Int) - ((dp : Nat) : Int) else t.data_to_log d)
    (hlog3 : st.log_to_pages = mapInsert t.log_to_pages (bI * g.BLOCK_SIZE) v)
    (hpool3 : st.op_blocks = t.op_blocks) :
    Inv g st := by
  have hbsp := hw.bs_pos
  obtain ⟨i0, hi0, hown0, j0, hj0, hwr0⟩ := howner
  have hdp_ne_b : dp ≠ bI := by
    intro hc
    exact hbnd i0 hi0 (by rw [hown0, hc])
  have hd3 : ∀ i, dIdxN st i = dIdxN t i := by
    intro i
    unfold dIdxN
    rw [hltp]
  have hl3 : ∀ d, d ≠ dp → lIdxN st d = lIdxN t d := by
    intro d h1
    unfold lIdxN
    rw [hdtl3 d, if_neg h1]
  have hl3b : lIdxN st dp = bI := by
    show ((dp : Int) + st.data_to_log dp).toNat = bI
    rw [hdtl3 dp, if_pos rfl]
    omega
  have hmm3 : ∀ d, st.data_to_log d ≠ 0 → d = dp ∨ (d ≠ dp ∧ t.data_to_log d ≠ 0) := by
    intro d hm
    rw [hdtl3 d] at hm
    by_cases h1 : d = dp
    · exact Or.inl h1
    · rw [if_neg h1] at hm
      exact Or.inr ⟨h1, hm⟩
  refine ⟨?_, ?_, ?_, ?_, ?_, ?_, ?_, ?_, ?_, ?_, ?_, ?_, ?_, ?_, ?_, ?_⟩
  · intro x
    rw [hec]
    exact hIt.ec_le x
  · intro i hi
    rw [hltp]
    exact hIt.ltp_nonneg i hi
  · intro i hi
    rw [hd3 i]
    exact hIt.ltp_lt i hi
  · intro i hi j hj hij
    rw [hd3 i, hd3 j] at hij
    exact hIt.ltp_inj i hi j hj hij
  · intro d hdp2 hm
    rcases hmm3 d hm with h1 | ⟨h1, h3⟩
    · rw [h1, hdtl3 dp, if_pos rfl]
      omega
    · rw [hdtl3 d, if_neg h1]
      exact hIt.dtl_nonneg d hdp2 h3
  · intro d hdp2 hm
    rcases hmm3 d hm with h1 | ⟨h1, h3⟩
    · rw [h1, hl3b]
      exact hbP
    · rw [hl3 d h1]
      exact hIt.dtl_lt d hdp2 h3
  · intro d hdp2 hm
    rw [hlog3]
    rcases hmm3 d hm with h1 | ⟨h1, h3⟩
    · rw [h1, hl3b, mapFind_mapInsert]
      simp
    · rw [hl3 d h1, mapFind_mapInsert, hIt.manifest d hdp2 h3]
      simp
  · intro d hdp2 d' hdp2' hm hm' hll
    rcases hmm3 d hm with h1 | ⟨h1, h3⟩ <;> rcases hmm3 d' hm' with h1' | ⟨h1', h3'⟩
    · rw [h1, h1']
    · rw [h1, hl3b, hl3 d' h1'] at hll
      exact absurd hll.symm (hbnl d' hdp2' h3')
    · rw [h1', hl3 d h1, hl3b] at hll
      exact absurd hll (hbnl d hdp2 h3)
    · rw [hl3 d h1, hl3 d' h1'] at hll
      exact hIt.log_inj d hdp2 d' hdp2' h3 h3' hll
  · intro d hdp2 hm i hi
    rw [hd3 i]
    rcases hmm3 d hm with h1 | ⟨h1, h3⟩
    · rw [h1, hl3b]
      exact hbnd i hi
    · rw [hl3 d h1]
      exact hIt.log_not_data d hdp2 h3 i hi
  · intro d hdp2 hm
    rcases hmm3 d hm with h1 | ⟨h1, h3⟩
    · refine ⟨i0, hi0, ?_, j0, hj0, ?_⟩
      · rw [hd3 i0, hown0, h1]
      · rw [hbm]
        exact hwr0
    · obtain ⟨iW, hiW, hdiW, j', hj', hwr'⟩ := hIt.mapped_data d hdp2 h3
      refine ⟨iW, hiW, ?_, j', hj', ?_⟩
      · rw [hd3 iW]
        exact hdiW
      · rw [hbm]
        exact hwr'
  · intro x hx
    rw [hpool3] at hx
    exact hIt.pool_aligned x hx
  · intro x hx
    rw [hpool3] at hx
    exact hIt.pool_lt x hx
  · intro x hx
    rw [hpool3] at hx
    rw [hec]
    exact hIt.pool_fresh x hx
  · intro x hx i hi
    rw [hpool3] at hx
    rw [hd3 i]
    exact hIt.pool_not_data x hx i hi
  · intro x hx d hdp2 hm
    rw [hpool3] at hx
    rcases hmm3 d hm with h1 | ⟨h1, h3⟩
    · rw [h1, hl3b]
      intro hc
      apply hbpool
      have hxa : x = (x / g.BLOCK_SIZE) * g.BLOCK_SIZE := by
        obtain ⟨q, hq⟩ := hIt.pool_aligned x hx
        rw [hq, Nat.mul_div_cancel_left _ hbsp, Nat.mul_comm]
      rw [hc, ← hxa]
      exact hx
    · rw [hl3 d h1]
      exact hIt.pool_not_log x hx d hdp2 h3
  · rw [hpool3]
    exact hIt.pool_nodup

/-- `translate` preserves the invariant; erase counters only grow and
every ERASE issued targets a block under the cap of the entry state. -/
theorem translate_preserves (g : Geo) (hw : GeoWF g) {s : FtlState} (hI : Inv g s)
    (e : HostEvent) :
    Inv g (translate g s e).st
    ∧ (∀ b, s.erase_count b ≤ (translate g s e).st.erase_count b)
    ∧ erases_under_cap g s.erase_count (translate g s e).trace := by
  have hbsp := hw.bs_pos
  by_cases hla : USABLE_SIZE g ≤ e.lba
  · have hred : translate g s e = ⟨(Status.FAILURE, none), s, []⟩ := by
      unfold translate
      dsimp only
      rw [if_pos hla]
    rw [hred]
    exact ⟨hI, fun b => le_refl _, erases_nil⟩
  · have hlaU : e.lba < USABLE_SIZE g := Nat.lt_of_not_le hla
    have hiL : e.lba / g.BLOCK_SIZE < NUM_OF_LGC_B g := lt_lgc_of_lt_usable hw hlaU
    have hdpP : dIdxN s (e.lba / g.BLOCK_SIZE) < NUM_OF_PHY_B g := hI.ltp_lt _ hiL
    have hpa : check_physical_address g s.logical_to_physical e.lba
        = e.lba % g.BLOCK_SIZE + dIdxN s (e.lba / g.BLOCK_SIZE) * g.BLOCK_SIZE := rfl
    have hpage : check_physical_address g s.logical_to_physical e.lba % g.BLOCK_SIZE
        = e.lba % g.BLOCK_SIZE := by
      rw [hpa, Nat.add_mul_mod_self_right]
      exact Nat.mod_eq_of_lt (Nat.mod_lt _ hbsp)
    have hda : check_physical_address g s.logical_to_physical e.lba
          - check_physical_address g s.logical_to_physical e.lba % g.BLOCK_SIZE
        = dIdxN s (e.lba / g.BLOCK_SIZE) * g.BLOCK_SIZE := by
      rw [hpage]
      omega
    cases hop : e.op with
    | READ =>
      have hred : (translate g s e).st = s ∧ (translate g s e).trace = [] := by
        unfold translate
        dsimp only
        rw [if_neg hla, hop]
        dsimp only
        split
        · exact ⟨rfl, rfl⟩
        · split
          · split
            · exact ⟨rfl, rfl⟩
            · exact ⟨rfl, rfl⟩
          · exact ⟨rfl, rfl⟩
      rw [hred.1, hred.2]
      exact ⟨hI, fun b => le_refl _, erases_nil⟩
    | ERASE =>
      have hred : translate g s e = ⟨(Status.FAILURE, none), s, []⟩ := by
        unfold translate
        dsimp only
        rw [if_neg hla, hop]
      rw [hred]
      exact ⟨hI, fun b => le_refl _, erases_nil⟩
    | MERGE =>
      have hred : translate g s e = ⟨(Status.FAILURE, none), s, []⟩ := by
        unfold translate
        dsimp only
        rw [if_neg hla, hop]
      rw [hred]
      exact ⟨hI, fun b => le_refl _, erases_nil⟩
    | WRITE =>
      by_cases hpe2 : check_page_empty s.logical_to_emptiness e.lba = true
      · have hred : translate g s e
            = ⟨(Status.SUCCESS, some
                  (check_physical_address g s.logical_to_physical e.lba
                     - check_physical_address g s.logical_to_physical e.lba % g.BLOCK_SIZE,
                   check_physical_address g s.logical_to_physical e.lba % g.BLOCK_SIZE)),
               { s with logical_to_emptiness := set_page_written s.logical_to_emptiness e.lba },
               []⟩ := by
          unfold translate
          dsimp only
          rw [if_neg hla, hop]
          dsimp only
          rw [if_pos hpe2]
        rw [hred]
        exact ⟨Inv_bitmap_set hI e.lba, fun b => le_refl _, erases_nil⟩
      · have hwrla : check_page_empty s.logical_to_emptiness e.lba = false :=
          Bool.eq_false_iff.mpr hpe2
        cases hclb : check_log_block g s.data_to_log
            (check_physical_address g s.logical_to_physical e.lba
              - check_physical_address g s.logical_to_physical e.lba % g.BLOCK_SIZE) with
        | some log_address =>
          have hclb2 : check_log_block g s.data_to_log
              (dIdxN s (e.lba / g.BLOCK_SIZE) * g.BLOCK_SIZE) = some log_address := by
            rw [← hda]
            exact hclb
          rw [clb_block g _ _ hbsp] at hclb2
          by_cases hm : s.data_to_log (dIdxN s (e.lba / g.BLOCK_SIZE)) = 0
          · rw [if_pos hm] at hclb2
            exact absurd hclb2 (by simp)
          · rw [if_neg hm] at hclb2
            have hla2 : log_address
                = lIdxN s (dIdxN s (e.lba / g.BLOCK_SIZE)) * g.BLOCK_SIZE :=
              (Option.some.inj hclb2).symm
            cases hnf : next_free_log_page g (manifest_of s log_address) with
            | some log_page =>
              have hred : translate g s e
                  = ⟨(Status.SUCCESS, some (log_address, log_page)),
                     { s with log_to_pages := (mapAssign s.log_to_pages log_address
                         (manifest_of s log_address
                           ++ (to_string (check_physical_address g s.logical_to_physical
                                 e.lba % g.BLOCK_SIZE) ++ [',']))) },
                     []⟩ := by
                unfold translate
                dsimp only
                rw [if_neg hla, hop]
                dsimp only
                rw [if_neg hpe2, hclb]
                dsimp only
                rw [hnf]
              rw [hred]
              refine ⟨?_, fun b => le_refl _, erases_nil⟩
              refine Inv_log_keep hI _ ?_
              intro k hk
              rw [mapFind_mapAssign]
              by_cases hkk : k = log_address
              · rw [if_pos hkk]
                rfl
              · rw [if_neg hkk]
                exact hk
            | none =>
              have hred : translate g s e
                  = translate_full_log g s e.lba
                      (check_physical_address g s.logical_to_physical e.lba % g.BLOCK_SIZE)
                      (check_physical_address g s.logical_to_physical e.lba
                        - check_physical_address g s.logical_to_physical e.lba
                            % g.BLOCK_SIZE)
                      log_address := by
                unfold translate
                dsimp only
                rw [if_neg hla, hop]
                dsimp only
                rw [if_neg hpe2, hclb]
                dsimp only
                rw [hnf]
              rw [hred]
              exact translate_full_log_spec g hw hI hlaU hpage rfl hda hdpP hm hla2
        | none =>
          have hm0 : s.data_to_log (dIdxN s (e.lba / g.BLOCK_SIZE)) = 0 := by
            have hclb2 : check_log_block g s.data_to_log
                (dIdxN s (e.lba / g.BLOCK_SIZE) * g.BLOCK_SIZE) = none := by
              rw [← hda]
              exact hclb
            rw [clb_block g _ _ hbsp] at hclb2
            by_cases hm : s.data_to_log (dIdxN s (e.lba / g.BLOCK_SIZE)) = 0
            · exact hm
            · rw [if_neg hm] at hclb2
              exact absurd hclb2 (by simp)
          have hns := numb_spec g hw hI
          cases hrv : (next_unmapped_log_block g s).val with
          | none =>
            have hred : translate g s e
                = ⟨(Status.FAILURE, none), (next_unmapped_log_block g s).st,
                   (next_unmapped_log_block g s).trace⟩ := by
              unfold translate
              dsimp only
              rw [if_neg hla, hop]
              dsimp only
              rw [if_neg hpe2, hclb]
              dsimp only
              rw [hrv]
            rw [hred]
            exact ⟨hns.1, hns.2.1, hns.2.2.1⟩
          | some b =>
            obtain ⟨hdvd, hblt, hbec, hbnd, hbnl, hbnp⟩ := hns.2.2.2.2.2.2.2 b hrv
            have hb : b = b / g.BLOCK_SIZE * g.BLOCK_SIZE := (Nat.div_mul_cancel hdvd).symm
            have hbP : b / g.BLOCK_SIZE < NUM_OF_PHY_B g := block_idx_lt_phy g hblt
            have htdtl0 : (next_unmapped_log_block g s).st.data_to_log
                (dIdxN s (e.lba / g.BLOCK_SIZE)) = 0 := by
              rcases hns.2.2.2.2.1 (dIdxN s (e.lba / g.BLOCK_SIZE)) with h | h
              · rw [h]
                exact hm0
              · exact h
            have hdad : (check_physical_address g s.logical_to_physical e.lba
                - check_physical_address g s.logical_to_physical e.lba % g.BLOCK_SIZE)
                  / g.BLOCK_SIZE = dIdxN s (e.lba / g.BLOCK_SIZE) := by
              rw [hda, Nat.mul_div_cancel _ hbsp]
            have hred : translate g s e
                = ⟨(Status.SUCCESS, some (b, 0)),
                   { (next_unmapped_log_block g s).st with
                     data_to_log := (set_log_block g
                       (next_unmapped_log_block g s).st.data_to_log
                       (check_physical_address g s.logical_to_physical e.lba
                         - check_physical_address g s.logical_to_physical e.lba
                             % g.BLOCK_SIZE) b),
                     log_to_pages := (mapInsert
                       (next_unmapped_log_block g s).st.log_to_pages b
                       (to_string (check_physical_address g s.logical_to_physical e.lba
                           % g.BLOCK_SIZE) ++ [','])) },
                   (next_unmapped_log_block g s).trace⟩ := by
              unfold translate
              dsimp only
              rw [if_neg hla, hop]
              dsimp only
              rw [if_neg hpe2, hclb]
              dsimp only
              rw [hrv]
            rw [hred]
            refine ⟨?_, hns.2.1, hns.2.2.1⟩
            by_cases hbda : b / g.BLOCK_SIZE = dIdxN s (e.lba / g.BLOCK_SIZE)
            · refine Inv_congr (Inv_log_keep hns.1
                (mapInsert (next_unmapped_log_block g s).st.log_to_pages b
                  (to_string (check_physical_address g s.logical_to_physical e.lba
                      % g.BLOCK_SIZE) ++ [','])) ?_) ?_ ?_ ?_ ?_ rfl rfl
              · intro k hk
                rw [mapFind_mapInsert, hk]
                simp
              · intro x
                rfl
              · intro x
                rfl
              · intro i
                rfl
              · intro d
                show set_log_block g (next_unmapped_log_block g s).st.data_to_log _ b d = _
                unfold set_log_block
                rw [hdad]
                by_cases h1 : d = dIdxN s (e.lba / g.BLOCK_SIZE)
                · rw [if_pos h1, h1, htdtl0, hbda]
                  simp
                · rw [if_neg h1]
            · have hown_t : dIdxN (next_unmapped_log_block g s).st (e.lba / g.BLOCK_SIZE)
                  = dIdxN s (e.lba / g.BLOCK_SIZE) := by
                by_contra hne
                have hx := hns.2.2.2.2.2.2.1 (e.lba / g.BLOCK_SIZE) hiL hne
                rw [hrv] at hx
                have hbeq := Option.some.inj hx
                rw [hbeq, Nat.mul_div_cancel _ hbsp] at hbda
                exact hbda rfl
              refine Inv_new_mapping g hw hns.1
                (to_string (check_physical_address g s.logical_to_physical e.lba
                    % g.BLOCK_SIZE) ++ [','])
                hdpP htdtl0 hbP hbnd hbnl ?_ ?_ rfl rfl rfl ?_ ?_ rfl
              · rw [← hb]
                exact hbnp
              · refine ⟨e.lba / g.BLOCK_SIZE, hiL, hown_t, e.lba % g.BLOCK_SIZE,
                  Nat.mod_lt _ hbsp, ?_⟩
                rw [hns.2.2.2.2.2.1]
                rw [show e.lba / g.BLOCK_SIZE * g.BLOCK_SIZE + e.lba % g.BLOCK_SIZE
                    = e.lba from by
                  have h1 := Nat.mod_add_div e.lba g.BLOCK_SIZE
                  rw [Nat.mul_comm] at h1
                  omega]
                exact hwrla
              · intro d
                show set_log_block g (next_unmapped_log_block g s).st.data_to_log _ b d = _
                unfold set_log_block
                rw [hdad]
              · show mapInsert (next_unmapped_log_block g s).st.log_to_pages b _
                    = mapInsert (next_unmapped_log_block g s).st.log_to_pages
                        (b / g.BLOCK_SIZE * g.BLOCK_SIZE) _
                rw [← hb]

/-- The freshly initialized FTL state satisfies the invariant. -/
theorem inv_init (g : Geo) (hw : GeoWF g) : Inv g (init_ftl_user g) := by
  have hbsp := hw.bs_pos
  obtain ⟨q, hq⟩ := hw.bs_dvd_op
  have hraw : RAW_SIZE g - USABLE_SIZE g = g.OP_SIZE := by
    have hop := hw.op_le
    unfold USABLE_SIZE
    omega
  have hC : (RAW_SIZE g - USABLE_SIZE g + g.BLOCK_SIZE - 1) / g.BLOCK_SIZE = q := by
    rw [hraw, hq]
    have h1 : g.BLOCK_SIZE * q + g.BLOCK_SIZE - 1
        = g.BLOCK_SIZE * q + (g.BLOCK_SIZE - 1) := by
      omega
    rw [h1, Nat.mul_add_div hbsp, Nat.div_eq_of_lt (by omega)]
    omega
  have hdid : ∀ i, dIdxN (init_ftl_user g) i = i := by
    intro i
    show ((i : Int) + 0).toNat = i
    simp
  have hmem : ∀ b ∈ (init_ftl_user g).op_blocks,
      ∃ k, k < q ∧ b = USABLE_SIZE g + k * g.BLOCK_SIZE := by
    intro b hb
    have hb2 : b ∈ (List.range ((RAW_SIZE g - USABLE_SIZE g + g.BLOCK_SIZE - 1)
        / g.BLOCK_SIZE)).map (fun k => USABLE_SIZE g + k * g.BLOCK_SIZE) := hb
    obtain ⟨k, hk, rfl⟩ := List.mem_map.mp hb2
    refine ⟨k, ?_, rfl⟩
    rw [← hC]
    exact List.mem_range.mp hk
  refine ⟨?_, ?_, ?_, ?_, ?_, ?_, ?_, ?_, ?_, ?_, ?_, ?_, ?_, ?_, ?_, ?_⟩
  · intro b
    exact Nat.zero_le _
  · intro i hi
    show (0 : Int) ≤ (i : Int) + 0
    simp
  · intro i hi
    rw [hdid]
    exact Nat.lt_of_lt_of_le hi (lgc_le_phy g)
  · intro i hi j hj h
    rw [hdid, hdid] at h
    exact h
  · intro d hd h0
    exact absurd rfl h0
  · intro d hd h0
    exact absurd rfl h0
  · intro d hd h0
    exact absurd rfl h0
  · intro d hd d' hd' h0
    exact absurd rfl h0
  · intro d hd h0
    exact absurd rfl h0
  · intro d hd h0
    exact absurd rfl h0
  · intro b hb
    obtain ⟨k, hk, rfl⟩ := hmem b hb
    exact Nat.dvd_add (bs_dvd_usable hw) (dvd_mul_left _ _)
  · intro b hb
    obtain ⟨k, hk, rfl⟩ := hmem b hb
    have hkq1 : k + 1 ≤ q := hk
    have hmul : g.BLOCK_SIZE * k + g.BLOCK_SIZE ≤ g.BLOCK_SIZE * q := by
      have h1 : g.BLOCK_SIZE * (k + 1) ≤ g.BLOCK_SIZE * q :=
        Nat.mul_le_mul (le_refl _) hkq1
      rw [Nat.mul_succ] at h1
      exact h1
    have hcomm : k * g.BLOCK_SIZE = g.BLOCK_SIZE * k := Nat.mul_comm _ _
    have hop := hw.op_le
    have hus : USABLE_SIZE g = RAW_SIZE g - g.OP_SIZE := rfl
    omega
  · intro b hb
    exact hw.cap_pos
  · intro b hb i hi
    obtain ⟨k, hk, rfl⟩ := hmem b hb
    rw [hdid, Nat.add_mul_div_right _ _ hbsp]
    have hnl : USABLE_SIZE g / g.BLOCK_SIZE = NUM_OF_LGC_B g := rfl
    omega
  · intro b hb d hd h0
    exact absurd rfl h0
  · show ((List.range ((RAW_SIZE g - USABLE_SIZE g + g.BLOCK_SIZE - 1)
        / g.BLOCK_SIZE)).map (fun k => USABLE_SIZE g + k * g.BLOCK_SIZE)).Nodup
    refine List.Nodup.map ?_ (List.nodup_range _)
    intro a b h
    dsimp at h
    have h2 : a * g.BLOCK_SIZE = b * g.BLOCK_SIZE := by omega
    exact Nat.eq_of_mul_eq_mul_right hbsp h2

/-- Folding any workload through `translate` from an invariant state
keeps the invariant and never decreases an erase counter. -/
theorem ec_fold_mono (g : Geo) (hw : GeoWF g) :
    ∀ (evs : List HostEvent) (s : FtlState), Inv g s →
      Inv g (evs.foldl (fun s e => (translate g s e).st) s)
      ∧ ∀ b, s.erase_count b
          ≤ (evs.foldl (fun s e => (translate g s e).st) s).erase_count b := by
  intro evs
  induction evs with
  | nil =>
    intro s hI
    exact ⟨hI, fun b => le_refl _⟩
  | cons e t ih =>
    intro s hI
    have h1 := translate_preserves g hw hI e
    have h2 := ih _ h1.1
    exact ⟨h2.1, fun b => le_trans (h1.2.1 b) (h2.2 b)⟩

/-- Every reachable FTL state satisfies the invariant. -/
theorem inv_run (g : Geo) (hw : GeoWF g) (evs : List HostEvent) :
    Inv g (runEvents g evs) :=
  (ec_fold_mono g hw evs _ (inv_init g hw)).1

/-- Modelled from the spec: the Controller issues the host event's own
physical operation at the address translate resolved, whenever
translation succeeds with an address; failures and addressless
successes issue nothing for the host access itself. -/
def host_issued (g : Geo) (s : FtlState) (e : HostEvent) : List PhysEvent :=
  match (translate g s e).val with
  | (Status.SUCCESS, some (base, page)) =>
    match e.op with
    | EvType.WRITE => [PhysEvent.wr e.lba base page]
    | EvType.READ => [PhysEvent.rd e.lba base page]
    | _ => []
  | _ => []

/-- A host write to logical address 0. -/
def wev : HostEvent := ⟨EvType.WRITE, 0⟩

/-- Tight geometry for the C5 counterexample: erase cap 1. -/
def c5geo : Geo := ⟨1, 1, 1, 4, 4, 1, 4⟩

/-- C9: in every reachable FTL state, whenever the data-to-log offset
of a data block `d` is nonzero (a log block is mapped to `d`), the
manifest map `log_to_pages` holds an entry keyed by the mapped log
block's base address, so every manifest lookup performed on a mapped
log block finds its entry. -/
theorem c9_mapped_manifest_present (g : Geo) (hw : GeoWF g) (evs : List HostEvent)
    (d : Nat) (hd : d < NUM_OF_PHY_B g)
    (hmap : (runEvents g evs).data_to_log d ≠ 0) :
    (mapFind (runEvents g evs).log_to_pages
      (lIdxN (runEvents g evs) d * g.BLOCK_SIZE)).isSome = true :=
  (inv_run g hw evs).manifest d hd hmap

/-- Witness for C9: after two writes to logical page 0 the data block 0
is mapped, and the manifest entry of its log block is present. -/
theorem c9_mapped_manifest_present_witness :
    0 < NUM_OF_PHY_B wgeo
    ∧ (runEvents wgeo [wev, wev]).data_to_log 0 ≠ 0
    ∧ (mapFind (runEvents wgeo [wev, wev]).log_to_pages
        (lIdxN (runEvents wgeo [wev, wev]) 0 * wgeo.BLOCK_SIZE)).isSome = true :=
  ⟨by decide, by decide,
    c9_mapped_manifest_present wgeo ⟨by decide, by decide, by decide, by decide⟩
      [wev, wev] 0 (by decide) (by decide)⟩

/-- C5 counterexample: with erase cap 1, after six writes to logical
page 0 block 3 sits exactly at the cap, yet translating a seventh
write succeeds with physical address (12, 1), so the host's physical
WRITE is issued against block 12 / 4 = 3, which is at the cap —
refuting the claim that no later physical WRITE targets an at-cap
block. -/
theorem c5_counterexample :
    (runEvents c5geo (List.replicate 6 ⟨EvType.WRITE, 0⟩)).erase_count 3
        = c5geo.BLOCK_ERASES
    ∧ host_issued c5geo (runEvents c5geo (List.replicate 6 ⟨EvType.WRITE, 0⟩))
        ⟨EvType.WRITE, 0⟩ = [PhysEvent.wr 0 12 1]
    ∧ (12 : Nat) / c5geo.BLOCK_SIZE = 3 :=
  ⟨by decide, by decide, by decide⟩

/-- C5 (amended): after initialization and after every host event,
every erase counter stays at or below BLOCK_ERASES; counters never
decrease along the run; and every ERASE the FTL issues while handling
an event targets a block strictly under the cap at the event's entry
state, so no ERASE is ever issued against a block already at the cap.
(Host READ/WRITE accesses may still be issued against such a block.) -/
theorem c5_erase_cap (g : Geo) (hw : GeoWF g) (evs : List HostEvent) :
    (∀ b, (runEvents g evs).erase_count b ≤ g.BLOCK_ERASES)
    ∧ ∀ l1 e l2, evs = l1 ++ e :: l2 →
        (∀ b, (runEvents g l1).erase_count b ≤ (runEvents g evs).erase_count b)
        ∧ erases_under_cap g (runEvents g l1).erase_count
            (translate g (runEvents g l1) e).trace
        ∧ ∀ B, (runEvents g l1).erase_count B = g.BLOCK_ERASES →
            ∀ lba base, PhysEvent.er lba base ∈ (translate g (runEvents g l1) e).trace →
              base / g.BLOCK_SIZE ≠ B := by
  refine ⟨fun b => (inv_run g hw evs).ec_le b, ?_⟩
  intro l1 e l2 hsplit
  have hIl1 : Inv g (runEvents g l1) := inv_run g hw l1
  have htp := translate_preserves g hw hIl1 e
  refine ⟨?_, htp.2.2, ?_⟩
  · intro b
    have hre : runEvents g evs
        = l2.foldl (fun s e => (translate g s e).st)
            (translate g (runEvents g l1) e).st := by
      rw [hsplit]
      unfold runEvents
      rw [List.foldl_append]
      rfl
    rw [hre]
    have h2 := ec_fold_mono g hw l2 _ htp.1
    exact le_trans (htp.2.1 b) (h2.2 b)
  · intro B hB lba base hmem h
    have hlt := htp.2.2 lba base hmem
    rw [h, hB] at hlt
    exact lt_irrefl _ hlt

/-- Witness for the amended C5: a concrete instance of the cap bound. -/
theorem c5_erase_cap_witness :
    (runEvents wgeo [wev]).erase_count 0 ≤ wgeo.BLOCK_ERASES :=
  (c5_erase_cap wgeo ⟨by decide, by decide, by decide, by decide⟩ [wev]).1 0

end FlashFtl
